import Mathlib

/-!
# Reflective RAML generation (`raml.go`): a shallow embedding

The Go code works on `reflect.Type` values.  A `reflect.Type` is modelled as an
identifier (`TypeId`) interpreted in a table `Reflect` that answers the
methods the code calls on it: `Name()`, `Kind()`, `Elem()`, `Key()`,
`Field(i)` and `String()`.  Type identity (`t == timeType`, map keys of
`cycleMap`) is identity of identifiers.  The table may be cyclic, exactly as
Go types may be (`type T struct { Next *T }`, `type S []S`), so every
recursive function of the source carries a fuel argument that bounds the
depth of the Go call stack.
-/

namespace Rapid

/-! ## The reflection model -/

/-- A `reflect.Type`: an identifier resolved in a `Reflect` table. -/
abbrev TypeId := Nat

/-- The kinds of `reflect.Kind`, in the order of the Go declaration. -/
inductive Kind
  | Invalid | Bool
  | Int | Int8 | Int16 | Int32 | Int64
  | Uint | Uint8 | Uint16 | Uint32 | Uint64 | Uintptr
  | Float32 | Float64 | Complex64 | Complex128
  | Array | Chan | Func | Interface | Map | Ptr | Slice | String | Struct
  | UnsafePointer
  deriving DecidableEq, Repr

/-- A `reflect.StructField`: the field name, the package path (empty exactly
for exported fields), the field type and the raw struct tag. -/
structure StructField where
  Name : String
  PkgPath : String
  Typ : TypeId
  Tag : String := ""
  deriving DecidableEq, Repr

/-- The reflection table: what the methods of `reflect.Type` answer for each
type, together with `timeType = reflect.TypeOf(time.Time{})` and the
library predicate `unicode.IsLower`. -/
structure Reflect where
  Name : TypeId → String
  Kind : TypeId → Kind
  Elem : TypeId → TypeId
  Key : TypeId → TypeId
  Fields : TypeId → List StructField
  TypeString : TypeId → String
  timeType : TypeId
  timeIsStruct : Kind timeType = Rapid.Kind.Struct
  IsLower : Char → Bool

/-- Result of running a piece of Go code with a bounded call depth: it
returns, it panics, or the bound was too small. -/
inductive Outcome (α : Type)
  | done (a : α)
  | panic (msg : String)
  | outOfFuel
  deriving DecidableEq, Repr

/-- Sequencing of two steps: the second runs on the result of the first;
a panic or an exhausted call depth of the first is the outcome. -/
def Outcome.bind {α β : Type} (x : Outcome α) (f : α → Outcome β) : Outcome β :=
  match x with
  | Outcome.done a => f a
  | Outcome.panic msg => Outcome.panic msg
  | Outcome.outOfFuel => Outcome.outOfFuel

/-- A `reflect.Value` as built by `makeRAMLExampleValue`:
`zero t` is `reflect.New(t).Elem()` left untouched, `struct t fs` is
`reflect.New(t).Elem()` of a struct type after the field loop (one value per
field, unset fields being `zero`), `slice t xs` is `reflect.MakeSlice`
followed by `reflect.Append`, `map t kvs` is `reflect.MakeMap` followed by
`SetMapIndex`, and `ptr v` is `v.Addr()`. -/
inductive Value
  | zero (t : TypeId)
  | struct (t : TypeId) (fields : List Value)
  | slice (t : TypeId) (elems : List Value)
  | map (t : TypeId) (entries : List (Value × Value))
  | ptr (v : Value)
  deriving Repr

/-- `Value.CanAddr`.  The reflect documentation: "A value is addressable if it
is an element of a slice, an element of an addressable array, a field of an
addressable struct, or the result of dereferencing a pointer."  So
`reflect.New(t).Elem()` is addressable, before and after its fields are set;
the results of `reflect.Append`, `reflect.MakeMap` and `Addr` are not. -/
def Value.CanAddr : Value → Bool
  | Value.zero _ => true
  | Value.struct _ _ => true
  | Value.slice _ _ => false
  | Value.map _ _ => false
  | Value.ptr _ => false

/-- `Value.Addr`: "Addr panics if CanAddr() returns false." -/
def Value.Addr (v : Value) : Outcome Value :=
  if v.CanAddr then Outcome.done (Value.ptr v)
  else Outcome.panic "reflect.Value.Addr of unaddressable value"

/-- Values stored in an `rmap` (`map[interface{}]interface{}`): strings,
booleans, integers, sequences and nested maps as association lists. -/
inductive RVal
  | str (s : String)
  | bool (b : Bool)
  | int (n : Int)
  | seq (xs : List RVal)
  | map (kvs : List (RVal × RVal))
  deriving Repr

/-- The Go type `rmap`. -/
abbrev rmap := List (RVal × RVal)

/-- The Go type `ramlTypeMap` (`map[string]reflect.Type`) as an association
list; the list order carries no meaning for lookups. -/
abbrev ramlTypeMap := List (String × TypeId)

/-- Map lookup `typeMap[k]` with its `ok` flag (`none` when absent). -/
def mapGet : ramlTypeMap → String → Option TypeId
  | [], _ => none
  | (k1, v1) :: m, k => if k1 = k then some v1 else mapGet m k

/-- Map assignment `typeMap[k] = v`. -/
def mapSet : ramlTypeMap → String → TypeId → ramlTypeMap
  | [], k, v => [(k, v)]
  | (k1, v1) :: m, k, v => if k1 = k then (k, v) :: m else (k1, v1) :: mapSet m k v

/-- The Go type `cycleMap` (`map[reflect.Type]bool`): the types mapped to true. -/
abbrev cycleMap := List TypeId

/-! ## The route model -/

/-- Modelled from the spec: the declaration of `ResponseSchema` is not in
raml.go; these are the fields raml.go reads (spec section 3, Response).  A
nil `Type` is `none`. -/
structure ResponseSchema where
  Status : Int
  Typ : Option TypeId
  ContentType : String
  Description : String
  Streaming : Bool
  deriving Repr

/-- Modelled from the spec: the declaration of `RouteSchema` is not in
raml.go; these are the fields raml.go reads (spec section 3, Route). -/
structure RouteSchema where
  Name : String
  Description : String
  Path : String
  Method : String
  Hidden : Bool
  RequestType : Option TypeId
  QueryType : Option TypeId
  PathType : Option TypeId
  Example : String
  Responses : List ResponseSchema
  deriving Repr

/-- Modelled from the spec: the declaration of `ResourceSchema` is not in
raml.go; these are the fields raml.go reads (spec section 3, Resource). -/
structure ResourceSchema where
  Path : String
  Name : String
  Description : String
  Routes : List RouteSchema
  deriving Repr

/-- Modelled from the spec: the declaration of `Schema` is not in raml.go;
these are the fields raml.go reads (spec section 3, Schema). -/
structure Schema where
  Name : String
  Description : String
  Resources : List ResourceSchema
  deriving Repr

/-! ## The functions of raml.go -/

/-- `isFirstLower` (raml.go 429-432): `utf8.DecodeRuneInString` yields
`utf8.RuneError` (U+FFFD) on the empty string. -/
def isFirstLower (env : Reflect) (s : String) : Bool :=
  match s.data with
  | [] => env.IsLower (Char.ofNat 0xFFFD)
  | r :: _ => env.IsLower r

/-- The field loop of `collectTypes` (raml.go 131-137), over the recursive
call `rec`; `none` when the call depth bound was reached. -/
def collectFields (env : Reflect) (rec : ramlTypeMap → Option TypeId → Option ramlTypeMap) :
    ramlTypeMap → List StructField → Option ramlTypeMap
  | m, [] => some m
  | m, f :: fs =>
    if isFirstLower env f.Name then collectFields env rec m fs
    else
      match rec m (some f.Typ) with
      | none => none
      | some m1 => collectFields env rec m1 fs

/-- `collectTypes` (raml.go 120-146).  The Go function mutates `typeMap` in
place; here the updated map is returned, `none` when the call depth bound was
reached.  A nil `reflect.Type` is `none`. -/
def collectTypes (env : Reflect) : Nat → ramlTypeMap → Option TypeId → Option ramlTypeMap
  | 0, _, _ => none
  | _ + 1, typeMap, none => some typeMap
  | fuel + 1, typeMap, some t =>
    if t = env.timeType then some typeMap
    else if (mapGet typeMap (env.Name t)).isSome then some typeMap
    else
      match env.Kind t with
      | Kind.Struct =>
        collectFields env (collectTypes env fuel) (mapSet typeMap (env.Name t) t) (env.Fields t)
      | Kind.Ptr | Kind.Slice => collectTypes env fuel typeMap (some (env.Elem t))
      | Kind.Map =>
        match collectTypes env fuel typeMap (some (env.Key t)) with
        | none => none
        | some m1 => collectTypes env fuel m1 (some (env.Elem t))
      | _ => some typeMap

/-- The type collection of `SchemaToRAML` (raml.go 76-85): `collectTypes` on
the request type and on every response type of every route of every
resource, in order, from the empty map. -/
def schemaTypeMap (env : Reflect) (fuel : Nat) (s : Schema) : Option ramlTypeMap :=
  s.Resources.foldlM (fun m res =>
    res.Routes.foldlM (fun m1 r =>
      (collectTypes env fuel m1 r.RequestType).bind (fun m2 =>
        r.Responses.foldlM (fun m3 rs => collectTypes env fuel m3 rs.Typ) m2)) m) []

/-- The loop of `SchemaToRAML` that builds the `schemas` list (raml.go
86-92), run over the entries of the type map in the order `range` yields
them.  `reflectSchema t` stands for
`json.MarshalIndent(jsonschema.Reflect(reflect.New(t).Interface()), "", "  ")`;
its error is returned. -/
def schemaList (reflectSchema : TypeId → Except String String) :
    List (String × TypeId) → Except String (List rmap)
  | [] => Except.ok []
  | (name, t) :: rest =>
    match reflectSchema t with
    | Except.error err => Except.error err
    | Except.ok b =>
      match schemaList reflectSchema rest with
      | Except.error err => Except.error err
      | Except.ok schemas => Except.ok ([(RVal.str name, RVal.str b)] :: schemas)

/-- The field loop of `makeRAMLExampleValue` (raml.go 321-328) over the
recursive call `rec`: the values of the fields in order, and the guard set
left behind.  A field skipped by `isFirstLower` keeps its zero value.  The
argument of `f.Set` is evaluated first; then `Set` panics when `f` was
obtained from an unexported struct field (one with a non-empty `PkgPath`),
as `CanSet` is false for it. -/
def fillFields (env : Reflect) (rec : cycleMap → TypeId → Outcome (Value × cycleMap)) :
    cycleMap → List StructField → Outcome (List Value × cycleMap)
  | cycles, [] => Outcome.done ([], cycles)
  | cycles, ft :: rest =>
    if isFirstLower env ft.Name then
      match fillFields env rec cycles rest with
      | Outcome.done (vs, c) => Outcome.done (Value.zero ft.Typ :: vs, c)
      | Outcome.panic msg => Outcome.panic msg
      | Outcome.outOfFuel => Outcome.outOfFuel
    else
      match rec cycles ft.Typ with
      | Outcome.done (fv, c1) =>
        if ft.PkgPath = "" then
          match fillFields env rec c1 rest with
          | Outcome.done (vs, c) => Outcome.done (fv :: vs, c)
          | Outcome.panic msg => Outcome.panic msg
          | Outcome.outOfFuel => Outcome.outOfFuel
        else Outcome.panic "reflect: reflect.Value.Set using value obtained using unexported field"
      | Outcome.panic msg => Outcome.panic msg
      | Outcome.outOfFuel => Outcome.outOfFuel

/-- `makeRAMLExampleValue` (raml.go 310-344).  The guard map `cycles` is
mutated in place by the Go code; here it is threaded through and returned. -/
def makeRAMLExampleValue (env : Reflect) :
    Nat → cycleMap → TypeId → Outcome (Value × cycleMap)
  | 0, _, _ => Outcome.outOfFuel
  | fuel + 1, cycles, t =>
    match env.Kind t with
    | Kind.Ptr =>
      match makeRAMLExampleValue env fuel cycles (env.Elem t) with
      | Outcome.done (v, c) =>
        match v.Addr with
        | Outcome.done p => Outcome.done (p, c)
        | Outcome.panic msg => Outcome.panic msg
        | Outcome.outOfFuel => Outcome.outOfFuel
      | Outcome.panic msg => Outcome.panic msg
      | Outcome.outOfFuel => Outcome.outOfFuel
    | Kind.Struct =>
      if t ∈ cycles then Outcome.done (Value.zero t, cycles)
      else
        match fillFields env (makeRAMLExampleValue env fuel) (t :: cycles) (env.Fields t) with
        | Outcome.done (vs, c) => Outcome.done (Value.struct t vs, c)
        | Outcome.panic msg => Outcome.panic msg
        | Outcome.outOfFuel => Outcome.outOfFuel
    | Kind.Slice =>
      match makeRAMLExampleValue env fuel cycles (env.Elem t) with
      | Outcome.done (v, c) => Outcome.done (Value.slice t [v], c)
      | Outcome.panic msg => Outcome.panic msg
      | Outcome.outOfFuel => Outcome.outOfFuel
    | Kind.Map =>
      match makeRAMLExampleValue env fuel cycles (env.Key t) with
      | Outcome.done (k, c1) =>
        match makeRAMLExampleValue env fuel c1 (env.Elem t) with
        | Outcome.done (v, c2) => Outcome.done (Value.map t [(k, v)], c2)
        | Outcome.panic msg => Outcome.panic msg
        | Outcome.outOfFuel => Outcome.outOfFuel
      | Outcome.panic msg => Outcome.panic msg
      | Outcome.outOfFuel => Outcome.outOfFuel
    | _ => Outcome.done (Value.zero t, cycles)

/-- `makeRAMLExample` (raml.go 294-308).  `marshal true v` stands for
`json.MarshalIndent(v, "", "  ")` and `marshal false v` for `json.Marshal(v)`;
a marshalling error makes the function panic. -/
def makeRAMLExample (env : Reflect) (marshal : Bool → Value → Except String String)
    (fuel : Nat) (t : TypeId) (indent : Bool) : Outcome String :=
  match makeRAMLExampleValue env fuel [] t with
  | Outcome.done (v, _) =>
    match marshal indent v with
    | Except.ok b => Outcome.done b
    | Except.error err => Outcome.panic err
  | Outcome.panic msg => Outcome.panic msg
  | Outcome.outOfFuel => Outcome.outOfFuel

/-- The map literal `rmap{"type": s}`. -/
def typeDescriptor (s : String) : rmap := [(RVal.str "type", RVal.str s)]

/-- `typeToRAML` (raml.go 402-427). -/
def typeToRAML (env : Reflect) : Nat → TypeId → Outcome rmap
  | 0, _ => Outcome.outOfFuel
  | fuel + 1, t =>
    match env.Kind t with
    | Kind.Struct =>
      if t = env.timeType then Outcome.done (typeDescriptor "date")
      else Outcome.panic ("unsupported type " ++ env.TypeString t)
    | Kind.Int | Kind.Int8 | Kind.Int16 | Kind.Int32 | Kind.Int64
    | Kind.Uint | Kind.Uint8 | Kind.Uint16 | Kind.Uint32 | Kind.Uint64 =>
      Outcome.done (typeDescriptor "integer")
    | Kind.Float32 | Kind.Float64 => Outcome.done (typeDescriptor "number")
    | Kind.Bool => Outcome.done (typeDescriptor "boolean")
    | Kind.String => Outcome.done (typeDescriptor "string")
    | Kind.Ptr => typeToRAML env fuel (env.Elem t)
    | _ => Outcome.panic ("unsupported type " ++ env.TypeString t)

/-! ## Notions used in the statements -/

/-- The kinds listed in the integer case of `typeToRAML` (raml.go 410-411). -/
def integerKinds : List Kind :=
  [Kind.Int, Kind.Int8, Kind.Int16, Kind.Int32, Kind.Int64,
   Kind.Uint, Kind.Uint8, Kind.Uint16, Kind.Uint32, Kind.Uint64]

/-- The type is one of those the primitive mapper has a descriptor for: one
of the ten listed integer kinds, a floating-point kind, bool, string, or the
date type. -/
def inMappingTable (env : Reflect) (u : TypeId) : Prop :=
  env.Kind u ∈ integerKinds ∨ env.Kind u ∈ [Kind.Float32, Kind.Float64] ∨
    env.Kind u = Kind.Bool ∨ env.Kind u = Kind.String ∨ u = env.timeType

/-- `collectTypes` called on `u` calls itself on `v`: `u` is not the date type
and `v` is the type of a field of the struct `u` whose name does not start
with a lowercase letter, the element of the pointer or slice `u`, or the key
or the element of the map `u`. -/
def Descends (env : Reflect) (u v : TypeId) : Prop :=
  u ≠ env.timeType ∧
    ((env.Kind u = Kind.Struct ∧ ∃ f ∈ env.Fields u, isFirstLower env f.Name = false ∧ f.Typ = v) ∨
     ((env.Kind u = Kind.Ptr ∨ env.Kind u = Kind.Slice) ∧ v = env.Elem u) ∨
     (env.Kind u = Kind.Map ∧ (v = env.Key u ∨ v = env.Elem u)))

/-- `v` is reachable from `t` through struct fields with non-lowercase names,
pointer and slice elements, and map keys and values, never leaving the date
type. -/
def Reach (env : Reflect) (t v : TypeId) : Prop := Relation.ReflTransGen (Descends env) t v

/-- The types `collectTypes` calls itself on when called on `u`, in order. -/
def descendants (env : Reflect) (u : TypeId) : List TypeId :=
  if u = env.timeType then []
  else
    match env.Kind u with
    | Kind.Struct => ((env.Fields u).filter (fun f => !isFirstLower env f.Name)).map (fun f => f.Typ)
    | Kind.Ptr | Kind.Slice => [env.Elem u]
    | Kind.Map => [env.Key u, env.Elem u]
    | _ => []

/-- What a run of `collectTypes` from the map `m` to the map `m1` on behalf of
the type `t` may do: keep every entry, and add only structs other than the
date type, reachable from `t`, under their own name. -/
def OnlyAdds (env : Reflect) (m m1 : ramlTypeMap) (t : TypeId) : Prop :=
  (∀ k v, mapGet m k = some v → mapGet m1 k = some v) ∧
  (∀ k v, mapGet m1 k = some v → mapGet m k = some v ∨
    (mapGet m k = none ∧ env.Name v = k ∧ env.Kind v = Kind.Struct ∧ v ≠ env.timeType ∧
      Reach env t v))

/-- Among the types reachable from `t0`, a struct type other than the date
type shares its `Name()` with no other type (a type that is not a defined
type has the empty name). -/
def NoNameClash (env : Reflect) (t0 : TypeId) : Prop :=
  ∀ u s, Reach env t0 u → Reach env t0 s → env.Kind s = Kind.Struct → s ≠ env.timeType →
    env.Name u = env.Name s → u = s

/-- No pointer, slice or map type contains itself without passing through a
struct type: `rank` decreases from a pointer or slice type to its element and
from a map type to its key and to its element. -/
def RankedBy (env : Reflect) (rank : TypeId → Nat) : Prop :=
  ∀ t, ((env.Kind t = Kind.Ptr ∨ env.Kind t = Kind.Slice) → rank (env.Elem t) < rank t) ∧
    (env.Kind t = Kind.Map → rank (env.Key t) < rank t ∧ rank (env.Elem t) < rank t)

/-- The program has finitely many struct types: all are below `N`. -/
def StructsBelow (env : Reflect) (N : Nat) : Prop :=
  ∀ t, env.Kind t = Kind.Struct → t < N

/-- The number of types below `N` that are not in the guard set. -/
def unvisited (N : Nat) (cycles : cycleMap) : Nat :=
  ((Finset.range N).filter (fun s => s ∉ cycles)).card

/-- The number of types below `N` whose name is not a key of the map. -/
def unmapped (env : Reflect) (N : Nat) (m : ramlTypeMap) : Nat :=
  ((Finset.range N).filter (fun s => mapGet m (env.Name s) = none)).card

/-- Every entry of the first map is an entry of the second. -/
def MapLe (m m1 : ramlTypeMap) : Prop :=
  ∀ k v, mapGet m k = some v → mapGet m1 k = some v

/-- Every entry of the map holds, under its own name, a struct type other
than the date type that is reachable from `t0`. -/
def Stored (env : Reflect) (t0 : TypeId) (m : ramlTypeMap) : Prop :=
  ∀ k v, mapGet m k = some v →
    env.Name v = k ∧ env.Kind v = Kind.Struct ∧ v ≠ env.timeType ∧ Reach env t0 v

/-- Nothing is left to collect below the type `u`: it is the date type, a
struct stored in the map under its name, a pointer, slice or map whose
element (and key) are in this case, or a type of another kind. -/
inductive Handled (env : Reflect) (m : ramlTypeMap) : TypeId → Prop
  | time : Handled env m env.timeType
  | stored (u : TypeId) : env.Kind u = Kind.Struct → mapGet m (env.Name u) = some u →
      Handled env m u
  | elem (u : TypeId) : (env.Kind u = Kind.Ptr ∨ env.Kind u = Kind.Slice) →
      Handled env m (env.Elem u) → Handled env m u
  | map (u : TypeId) : env.Kind u = Kind.Map → Handled env m (env.Key u) →
      Handled env m (env.Elem u) → Handled env m u
  | other (u : TypeId) : env.Kind u ≠ Kind.Struct → env.Kind u ≠ Kind.Ptr →
      env.Kind u ≠ Kind.Slice → env.Kind u ≠ Kind.Map → Handled env m u

/-- The fields of the struct `s` with a non-lowercase name are all handled. -/
def ClosedAt (env : Reflect) (m : ramlTypeMap) (s : TypeId) : Prop :=
  ∀ f ∈ env.Fields s, isFirstLower env f.Name = false → Handled env m f.Typ

/-- A stretch of a collection run, from the map `m` to the map `m1`: entries
are kept, all entries are structs reachable from `t0`, and every struct
stored during the stretch has its fields handled at its end. -/
def Collects (env : Reflect) (t0 : TypeId) (m m1 : ramlTypeMap) : Prop :=
  Stored env t0 m1 ∧ MapLe m m1 ∧
    ∀ s, mapGet m1 (env.Name s) = some s → mapGet m (env.Name s) = some s ∨ ClosedAt env m1 s

mutual
/-- `Value.IsZero`: the value is the zero value of its type. -/
def Value.IsZero : Value → Bool
  | Value.zero _ => true
  | Value.struct _ fs => Value.allZero fs
  | Value.slice _ _ => false
  | Value.map _ _ => false
  | Value.ptr _ => false
/-- Every value of the list is a zero value. -/
def Value.allZero : List Value → Bool
  | [] => true
  | v :: vs => v.IsZero && Value.allZero vs
end

mutual
/-- Every slice occurring in the value has exactly one element and every map
occurring in it has exactly one entry. -/
def Value.singletons : Value → Bool
  | Value.zero _ => true
  | Value.struct _ fs => Value.singletonsAll fs
  | Value.slice _ xs => xs.length == 1 && Value.singletonsAll xs
  | Value.map _ kvs => kvs.length == 1 && Value.singletonsEntries kvs
  | Value.ptr v => v.singletons
/-- `Value.singletons` for every value of a list. -/
def Value.singletonsAll : List Value → Bool
  | [] => true
  | v :: vs => v.singletons && Value.singletonsAll vs
/-- `Value.singletons` for every key and value of a list of map entries. -/
def Value.singletonsEntries : List (Value × Value) → Bool
  | [] => true
  | (k, v) :: kvs => k.singletons && v.singletons && Value.singletonsEntries kvs
end

mutual
/-- The value contains a struct of type `T` that went through the field loop
(a `T` that is not the untouched zero value). -/
def Value.fills (T : TypeId) : Value → Bool
  | Value.zero _ => false
  | Value.struct t fs => t == T || Value.fillsAny T fs
  | Value.slice _ xs => Value.fillsAny T xs
  | Value.map _ kvs => Value.fillsEntries T kvs
  | Value.ptr v => Value.fills T v
/-- `Value.fills` for some value of a list. -/
def Value.fillsAny (T : TypeId) : List Value → Bool
  | [] => false
  | v :: vs => Value.fills T v || Value.fillsAny T vs
/-- `Value.fills` for some key or value of a list of map entries. -/
def Value.fillsEntries (T : TypeId) : List (Value × Value) → Bool
  | [] => false
  | (k, v) :: kvs => Value.fills T k || Value.fills T v || Value.fillsEntries T kvs
end

/-- The form of the value that `makeRAMLExampleValue` returns for a type, by
kind: the address of a value for a pointer, a one-element slice, a one-entry
map, the zero value or a value that went through the field loop for a struct,
the zero value for every other kind. -/
def ExampleOf (env : Reflect) (t : TypeId) (v : Value) : Prop :=
  (env.Kind t = Kind.Ptr → ∃ w, v = Value.ptr w) ∧
  (env.Kind t = Kind.Slice → ∃ w, v = Value.slice t [w]) ∧
  (env.Kind t = Kind.Map → ∃ k w, v = Value.map t [(k, w)]) ∧
  (env.Kind t = Kind.Struct → v = Value.zero t ∨ ∃ vals, v = Value.struct t vals) ∧
  (env.Kind t ≠ Kind.Ptr → env.Kind t ≠ Kind.Slice → env.Kind t ≠ Kind.Map →
    env.Kind t ≠ Kind.Struct → v = Value.zero t)

/-- What the field loop leaves in a field: the zero value when the field name
starts with a lowercase letter, else a value of the form `ExampleOf` for the
field type. -/
def FieldShown (env : Reflect) (f : StructField) (fv : Value) : Prop :=
  (isFirstLower env f.Name = true → fv = Value.zero f.Typ) ∧
  (isFirstLower env f.Name = false → ExampleOf env f.Typ fv)

/-! ## Concrete type tables -/

/-- One row of a concrete reflection table. -/
structure TypeDecl where
  Name : String
  Kind : Kind
  TypeString : String
  Elem : TypeId := 0
  Key : TypeId := 0
  Fields : List StructField := []
  deriving Repr

/-- The first rows of every concrete table: `time.Time` (type 0) with its
three unexported fields, and the types these mention.  The unexported fields
of `time.Location` are not listed; no function here reads them. -/
def timeDecls : List TypeDecl :=
  [ { Name := "Time", Kind := Kind.Struct, TypeString := "time.Time",
      Fields := [⟨"wall", "time", 1, ""⟩, ⟨"ext", "time", 2, ""⟩, ⟨"loc", "time", 3, ""⟩] },
    { Name := "uint64", Kind := Kind.Uint64, TypeString := "uint64" },
    { Name := "int64", Kind := Kind.Int64, TypeString := "int64" },
    { Name := "", Kind := Kind.Ptr, TypeString := "*time.Location", Elem := 4 },
    { Name := "Location", Kind := Kind.Struct, TypeString := "time.Location" } ]

/-- The row of an identifier outside the table. -/
def invalidDecl : TypeDecl := { Name := "", Kind := Kind.Invalid, TypeString := "<invalid>" }

/-- The reflection table of a Go program whose types are `time.Time` and its
companions (types 0 to 4) followed by `decls` (types 5, 6, ...).  The
names of the concrete tables are ASCII, where `unicode.IsLower` is
`Char.isLower`. -/
def Reflect.ofDecls (decls : List TypeDecl) : Reflect where
  Name := fun t => ((timeDecls ++ decls).getD t invalidDecl).Name
  Kind := fun t => ((timeDecls ++ decls).getD t invalidDecl).Kind
  Elem := fun t => ((timeDecls ++ decls).getD t invalidDecl).Elem
  Key := fun t => ((timeDecls ++ decls).getD t invalidDecl).Key
  Fields := fun t => ((timeDecls ++ decls).getD t invalidDecl).Fields
  TypeString := fun t => ((timeDecls ++ decls).getD t invalidDecl).TypeString
  timeType := 0
  timeIsStruct := rfl
  IsLower := Char.isLower

/-- A Go program's types used in the concrete statements below:
```
5  int                      6  string                  7  uintptr
8  type Detail struct { Note string }
9  package a: type Item struct { ID int }
10 package b: type Item struct { D Detail }
11 type Order struct { First a.Item; Second b.Item }
12 type S []S
13 []int                    14 *[]int
15 type Node struct { Val int; Next *Node; Kids []Node; ByName map[string]Node; seen bool }
16 *Node                    17 []Node                  18 map[string]Node
19 type Point struct { N int }
20 type Pair struct { X Point; Y Point }
21 bool
22 type Padded struct { _ int; N int }
23 struct { Code int }  (unnamed)
24 type Reply struct { Meta struct { Code int }; Info *Detail }
25 *Detail
```
-/
def exampleDecls : List TypeDecl :=
  [ { Name := "int", Kind := Kind.Int, TypeString := "int" },
    { Name := "string", Kind := Kind.String, TypeString := "string" },
    { Name := "uintptr", Kind := Kind.Uintptr, TypeString := "uintptr" },
    { Name := "Detail", Kind := Kind.Struct, TypeString := "main.Detail",
      Fields := [⟨"Note", "", 6, ""⟩] },
    { Name := "Item", Kind := Kind.Struct, TypeString := "a.Item",
      Fields := [⟨"ID", "", 5, ""⟩] },
    { Name := "Item", Kind := Kind.Struct, TypeString := "b.Item",
      Fields := [⟨"D", "", 8, ""⟩] },
    { Name := "Order", Kind := Kind.Struct, TypeString := "main.Order",
      Fields := [⟨"First", "", 9, ""⟩, ⟨"Second", "", 10, ""⟩] },
    { Name := "S", Kind := Kind.Slice, TypeString := "main.S", Elem := 12 },
    { Name := "", Kind := Kind.Slice, TypeString := "[]int", Elem := 5 },
    { Name := "", Kind := Kind.Ptr, TypeString := "*[]int", Elem := 13 },
    { Name := "Node", Kind := Kind.Struct, TypeString := "main.Node",
      Fields := [⟨"Val", "", 5, ""⟩, ⟨"Next", "", 16, ""⟩, ⟨"Kids", "", 17, ""⟩,
                 ⟨"ByName", "", 18, ""⟩, ⟨"seen", "main", 21, ""⟩] },
    { Name := "", Kind := Kind.Ptr, TypeString := "*main.Node", Elem := 15 },
    { Name := "", Kind := Kind.Slice, TypeString := "[]main.Node", Elem := 15 },
    { Name := "", Kind := Kind.Map, TypeString := "map[string]main.Node", Key := 6, Elem := 15 },
    { Name := "Point", Kind := Kind.Struct, TypeString := "main.Point",
      Fields := [⟨"N", "", 5, ""⟩] },
    { Name := "Pair", Kind := Kind.Struct, TypeString := "main.Pair",
      Fields := [⟨"X", "", 19, ""⟩, ⟨"Y", "", 19, ""⟩] },
    { Name := "bool", Kind := Kind.Bool, TypeString := "bool" },
    { Name := "Padded", Kind := Kind.Struct, TypeString := "main.Padded",
      Fields := [⟨"_", "main", 5, ""⟩, ⟨"N", "", 5, ""⟩] },
    { Name := "", Kind := Kind.Struct, TypeString := "struct { Code int }",
      Fields := [⟨"Code", "", 5, ""⟩] },
    { Name := "Reply", Kind := Kind.Struct, TypeString := "main.Reply",
      Fields := [⟨"Meta", "", 23, ""⟩, ⟨"Info", "", 25, ""⟩] },
    { Name := "", Kind := Kind.Ptr, TypeString := "*main.Detail", Elem := 8 } ]

/-- The reflection table of `exampleDecls`. -/
def exampleEnv : Reflect := Reflect.ofDecls exampleDecls

/-- A Go program's types with a self-referential struct:
```
5 int
6 type Node struct { Val int; Next *Node; Kids []Node; ByName map[string]Node }
7 *Node          8 []Node          9 map[string]Node          10 string
```
-/
def nodeDecls : List TypeDecl :=
  [ { Name := "int", Kind := Kind.Int, TypeString := "int" },
    { Name := "Node", Kind := Kind.Struct, TypeString := "main.Node",
      Fields := [⟨"Val", "", 5, ""⟩, ⟨"Next", "", 7, ""⟩, ⟨"Kids", "", 8, ""⟩,
                 ⟨"ByName", "", 9, ""⟩] },
    { Name := "", Kind := Kind.Ptr, TypeString := "*main.Node", Elem := 6 },
    { Name := "", Kind := Kind.Slice, TypeString := "[]main.Node", Elem := 6 },
    { Name := "", Kind := Kind.Map, TypeString := "map[string]main.Node", Key := 10, Elem := 6 },
    { Name := "string", Kind := Kind.String, TypeString := "string" } ]

/-- The reflection table of `nodeDecls`. -/
def nodeEnv : Reflect := Reflect.ofDecls nodeDecls

/-- A rank for `nodeEnv`: composite types above the types they are made of. -/
def nodeRank (t : TypeId) : Nat := if t = 3 ∨ t = 7 ∨ t = 8 ∨ t = 9 then 1 else 0

/-- A schema with one resource and one route, whose response is a
`Pair{X Point; Y Point}`. -/
def pairSchema : Schema :=
  { Name := "Test", Description := "",
    Resources := [
      { Path := "/pairs", Name := "Pairs", Description := "",
        Routes := [
          { Name := "Index", Description := "", Path := "/pairs", Method := "GET",
            Hidden := false, RequestType := none, QueryType := none, PathType := none,
            Example := "",
            Responses := [
              { Status := 200, Typ := some 20, ContentType := "", Description := "",
                Streaming := false } ] } ] } ] }

/-! ## Strings, maps and the library -/

/-- `strings.HasPrefix(s, pre)`. -/
def hasPrefix (s pre : String) : Bool := pre.data.isPrefixOf s.data

/-- The slice `s[len(pre):]`. -/
def dropPrefix (s pre : String) : String := String.mk (s.data.drop pre.data.length)

/-- `strings.Contains` on the characters of the two strings. -/
def containsChars : List Char → List Char → Bool
  | [], sub => sub.isEmpty
  | c :: cs, sub => sub.isPrefixOf (c :: cs) || containsChars cs sub

/-- `strings.Contains(s, sub)`. -/
def stringsContains (s sub : String) : Bool := containsChars s.data sub.data

/-- `strings.Split` at a one-character separator, on the characters. -/
def splitChars (sep : Char) : List Char → List (List Char)
  | [] => [[]]
  | c :: cs =>
    if c = sep then [] :: splitChars sep cs
    else
      match splitChars sep cs with
      | [] => [[c]]
      | p :: ps => (c :: p) :: ps

/-- `strings.Split(s, sep)` for a separator of one character. -/
def stringsSplit (s : String) (sep : Char) : List String :=
  (splitChars sep s.data).map String.mk

/-- `strings.Join(parts, sep)`. -/
def stringsJoin : List String → String → String
  | [], _ => ""
  | [p], _ => p
  | p :: q :: ps, sep => p ++ sep ++ stringsJoin (q :: ps) sep

/-- The line feed character, as a string. -/
def newline : String := String.singleton (Char.ofNat 10)

/-- Two keys of an `rmap` are the same key: the same string, integer or
boolean (no other value is used as a key). -/
def RVal.sameKey : RVal → RVal → Bool
  | RVal.str a, RVal.str b => a == b
  | RVal.int a, RVal.int b => a == b
  | RVal.bool a, RVal.bool b => a == b
  | _, _ => false

/-- Map lookup `m[k]` in an `rmap`, with its `ok` flag. -/
def rmapGet : rmap → RVal → Option RVal
  | [], _ => none
  | (k1, v1) :: m, k => if RVal.sameKey k1 k then some v1 else rmapGet m k

/-- Map assignment `m[k] = v` in an `rmap`. -/
def rmapSet : rmap → RVal → RVal → rmap
  | [], k, v => [(k, v)]
  | (k1, v1) :: m, k, v =>
    if RVal.sameKey k1 k then (k, v) :: m else (k1, v1) :: rmapSet m k v

/-- What raml.go calls and is not part of it.  From the Go library:
`reflect.StructTag.Get` (tag, key), `strings.ToLower`, `json.Marshal` and
`json.MarshalIndent` of an example value (the flag tells which),
`json.MarshalIndent` of `jsonschema.Reflect(reflect.New(t).Interface())` and
of `jsonschema.ReflectFromType(t)`, `yaml.Marshal`, the `Write` method of the
output writer (the error it returns) and the order in which `range` yields
the entries of the type map.  From the rest of this repository: the function
`simplifiedPath` and the methods `SimplifyPath` and `Hidden` of a resource and
`DefaultResponse` of a route. -/
structure Externals where
  TagGet : String → String → String
  ToLower : String → String
  MarshalJSON : Bool → Value → Except String String
  ReflectSchema : TypeId → Except String String
  ReflectFromType : TypeId → Except String String
  YamlMarshal : rmap → Except String String
  Write : String → Option String
  RangeOrder : ramlTypeMap → List (String × TypeId)
  simplifiedPath : String → String
  SimplifyPath : ResourceSchema → String
  Hidden : ResourceSchema → Bool
  DefaultResponse : RouteSchema → ResponseSchema

/-! ## Parameters: `parseTag`, `structToRAMLParams` -/

/-- `parseTag` (raml.go 434-456): the name and the `required` flag. -/
def parseTag (ext : Externals) (f : StructField) : String × Bool :=
  let json := ext.TagGet f.Tag "json"
  let parts := stringsSplit json ','
  if json ≠ "" ∧ parts.headD "" = "-" then ("", true)
  else
    let name := if json ≠ "" then parts.headD "" else f.Name
    let required :=
      if json ≠ "" then decide (parts.length < 2 ∨ parts.getD 1 "" ≠ "omitempty") else true
    let schema := ext.TagGet f.Tag "schema"
    if schema ≠ "" then (if name = "-" then "" else schema, required)
    else (name, required)

/-- The field loop of `structToRAMLParams` (raml.go 390-398). -/
def paramFields (ext : Externals) (env : Reflect) (fuel : Nat) (required : Bool) :
    rmap → List StructField → Outcome rmap
  | out, [] => Outcome.done out
  | out, f :: fs =>
    match typeToRAML env fuel f.Typ with
    | Outcome.done rm =>
      paramFields ext env fuel required
        (rmapSet out (RVal.str (parseTag ext f).1)
          (RVal.map (if required then rmapSet rm (RVal.str "required") (RVal.bool true) else rm)))
        fs
    | Outcome.panic msg => Outcome.panic msg
    | Outcome.outOfFuel => Outcome.outOfFuel

/-- `structToRAMLParams` (raml.go 385-400).  The fuel bounds the pointer loop;
`t.NumField()` panics on a type that is not a struct. -/
def structToRAMLParams (ext : Externals) (env : Reflect) : Nat → TypeId → Bool → Outcome rmap
  | 0, _, _ => Outcome.outOfFuel
  | fuel + 1, t, required =>
    if env.Kind t = Kind.Ptr then structToRAMLParams ext env fuel (env.Elem t) required
    else if env.Kind t = Kind.Struct then paramFields ext env fuel required [] (env.Fields t)
    else Outcome.panic ("reflect: NumField of non-struct type " ++ env.TypeString t)

/-! ## Route rendering: `ramlSchemaForType`, `resourceToRAML`, `SchemaToRAML` -/

/-- `ramlSchemaForType` (raml.go 148-171).  A nil type is `none`; a failure of
`json.MarshalIndent` on the inline schema makes the function panic. -/
def ramlSchemaForType (ext : Externals) (env : Reflect) : Nat → Option TypeId → Outcome rmap
  | 0, _ => Outcome.outOfFuel
  | _ + 1, none => Outcome.done []
  | fuel + 1, some t =>
    if env.Kind t = Kind.Ptr then ramlSchemaForType ext env fuel (some (env.Elem t))
    else if env.Kind t = Kind.Struct then
      (makeRAMLExample env ext.MarshalJSON fuel t true).bind (fun ex =>
        Outcome.done [(RVal.str "schema", RVal.str (env.Name t)),
          (RVal.str "example", RVal.str ex)])
    else
      match ext.ReflectFromType t with
      | Except.error err => Outcome.panic err
      | Except.ok b =>
        (makeRAMLExample env ext.MarshalJSON fuel t true).bind (fun ex =>
          Outcome.done [(RVal.str "schema", RVal.str b), (RVal.str "example", RVal.str ex)])

/-- `makeRAMLRequestExample` (raml.go 274-290). -/
def makeRAMLRequestExample (ext : Externals) (env : Reflect) (fuel : Nat) (url : String)
    (route : RouteSchema) : Outcome String :=
  (match route.RequestType with
    | some t =>
      (makeRAMLExample env ext.MarshalJSON fuel t false).bind (fun ex =>
        Outcome.done (" --data-binary '" ++ ex ++ "'"))
    | none => Outcome.done "").bind (fun data =>
  (match (ext.DefaultResponse route).Typ with
    | some t => makeRAMLExample env ext.MarshalJSON fuel t true
    | none => Outcome.done "").bind (fun res =>
  Outcome.done ("$ curl" ++ (if route.Method ≠ "GET" then " -X " ++ route.Method else "") ++
    data ++ " " ++ url ++ route.Path ++ newline ++ res)))

/-- The entry `rrm` built for one response in `resourceToRAML` (raml.go
219-240). -/
def responseToRAML (ext : Externals) (env : Reflect) (fuel : Nat) (response : ResponseSchema) :
    Outcome rmap :=
  (ramlSchemaForType ext env fuel response.Typ).bind (fun rresp =>
    let ct := if response.ContentType = "" then "application/json" else response.ContentType
    let rrm : rmap := [(RVal.str "body", RVal.map [(RVal.str ct, RVal.map rresp)])]
    let description := if response.Streaming then "Streaming response." else response.Description
    let rrm1 :=
      if response.Streaming then
        rmapSet rrm (RVal.str "headers")
          (RVal.map [(RVal.str "Content-Encoding", RVal.map [(RVal.str "type", RVal.str "string")])])
      else rrm
    let rrm2 :=
      if description ≠ "" then rmapSet rrm1 (RVal.str "description") (RVal.str description)
      else rrm1
    Outcome.done rrm2)

/-- The responses loop of `resourceToRAML` (raml.go 218-242): the map
`responseMap`, keyed by status. -/
def responsesToRAML (ext : Externals) (env : Reflect) (fuel : Nat) :
    rmap → List ResponseSchema → Outcome rmap
  | responseMap, [] => Outcome.done responseMap
  | responseMap, response :: rest =>
    (responseToRAML ext env fuel response).bind (fun rrm =>
      responsesToRAML ext env fuel
        (rmapSet responseMap (RVal.int response.Status) (RVal.map rrm)) rest)

/-- The map `method` built for one route in `resourceToRAML` (raml.go
208-268), in the order of the Go statements: query parameters, responses,
description with the request example, request body. -/
def methodToRAML (ext : Externals) (env : Reflect) (fuel : Nat) (url : String) (r : RouteSchema) :
    Outcome rmap :=
  (match r.QueryType with
    | some t =>
      (structToRAMLParams ext env fuel t false).bind (fun params =>
        Outcome.done
          (rmapSet [(RVal.str "responses", RVal.map [])] (RVal.str "queryParameters")
            (RVal.map params)))
    | none => Outcome.done [(RVal.str "responses", RVal.map [])]).bind (fun method0 =>
  (responsesToRAML ext env fuel [] r.Responses).bind (fun responseMap =>
  (let description := if r.Description ≠ "" then r.Name ++ " - " ++ r.Description else r.Name
   if stringsContains description "curl" then Outcome.done description
   else
     (makeRAMLRequestExample ext env fuel url r).bind (fun ex =>
       Outcome.done (description ++ newline ++ newline ++ newline ++ "    " ++
         stringsJoin (stringsSplit ex (Char.ofNat 10)) (newline ++ "     ")))).bind
    (fun description =>
  (match r.RequestType with
    | some t =>
      (ramlSchemaForType ext env fuel (some t)).bind (fun rreq =>
        Outcome.done (some
          (if r.Example ≠ "" then rmapSet rreq (RVal.str "example") (RVal.str r.Example)
           else rreq)))
    | none => Outcome.done none).bind (fun body =>
  let method1 := rmapSet method0 (RVal.str "responses") (RVal.map responseMap)
  let method2 := rmapSet method1 (RVal.str "description") (RVal.str description)
  Outcome.done
    (match body with
      | some rreq =>
        rmapSet method2 (RVal.str "body") (RVal.map [(RVal.str "application/json", RVal.map rreq)])
      | none => method2)))))

/-- The key of `resourceToRAML` for a non-empty simplified remaining path: a
leading `/` is put in front when there is none (raml.go 198-200). -/
def pathKey (rpath : String) : String :=
  if hasPrefix rpath "/" then rpath else "/" ++ rpath

/-- The map `route` that the method entry of a route goes to (raml.go
195-207): the section itself for an empty `rpath`, else the map stored under
the path key (`tr.(rmap)` panics on a value that is not an `rmap`), else a
new map. -/
def routeNode (out : rmap) (rpath : String) : Outcome rmap :=
  if rpath = "" then Outcome.done out
  else
    match rmapGet out (RVal.str (pathKey rpath)) with
    | some (RVal.map tr) => Outcome.done tr
    | some _ => Outcome.panic "interface conversion: interface {} is not rapid.rmap"
    | none => Outcome.done []

/-- The section after `route[strings.ToLower(r.Method)] = method` (raml.go
269), `route` being the section itself or the map stored in it under the path
key. -/
def storeRoute (out : rmap) (rpath : String) (route : rmap) (methodKey : String)
    (method : rmap) : rmap :=
  if rpath = "" then rmapSet out (RVal.str methodKey) (RVal.map method)
  else
    rmapSet out (RVal.str (pathKey rpath))
      (RVal.map (rmapSet route (RVal.str methodKey) (RVal.map method)))

/-- The route loop of `resourceToRAML` (raml.go 189-270) from the section
`out`. -/
def routesToRAML (ext : Externals) (env : Reflect) (fuel : Nat) (url : String)
    (resource : ResourceSchema) : rmap → List RouteSchema → Outcome rmap
  | out, [] => Outcome.done out
  | out, r :: rest =>
    if hasPrefix r.Path resource.Path then
      (routeNode out (ext.simplifiedPath (dropPrefix r.Path resource.Path))).bind (fun route =>
        (methodToRAML ext env fuel url r).bind (fun method =>
          routesToRAML ext env fuel url resource
            (storeRoute out (ext.simplifiedPath (dropPrefix r.Path resource.Path)) route
              (ext.ToLower r.Method) method) rest))
    else
      Outcome.panic
        ("resource " ++ resource.Path ++ " has route " ++ r.Path ++ " outside prefix")

/-- `resourceToRAML` (raml.go 173-272). -/
def resourceToRAML (ext : Externals) (env : Reflect) (fuel : Nat) (url : String)
    (resource : ResourceSchema) : Outcome rmap :=
  routesToRAML ext env fuel url resource [] resource.Routes

/-- The resource loop of `SchemaToRAML` (raml.go 97-107), from the document
`y`. -/
def resourcesToRAML (ext : Externals) (env : Reflect) (fuel : Nat) (url : String) :
    rmap → List ResourceSchema → Outcome rmap
  | y, [] => Outcome.done y
  | y, resource :: rest =>
    if ext.Hidden resource then resourcesToRAML ext env fuel url y rest
    else
      (resourceToRAML ext env fuel url resource).bind (fun rraml =>
        let rraml1 := rmapSet rraml (RVal.str "displayName") (RVal.str resource.Name)
        let rraml2 :=
          if resource.Description ≠ "" then
            rmapSet rraml1 (RVal.str "description") (RVal.str resource.Description)
          else rraml1
        resourcesToRAML ext env fuel url
          (rmapSet y (RVal.str (ext.SimplifyPath resource)) (RVal.map rraml2)) rest)

/-- The document `y` that `SchemaToRAML` hands to `yaml.Marshal` (raml.go
54-107), or the error it returns from the `schemas` loop. -/
def schemaDocument (ext : Externals) (env : Reflect) (fuel : Nat) (url : String) (s : Schema) :
    Outcome (Except String rmap) :=
  match schemaTypeMap env fuel s with
  | none => Outcome.outOfFuel
  | some typeMap =>
    match schemaList ext.ReflectSchema (ext.RangeOrder typeMap) with
    | Except.error err => Outcome.done (Except.error err)
    | Except.ok schemas =>
      let title := if s.Description ≠ "" then s.Name ++ " - " ++ s.Description else s.Name
      let y : rmap :=
        [(RVal.str "baseUri", RVal.str url), (RVal.str "mediaType", RVal.str "application/json"),
          (RVal.str "title", RVal.str title)]
      let y1 :=
        if schemas.length > 0 then
          rmapSet y (RVal.str "schemas") (RVal.seq (schemas.map RVal.map))
        else y
      (resourcesToRAML ext env fuel url y1 s.Resources).bind (fun y2 =>
        Outcome.done (Except.ok y2))

/-- `SchemaToRAML` (raml.go 53-118): the data handed to `w.Write`, call by
call, and the error returned (`none` for nil). -/
def SchemaToRAML (ext : Externals) (env : Reflect) (fuel : Nat) (url : String) (s : Schema) :
    Outcome (List String × Option String) :=
  (schemaDocument ext env fuel url s).bind (fun doc =>
    match doc with
    | Except.error err => Outcome.done ([], some err)
    | Except.ok y =>
      match ext.YamlMarshal y with
      | Except.error err => Outcome.done ([], some err)
      | Except.ok b =>
        match ext.Write ("#%RAML 0.8" ++ newline) with
        | some err => Outcome.done (["#%RAML 0.8" ++ newline], some err)
        | none => Outcome.done (["#%RAML 0.8" ++ newline, b], ext.Write b))

/-! ## The route tree: `buildRoutes` -/

/-- The Go type `ramlNestedRoute`: the routes of a node and the nested nodes
by key. -/
inductive ramlNestedRoute
  | mk (routes : List RouteSchema) (nested : List (String × ramlNestedRoute))

/-- Map lookup `rnr.nested[key]`. -/
def nestedGet : List (String × ramlNestedRoute) → String → Option ramlNestedRoute
  | [], _ => none
  | (k1, v1) :: m, k => if k1 = k then some v1 else nestedGet m k

/-- Map assignment `rnr.nested[key] = sr`. -/
def nestedSet : List (String × ramlNestedRoute) → String → ramlNestedRoute →
    List (String × ramlNestedRoute)
  | [], k, v => [(k, v)]
  | (k1, v1) :: m, k, v => if k1 = k then (k, v) :: m else (k1, v1) :: nestedSet m k v

/-- `buildRoutes` (raml.go 34-51); the node is updated in place by the Go
code and returned here. -/
def buildRoutes : ramlNestedRoute → List String → RouteSchema → ramlNestedRoute
  | ramlNestedRoute.mk routes nested, [], r =>
    if r.Hidden then ramlNestedRoute.mk routes nested
    else ramlNestedRoute.mk (routes ++ [r]) nested
  | ramlNestedRoute.mk routes nested, p :: ps, r =>
    if r.Hidden then ramlNestedRoute.mk routes nested
    else
      ramlNestedRoute.mk routes
        (nestedSet nested ("/" ++ p)
          (buildRoutes ((nestedGet nested ("/" ++ p)).getD (ramlNestedRoute.mk [] [])) ps r))

/-! ## A concrete library -/

/-- Where the scan of a struct tag stands: before a key, inside a key, after
the colon of a key, inside the quoted value of a key. -/
inductive TagScan
  | start
  | key (name : List Char)
  | colon (name : List Char)
  | value (name val : List Char)

/-- A character that may occur in the key of a struct tag: above the space,
and none of the colon, the double quote and DEL. -/
def tagKeyChar (c : Char) : Bool :=
  decide (32 < c.toNat) && c != Char.ofNat 58 && c != Char.ofNat 34 && c != Char.ofNat 127

/-- The scan of `reflect.StructTag.Lookup` for `key`, on the conventional
format `key:"value"` with pairs separated by spaces; the value of the first
pair with the key, or nothing on a syntax error.  A value with a backslash
escape is not unquoted here: the scan stops on the backslash. -/
def scanTag (key : List Char) : TagScan → List Char → List Char
  | _, [] => []
  | TagScan.start, c :: cs =>
    if c = Char.ofNat 32 then scanTag key TagScan.start cs
    else if tagKeyChar c then scanTag key (TagScan.key [c]) cs
    else []
  | TagScan.key name, c :: cs =>
    if c = Char.ofNat 58 then scanTag key (TagScan.colon name) cs
    else if tagKeyChar c then scanTag key (TagScan.key (name ++ [c])) cs
    else []
  | TagScan.colon name, c :: cs =>
    if c = Char.ofNat 34 then scanTag key (TagScan.value name []) cs else []
  | TagScan.value name val, c :: cs =>
    if c = Char.ofNat 34 then (if name = key then val else scanTag key TagScan.start cs)
    else if c = Char.ofNat 92 then []
    else scanTag key (TagScan.value name (val ++ [c])) cs

/-- An instance of `reflect.StructTag.Get`, right on tags whose values have no
backslash escape. -/
def tagGet (tag key : String) : String := String.mk (scanTag key.data TagScan.start tag.data)

/-- An instance of `strings.ToLower`, right on ASCII strings. -/
def asciiLower (s : String) : String := String.mk (s.data.map Char.toLower)

/-- Modelled from the spec: the method `DefaultResponse` of a route is not in
raml.go; "A route's default response is the first declared response" (a
response without payload type stands for it when none is declared). -/
def firstResponse (r : RouteSchema) : ResponseSchema :=
  r.Responses.headD ⟨0, none, "", "", false⟩

/-- Modelled from the spec: the method `Hidden` of a resource is not in
raml.go; "A resource is hidden if all its routes are hidden." -/
def allRoutesHidden (res : ResourceSchema) : Bool := res.Routes.all (fun r => r.Hidden)

/-- A concrete library for the statements at concrete inputs: every encoder
succeeds, with a fixed text for each kind of output, `range` yields the
entries in the order of the association list, every write succeeds, and
paths are already simple (no `{name:regex}` placeholder), so that
`simplifiedPath` and `SimplifyPath` change nothing. -/
def exampleExt : Externals where
  TagGet := tagGet
  ToLower := asciiLower
  MarshalJSON := fun _ _ => Except.ok "<example>"
  ReflectSchema := fun _ => Except.ok "<schema>"
  ReflectFromType := fun _ => Except.ok "<inline schema>"
  YamlMarshal := fun _ => Except.ok "<yaml>"
  Write := fun _ => none
  RangeOrder := fun m => m
  simplifiedPath := fun p => p
  SimplifyPath := fun res => res.Path
  Hidden := allRoutesHidden
  DefaultResponse := firstResponse

/-- The library `exampleExt` with a `json.Marshal` that fails on every example
value. -/
def failingMarshalExt : Externals :=
  { exampleExt with MarshalJSON := fun _ _ => Except.error "json: unsupported type" }

/-- The name part of a json tag: what stands before its first comma. -/
def jsonName (json : String) : String := (stringsSplit json ',').headD ""

/-- The options of a json tag: the comma-separated parts after the name. -/
def jsonOptions (json : String) : List String := (stringsSplit json ',').tail

/-- A Go program's types with tagged fields:
```
5  int            6  string            7  []string
8  type Filter struct {
     Token string `json:"-"`
     Limit int    `json:"limit,omitempty"`
   }
9  type Hooks struct {
     Tags []string `json:"-"`
     ID   int
   }
10 type Item struct { ID int }
11 struct { Code int }  (unnamed)
12 type Bad struct { Tags []string }
```
-/
def paramDecls : List TypeDecl :=
  [ { Name := "int", Kind := Kind.Int, TypeString := "int" },
    { Name := "string", Kind := Kind.String, TypeString := "string" },
    { Name := "", Kind := Kind.Slice, TypeString := "[]string", Elem := 6 },
    { Name := "Filter", Kind := Kind.Struct, TypeString := "main.Filter",
      Fields := [⟨"Token", "", 6, r#"json:"-""#⟩, ⟨"Limit", "", 5, r#"json:"limit,omitempty""#⟩] },
    { Name := "Hooks", Kind := Kind.Struct, TypeString := "main.Hooks",
      Fields := [⟨"Tags", "", 7, r#"json:"-""#⟩, ⟨"ID", "", 5, ""⟩] },
    { Name := "Item", Kind := Kind.Struct, TypeString := "main.Item",
      Fields := [⟨"ID", "", 5, ""⟩] },
    { Name := "", Kind := Kind.Struct, TypeString := "struct { Code int }",
      Fields := [⟨"Code", "", 5, ""⟩] },
    { Name := "Bad", Kind := Kind.Struct, TypeString := "main.Bad",
      Fields := [⟨"Tags", "", 7, ""⟩] } ]

/-- The reflection table of `paramDecls`. -/
def paramEnv : Reflect := Reflect.ofDecls paramDecls

/-! ## Concrete resources -/

/-- A streaming response with a declared description and no declared content
type, whose payload is an `Item`. -/
def streamResponse : ResponseSchema :=
  { Status := 200, Typ := some 10, ContentType := "", Description := "All items.",
    Streaming := true }

/-- A route of the resource `/items`. -/
def itemsRoute (method path : String) (hidden : Bool) : RouteSchema :=
  { Name := "Items", Description := "", Path := path, Method := method, Hidden := hidden,
    RequestType := none, QueryType := none, PathType := none, Example := "",
    Responses := [] }

/-- A resource with a visible `GET /items` and a hidden `DELETE /items`. -/
def itemsResource : ResourceSchema :=
  { Path := "/items", Name := "Items", Description := "",
    Routes := [itemsRoute "GET" "/items" false, itemsRoute "DELETE" "/items" true] }

/-- The resource without its hidden routes. -/
def visibleRoutes (resource : ResourceSchema) : ResourceSchema :=
  { resource with Routes := resource.Routes.filter (fun r => !r.Hidden) }

/-- A resource `/items` whose first route carries the prefix and has the query
type `Bad{Tags []string}`, and whose second route `/other` is outside the
prefix. -/
def brokenResource : ResourceSchema :=
  { Path := "/items", Name := "Items", Description := "",
    Routes := [{ itemsRoute "GET" "/items" false with QueryType := some 12 },
      itemsRoute "GET" "/other" false] }

/-- A schema over `paramEnv` with one route, whose request body is the unnamed
`struct { Code int }` and whose response payload is a `time.Time`. -/
def clockSchema : Schema :=
  { Name := "Clock", Description := "",
    Resources := [
      { Path := "/clock", Name := "Clock", Description := "",
        Routes := [
          { Name := "Set", Description := "", Path := "/clock", Method := "POST",
            Hidden := false, RequestType := some 11, QueryType := none, PathType := none,
            Example := "",
            Responses := [
              { Status := 200, Typ := some 0, ContentType := "", Description := "",
                Streaming := false } ] } ] } ] }

/-- The key that the method entry of a route is filed under in the section of
its resource (raml.go 194-200): none, that is the section itself, when the
simplified remaining path is empty, else that path with a leading `/`
ensured. -/
def routeKey (ext : Externals) (resource : ResourceSchema) (r : RouteSchema) : Option String :=
  if ext.simplifiedPath (dropPrefix r.Path resource.Path) = "" then none
  else some (pathKey (ext.simplifiedPath (dropPrefix r.Path resource.Path)))

/-- The entry of a section at a place: under the method key in the section
itself, or under the method key in the map stored under the path key. -/
def entryAt (out : rmap) (key : Option String) (methodKey : String) : Option RVal :=
  match key with
  | none => rmapGet out (RVal.str methodKey)
  | some k =>
    match rmapGet out (RVal.str k) with
    | some (RVal.map node) => rmapGet node (RVal.str methodKey)
    | _ => none

/-- The library `exampleExt` with a `jsonschema.Reflect` whose output
`json.MarshalIndent` fails on, for every type. -/
def failingSchemaExt : Externals :=
  { exampleExt with ReflectSchema := fun _ => Except.error "json: unsupported value" }

/-- A resource `/items` whose first route carries the prefix and whose second
route `/other` is outside the prefix. -/
def strayResource : ResourceSchema :=
  { Path := "/items", Name := "Items", Description := "",
    Routes := [itemsRoute "GET" "/items" false, itemsRoute "GET" "/other" false] }

/-- A response with the status of `streamResponse` that is not streaming: no
payload, the content type `text/plain`, no description. -/
def plainResponse : ResponseSchema :=
  { Status := 200, Typ := none, ContentType := "text/plain", Description := "",
    Streaming := false }

/-! ## Notions for the synthesized values -/

/-- The program has nothing that makes the reflect library panic under
`makeRAMLExampleValue`: no pointer type points to a pointer, slice or map
type (the value synthesized for these comes from `Addr`, `reflect.Append` or
`reflect.MakeMap` and is not addressable), and every field that the field
loop sets (its name does not start with a lowercase letter) is exported. -/
def NoPanicSource (env : Reflect) : Prop :=
  (∀ t, env.Kind t = Kind.Ptr →
    env.Kind (env.Elem t) ≠ Kind.Ptr ∧ env.Kind (env.Elem t) ≠ Kind.Slice ∧
      env.Kind (env.Elem t) ≠ Kind.Map) ∧
  (∀ t, env.Kind t = Kind.Struct →
    ∀ f ∈ env.Fields t, isFirstLower env f.Name = false → f.PkgPath = "")

mutual
/-- The value is, through and through, an example of the type: the zero value
for a type that is no pointer, slice or map; for a struct a value with one
value per field; a slice with exactly one element, an example of the element
type; a map with exactly one entry, examples of the key type and of the
element type; a non-nil pointer to an example of the pointee type. -/
inductive Shaped (env : Reflect) : TypeId → Value → Prop
  | zero (t : TypeId) : env.Kind t ≠ Kind.Ptr → env.Kind t ≠ Kind.Slice →
      env.Kind t ≠ Kind.Map → Shaped env t (Value.zero t)
  | struct (t : TypeId) (vals : List Value) : env.Kind t = Kind.Struct →
      ShapedFields env (env.Fields t) vals → Shaped env t (Value.struct t vals)
  | slice (t : TypeId) (w : Value) : env.Kind t = Kind.Slice → Shaped env (env.Elem t) w →
      Shaped env t (Value.slice t [w])
  | map (t : TypeId) (k w : Value) : env.Kind t = Kind.Map → Shaped env (env.Key t) k →
      Shaped env (env.Elem t) w → Shaped env t (Value.map t [(k, w)])
  | ptr (t : TypeId) (w : Value) : env.Kind t = Kind.Ptr → Shaped env (env.Elem t) w →
      Shaped env t (Value.ptr w)
/-- The values are those of the fields, one per field and in order: the zero
value for a field whose name starts with a lowercase letter, an example of the
field type for every other field, which is exported. -/
inductive ShapedFields (env : Reflect) : List StructField → List Value → Prop
  | nil : ShapedFields env [] []
  | lower (f : StructField) (fs : List StructField) (vs : List Value) :
      isFirstLower env f.Name = true → ShapedFields env fs vs →
      ShapedFields env (f :: fs) (Value.zero f.Typ :: vs)
  | set (f : StructField) (fv : Value) (fs : List StructField) (vs : List Value) :
      isFirstLower env f.Name = false → f.PkgPath = "" → Shaped env f.Typ fv →
      ShapedFields env fs vs → ShapedFields env (f :: fs) (fv :: vs)
end

/-- The values of the fields of a struct after the field loop run from the
guard set `cycles` to the guard set `c`: a field whose name starts with a
lowercase letter holds the zero value; every other field holds the value that
`makeRAMLExampleValue` returns for the field type from the guard set that the
fields before it left. -/
inductive FieldsSynthesized (env : Reflect) :
    cycleMap → List StructField → List Value → cycleMap → Prop
  | nil (c : cycleMap) : FieldsSynthesized env c [] [] c
  | lower (c c1 : cycleMap) (f : StructField) (fs : List StructField) (vs : List Value) :
      isFirstLower env f.Name = true → FieldsSynthesized env c fs vs c1 →
      FieldsSynthesized env c (f :: fs) (Value.zero f.Typ :: vs) c1
  | set (c c1 c2 : cycleMap) (f : StructField) (fv : Value) (fs : List StructField)
      (vs : List Value) :
      isFirstLower env f.Name = false →
      (∃ fuel, makeRAMLExampleValue env fuel c f.Typ = Outcome.done (fv, c1)) →
      FieldsSynthesized env c1 fs vs c2 → FieldsSynthesized env c (f :: fs) (fv :: vs) c2

/-- A Go program's types without a source of panic:
```
5  int
6  type Point struct { N int }
7  type Pair struct { X Point; Y Point }
8  []Pair               9  map[int]Pair               10 *Point
11 type Holder struct { P *Point; L []Pair; M map[int]Pair; n int }
```
-/
def shapeDecls : List TypeDecl :=
  [ { Name := "int", Kind := Kind.Int, TypeString := "int" },
    { Name := "Point", Kind := Kind.Struct, TypeString := "main.Point",
      Fields := [⟨"N", "", 5, ""⟩] },
    { Name := "Pair", Kind := Kind.Struct, TypeString := "main.Pair",
      Fields := [⟨"X", "", 6, ""⟩, ⟨"Y", "", 6, ""⟩] },
    { Name := "", Kind := Kind.Slice, TypeString := "[]main.Pair", Elem := 7 },
    { Name := "", Kind := Kind.Map, TypeString := "map[int]main.Pair", Key := 5, Elem := 7 },
    { Name := "", Kind := Kind.Ptr, TypeString := "*main.Point", Elem := 6 },
    { Name := "Holder", Kind := Kind.Struct, TypeString := "main.Holder",
      Fields := [⟨"P", "", 10, ""⟩, ⟨"L", "", 8, ""⟩, ⟨"M", "", 9, ""⟩,
                 ⟨"n", "main", 5, ""⟩] } ]

/-- The reflection table of `shapeDecls`. -/
def shapeEnv : Reflect := Reflect.ofDecls shapeDecls

/-- A rank for `shapeEnv`: pointer, slice and map types above the types they
are made of. -/
def shapeRank (t : TypeId) : Nat := if t = 3 ∨ t = 8 ∨ t = 9 ∨ t = 10 then 1 else 0

/-- A Go program's types on which the synthesis of an example fails:
```
5  int                  6  []int                  7  *[]int
8  []*[]int             9  map[int]*[]int
10 type Tagged struct { Tags *[]int }
11 type Both struct { X Tagged; Y Tagged }
12 type S []S
13 type Looped struct { L S }
14 type Twin struct { X Looped; Y Looped }
15 type Blank struct { _ int }
16 type Duo struct { X Blank; Y Blank }
17 []S                  18 []Blank
```
-/
def faultyDecls : List TypeDecl :=
  [ { Name := "int", Kind := Kind.Int, TypeString := "int" },
    { Name := "", Kind := Kind.Slice, TypeString := "[]int", Elem := 5 },
    { Name := "", Kind := Kind.Ptr, TypeString := "*[]int", Elem := 6 },
    { Name := "", Kind := Kind.Slice, TypeString := "[]*[]int", Elem := 7 },
    { Name := "", Kind := Kind.Map, TypeString := "map[int]*[]int", Key := 5, Elem := 7 },
    { Name := "Tagged", Kind := Kind.Struct, TypeString := "main.Tagged",
      Fields := [⟨"Tags", "", 7, ""⟩] },
    { Name := "Both", Kind := Kind.Struct, TypeString := "main.Both",
      Fields := [⟨"X", "", 10, ""⟩, ⟨"Y", "", 10, ""⟩] },
    { Name := "S", Kind := Kind.Slice, TypeString := "main.S", Elem := 12 },
    { Name := "Looped", Kind := Kind.Struct, TypeString := "main.Looped",
      Fields := [⟨"L", "", 12, ""⟩] },
    { Name := "Twin", Kind := Kind.Struct, TypeString := "main.Twin",
      Fields := [⟨"X", "", 13, ""⟩, ⟨"Y", "", 13, ""⟩] },
    { Name := "Blank", Kind := Kind.Struct, TypeString := "main.Blank",
      Fields := [⟨"_", "main", 5, ""⟩] },
    { Name := "Duo", Kind := Kind.Struct, TypeString := "main.Duo",
      Fields := [⟨"X", "", 15, ""⟩, ⟨"Y", "", 15, ""⟩] },
    { Name := "", Kind := Kind.Slice, TypeString := "[]main.S", Elem := 12 },
    { Name := "", Kind := Kind.Slice, TypeString := "[]main.Blank", Elem := 15 } ]

/-- The reflection table of `faultyDecls`. -/
def faultyEnv : Reflect := Reflect.ofDecls faultyDecls

/-! ## Places of routes, in the words of the spec -/

/-- A path "normalized to start with `/`": the path itself when its first
character is `/`, and else the path with a `/` put in front. -/
def withLeadingSlash (p : String) : String :=
  if p.data.head? = some '/' then p else String.mk ('/' :: p.data)

/-- The place of a route in the section of its resource, in the words of the
spec: the route path is the resource path followed by a remaining path, and
the place is the resource's own node (`none`) when the remaining path is
empty, and otherwise the key equal to the simplified remaining path with a
leading `/` ensured. -/
def PlacedAt (ext : Externals) (resource : ResourceSchema) (r : RouteSchema)
    (key : Option String) : Prop :=
  ∃ rest, r.Path = resource.Path ++ rest ∧
    key = if rest = "" then none else some (withLeadingSlash (ext.simplifiedPath rest))

/-- The names of the header fields described by the response entry that a
section holds under `status` in the responses of the method entry at the
place `key`, `methodKey`; no name when there is no such entry or no headers
entry in it. -/
def headerNames (out : rmap) (key : Option String) (methodKey : String) (status : Int) :
    List String :=
  match entryAt out key methodKey with
  | some (RVal.map m) =>
    match rmapGet m (RVal.str "responses") with
    | some (RVal.map responseMap) =>
      match rmapGet responseMap (RVal.int status) with
      | some (RVal.map rrm) =>
        match rmapGet rrm (RVal.str "headers") with
        | some (RVal.map headers) =>
          headers.map (fun p => match p.1 with | RVal.str s => s | _ => "")
        | _ => []
      | _ => []
    | _ => []
  | _ => []

/-- A resource `/items/` with `GET` and `POST` on `/items/all` and `GET` on
`/items/` itself: the remaining path `all` has no leading `/`. -/
def slashResource : ResourceSchema :=
  { Path := "/items/", Name := "Items", Description := "",
    Routes := [itemsRoute "GET" "/items/all" false, itemsRoute "POST" "/items/all" false,
      itemsRoute "GET" "/items/" false] }

/-- A resource `/items` whose only route carries the prefix and has the query
type `Bad{Tags []string}`. -/
def unrenderedResource : ResourceSchema :=
  { Path := "/items", Name := "Items", Description := "",
    Routes := [{ itemsRoute "GET" "/items" false with QueryType := some 12 }] }

/-- A resource `/items` with two routes on `/items/all` whose methods, `GET`
and `get`, differ and have the same lower-cased form. -/
def caseResource : ResourceSchema :=
  { Path := "/items", Name := "Items", Description := "",
    Routes := [itemsRoute "GET" "/items/all" false, itemsRoute "get" "/items/all" false] }

/-- A resource `/items` with `GET` on `/items/all` and, after it, a route on
`/items` itself whose method string is `/ALL`. -/
def slashMethodResource : ResourceSchema :=
  { Path := "/items", Name := "Items", Description := "",
    Routes := [itemsRoute "GET" "/items/all" false, itemsRoute "/ALL" "/items" false] }

/-- A resource `/items` whose route `GET /items` declares the given
responses. -/
def responsesResource (responses : List ResponseSchema) : ResourceSchema :=
  { Path := "/items", Name := "Items", Description := "",
    Routes := [{ itemsRoute "GET" "/items" false with Responses := responses }] }

/-- A resource `/items` with two routes `GET /items`, the first declaring the
streaming response `streamResponse` and the second `plainResponse`. -/
def twiceResource : ResourceSchema :=
  { Path := "/items", Name := "Items", Description := "",
    Routes := [{ itemsRoute "GET" "/items" false with Responses := [streamResponse] },
      { itemsRoute "GET" "/items" false with Responses := [plainResponse] }] }

/-! ## Theorems -/

/-! ### Auxiliary lemmas -/

/-- The date type is mapped to `{type: "date"}`. -/
theorem typeToRAML_date (env : Reflect) (fuel : Nat) :
    typeToRAML env (fuel + 1) env.timeType = Outcome.done (typeDescriptor "date") := by
  simp [typeToRAML, env.timeIsStruct]

/-- On a pointer type `typeToRAML` is the call on the pointee. -/
theorem typeToRAML_ptr (env : Reflect) (fuel : Nat) (t : TypeId) (h : env.Kind t = Kind.Ptr) :
    typeToRAML env (fuel + 1) t = typeToRAML env fuel (env.Elem t) := by
  simp [typeToRAML, h]

/-- On a type that is not a pointer `typeToRAML` either returns, for a type in
the mapping table, or panics with the unsupported-type message, for a type
outside it. -/
theorem typeToRAML_base (env : Reflect) (k : Nat) (u : TypeId) (hu : env.Kind u ≠ Kind.Ptr) :
    (typeToRAML env (k + 1) u = Outcome.panic ("unsupported type " ++ env.TypeString u) ∧
        ¬ inMappingTable env u) ∨
      ((∃ r, typeToRAML env (k + 1) u = Outcome.done r) ∧ inMappingTable env u) := by
  by_cases ht : u = env.timeType
  · right
    subst ht
    exact ⟨⟨_, typeToRAML_date env k⟩, by simp [inMappingTable]⟩
  · cases hk : env.Kind u
    all_goals first
      | exact absurd hk hu
      | simp [typeToRAML, hk, ht, inMappingTable, integerKinds]

/-- Pointer layers are stripped one call at a time. -/
theorem typeToRAML_strip (env : Reflect) (k : Nat) :
    ∀ (n : Nat) (t : TypeId), (∀ i, i < n → env.Kind (Nat.iterate env.Elem i t) = Kind.Ptr) →
      typeToRAML env (n + (k + 1)) t = typeToRAML env (k + 1) (Nat.iterate env.Elem n t) := by
  intro n
  induction n with
  | zero => intro t _; simp
  | succ n ih =>
    intro t hp
    have h0 : env.Kind t = Kind.Ptr := hp 0 (Nat.succ_pos n)
    have hstep : typeToRAML env (n + 1 + (k + 1)) t = typeToRAML env (n + (k + 1)) (env.Elem t) := by
      have : n + 1 + (k + 1) = (n + (k + 1)) + 1 := by omega
      rw [this]
      exact typeToRAML_ptr env _ t h0
    rw [hstep, ih (env.Elem t)]
    · rfl
    · intro i hi
      have := hp (i + 1) (Nat.succ_lt_succ hi)
      simpa [Function.iterate_succ_apply] using this

/-- The field loop only grows the guard set, when the recursive call does. -/
theorem fillFields_guard_mono (env : Reflect)
    (rec : cycleMap → TypeId → Outcome (Value × cycleMap))
    (hrec : ∀ cycles t v c, rec cycles t = Outcome.done (v, c) → cycles ⊆ c) :
    ∀ (fs : List StructField) (cycles : cycleMap) (vs : List Value) (c : cycleMap),
      fillFields env rec cycles fs = Outcome.done (vs, c) → cycles ⊆ c := by
  intro fs
  induction fs with
  | nil =>
    intro cycles vs c h
    simp only [fillFields, Outcome.done.injEq, Prod.mk.injEq] at h
    rw [h.2]
    exact fun _ hx => hx
  | cons ft rest ih =>
    intro cycles vs c h
    unfold fillFields at h
    split at h
    · split at h
      · rename_i vs1 c1 hrest
        simp only [Outcome.done.injEq, Prod.mk.injEq] at h
        rw [← h.2]
        exact ih _ _ _ hrest
      · cases h
      · cases h
    · split at h
      · rename_i fv c1 hfv
        split at h
        · split at h
          · rename_i vs1 c2 hrest
            simp only [Outcome.done.injEq, Prod.mk.injEq] at h
            rw [← h.2]
            exact fun x hx => ih _ _ _ hrest (hrec _ _ _ _ hfv hx)
          · cases h
          · cases h
        · cases h
      · cases h
      · cases h

/-- `makeRAMLExampleValue` only grows the guard set. -/
theorem makeRAMLExampleValue_guard_mono (env : Reflect) :
    ∀ (fuel : Nat) (cycles : cycleMap) (t : TypeId) (v : Value) (c : cycleMap),
      makeRAMLExampleValue env fuel cycles t = Outcome.done (v, c) → cycles ⊆ c := by
  intro fuel
  induction fuel with
  | zero => intro cycles t v c h; simp [makeRAMLExampleValue] at h
  | succ n ih =>
    intro cycles t v c h
    unfold makeRAMLExampleValue at h
    split at h
    · -- Ptr
      split at h
      · rename_i v1 c1 h1
        split at h
        · simp only [Outcome.done.injEq, Prod.mk.injEq] at h
          rw [← h.2]; exact ih _ _ _ _ h1
        · cases h
        · cases h
      · cases h
      · cases h
    · -- Struct
      split at h
      · simp only [Outcome.done.injEq, Prod.mk.injEq] at h
        rw [← h.2]; exact fun _ hx => hx
      · split at h
        · rename_i vs c1 h1
          simp only [Outcome.done.injEq, Prod.mk.injEq] at h
          rw [← h.2]
          exact fun x hx => fillFields_guard_mono env _ ih _ _ _ _ h1 (List.mem_cons_of_mem _ hx)
        · cases h
        · cases h
    · -- Slice
      split at h
      · rename_i v1 c1 h1
        simp only [Outcome.done.injEq, Prod.mk.injEq] at h
        rw [← h.2]; exact ih _ _ _ _ h1
      · cases h
      · cases h
    · -- Map
      split at h
      · rename_i k c1 h1
        split at h
        · rename_i v2 c2 h2
          simp only [Outcome.done.injEq, Prod.mk.injEq] at h
          rw [← h.2]
          exact fun x hx => ih _ _ _ _ h2 (ih _ _ _ _ h1 hx)
        · cases h
        · cases h
      · cases h
      · cases h
    · simp only [Outcome.done.injEq, Prod.mk.injEq] at h
      rw [← h.2]; exact fun _ hx => hx

/-- A struct type is in the guard set once its synthesis has returned. -/
theorem makeRAMLExampleValue_struct_entered (env : Reflect) (fuel : Nat) (cycles : cycleMap)
    (t : TypeId) (v : Value) (c : cycleMap) (hk : env.Kind t = Kind.Struct)
    (h : makeRAMLExampleValue env fuel cycles t = Outcome.done (v, c)) : t ∈ c := by
  cases fuel with
  | zero => simp [makeRAMLExampleValue] at h
  | succ n =>
    unfold makeRAMLExampleValue at h
    simp only [hk] at h
    split at h
    · rename_i hin
      simp only [Outcome.done.injEq, Prod.mk.injEq] at h
      rw [← h.2]; exact hin
    · split at h
      · rename_i vs c1 h1
        simp only [Outcome.done.injEq, Prod.mk.injEq] at h
        rw [← h.2]
        exact fillFields_guard_mono env _ (makeRAMLExampleValue_guard_mono env n) _ _ _ _ h1
          (List.mem_cons_self _ _)
      · cases h
      · cases h

/-- Reading a map after an assignment. -/
theorem mapGet_mapSet (m : ramlTypeMap) (k : String) (v : TypeId) (k1 : String) :
    mapGet (mapSet m k v) k1 = if k = k1 then some v else mapGet m k1 := by
  induction m with
  | nil => simp [mapSet, mapGet]
  | cons e m ih =>
    obtain ⟨k0, v0⟩ := e
    by_cases h0 : k0 = k
    · subst h0
      by_cases h1 : k0 = k1 <;> simp [mapSet, mapGet, h1]
    · by_cases h1 : k0 = k1
      · subst h1
        have : ¬ k = k0 := fun h => h0 h.symm
        simp [mapSet, mapGet, h0, this]
      · simp [mapSet, mapGet, h0, h1, ih]

theorem onlyAdds_refl (env : Reflect) (m : ramlTypeMap) (t : TypeId) : OnlyAdds env m m t :=
  ⟨fun _ _ h => h, fun _ _ h => Or.inl h⟩

/-- Two runs in sequence, the second on behalf of a type reached from the first. -/
theorem onlyAdds_trans (env : Reflect) (m m1 m2 : ramlTypeMap) (t u : TypeId)
    (h1 : OnlyAdds env m m1 t) (h2 : OnlyAdds env m1 m2 u) (hr : Reach env t u) :
    OnlyAdds env m m2 t := by
  refine ⟨fun k v h => h2.1 k v (h1.1 k v h), ?_⟩
  intro k v h
  rcases h2.2 k v h with h | ⟨hn, hname, hkind, htime, hreach⟩
  · exact h1.2 k v h
  · right
    refine ⟨?_, hname, hkind, htime, Relation.ReflTransGen.trans hr hreach⟩
    cases hm : mapGet m k with
    | none => rfl
    | some w => rw [h1.1 k w hm] at hn; cases hn

/-- A run on behalf of a type that `t` descends to is a run on behalf of `t`. -/
theorem onlyAdds_lift (env : Reflect) (m m1 : ramlTypeMap) (t u : TypeId)
    (h : OnlyAdds env m m1 u) (hd : Descends env t u) : OnlyAdds env m m1 t :=
  onlyAdds_trans env m m m1 t u (onlyAdds_refl env m t) h (Relation.ReflTransGen.single hd)

/-- The field loop of `collectTypes` only adds, when the recursive call does. -/
theorem collectFields_onlyAdds (env : Reflect)
    (rec : ramlTypeMap → Option TypeId → Option ramlTypeMap) (t : TypeId)
    (hrec : ∀ m u m1, rec m (some u) = some m1 → OnlyAdds env m m1 u) :
    ∀ (fs : List StructField) (m m1 : ramlTypeMap),
      (∀ f ∈ fs, isFirstLower env f.Name = false → Descends env t f.Typ) →
      collectFields env rec m fs = some m1 → OnlyAdds env m m1 t := by
  intro fs
  induction fs with
  | nil =>
    intro m m1 _ h
    simp only [collectFields, Option.some.injEq] at h
    subst h
    exact onlyAdds_refl env m t
  | cons f rest ih =>
    intro m m1 hd h
    have hrest : ∀ g ∈ rest, isFirstLower env g.Name = false → Descends env t g.Typ :=
      fun g hg => hd g (List.mem_cons_of_mem _ hg)
    unfold collectFields at h
    split at h
    · exact ih m m1 hrest h
    · rename_i hlow
      split at h
      · cases h
      · rename_i m2 h2
        have hstep := onlyAdds_lift env m m2 t f.Typ (hrec _ _ _ h2)
          (hd f (List.mem_cons_self _ _) (by simpa using hlow))
        have hlater := ih m2 m1 hrest h
        exact onlyAdds_trans env m m2 m1 t t hstep hlater Relation.ReflTransGen.refl

/-- `collectTypes` only adds entries. -/
theorem onlyAdds_collectTypes (env : Reflect) :
    ∀ (fuel : Nat) (m : ramlTypeMap) (t : TypeId) (m1 : ramlTypeMap),
      collectTypes env fuel m (some t) = some m1 → OnlyAdds env m m1 t := by
  intro fuel
  induction fuel with
  | zero => intro m t m1 h; simp [collectTypes] at h
  | succ n ih =>
    intro m t m1 h
    unfold collectTypes at h
    split at h
    · simp only [Option.some.injEq] at h; subst h; exact onlyAdds_refl env m t
    · rename_i htime
      split at h
      · simp only [Option.some.injEq] at h; subst h; exact onlyAdds_refl env m t
      · rename_i hnew
        have hnone : mapGet m (env.Name t) = none := by
          cases hg : mapGet m (env.Name t) with
          | none => rfl
          | some w => simp [hg] at hnew
        split at h
        · -- Struct
          rename_i hk
          have hset : OnlyAdds env m (mapSet m (env.Name t) t) t := by
            constructor
            · intro k v hkv
              rw [mapGet_mapSet]
              split
              · rename_i heq; subst heq; rw [hnone] at hkv; cases hkv
              · exact hkv
            · intro k v hkv
              rw [mapGet_mapSet] at hkv
              split at hkv
              · rename_i heq
                simp only [Option.some.injEq] at hkv
                subst hkv heq
                exact Or.inr ⟨hnone, rfl, hk, htime, Relation.ReflTransGen.refl⟩
              · exact Or.inl hkv
          have hloop := collectFields_onlyAdds env (collectTypes env n) t ih (env.Fields t)
            _ m1 (fun f hf hlow => ⟨htime, Or.inl ⟨hk, f, hf, hlow, rfl⟩⟩) h
          exact onlyAdds_trans env _ _ _ t t hset hloop Relation.ReflTransGen.refl
        · rename_i hk
          exact onlyAdds_lift env m m1 t _ (ih _ _ _ h) ⟨htime, Or.inr (Or.inl ⟨Or.inl hk, rfl⟩)⟩
        · rename_i hk
          exact onlyAdds_lift env m m1 t _ (ih _ _ _ h) ⟨htime, Or.inr (Or.inl ⟨Or.inr hk, rfl⟩)⟩
        · rename_i hk
          split at h
          · cases h
          · rename_i m2 h2
            have hkey := onlyAdds_lift env m m2 t _ (ih _ _ _ h2)
              ⟨htime, Or.inr (Or.inr ⟨hk, Or.inl rfl⟩)⟩
            have helem := onlyAdds_lift env m2 m1 t _ (ih _ _ _ h)
              ⟨htime, Or.inr (Or.inr ⟨hk, Or.inr rfl⟩)⟩
            exact onlyAdds_trans env _ _ _ t t hkey helem Relation.ReflTransGen.refl
        · simp only [Option.some.injEq] at h; subst h; exact onlyAdds_refl env m t

theorem unvisited_mono (N : Nat) (cycles c : cycleMap) (h : cycles ⊆ c) :
    unvisited N c ≤ unvisited N cycles := by
  unfold unvisited
  apply Finset.card_le_card
  intro x hx
  simp only [Finset.mem_filter, Finset.mem_range] at hx ⊢
  exact ⟨hx.1, fun hin => hx.2 (h hin)⟩

theorem unvisited_cons_lt (N : Nat) (cycles : cycleMap) (t : TypeId) (ht : t < N)
    (hn : t ∉ cycles) : unvisited N (t :: cycles) < unvisited N cycles := by
  unfold unvisited
  apply Finset.card_lt_card
  rw [Finset.ssubset_iff_of_subset]
  · exact ⟨t, by simp [ht, hn], by simp⟩
  · intro x hx
    simp only [Finset.mem_filter, Finset.mem_range, List.mem_cons, not_or] at hx ⊢
    exact ⟨hx.1, hx.2.2⟩

theorem bind_ne_outOfFuel {α β : Type} (x : Outcome α) (f : α → Outcome β)
    (h : x.bind f ≠ Outcome.outOfFuel) : x ≠ Outcome.outOfFuel := by
  intro hx; rw [hx] at h; exact h rfl

/-- Two sequenced runs agree when their steps agree wherever the first run's
steps do not run out of fuel. -/
theorem bind_fuel_mono {α β : Type} (x x1 : Outcome α) (f f1 : α → Outcome β)
    (hx : x ≠ Outcome.outOfFuel → x1 = x)
    (hf : ∀ a, x = Outcome.done a → f a ≠ Outcome.outOfFuel → f1 a = f a)
    (h : x.bind f ≠ Outcome.outOfFuel) : x1.bind f1 = x.bind f := by
  have hne := bind_ne_outOfFuel x f h
  rw [hx hne]
  cases x with
  | done a => exact hf a rfl h
  | panic msg => rfl
  | outOfFuel => exact absurd rfl hne

theorem fillFields_nil (env : Reflect) (rec : cycleMap → TypeId → Outcome (Value × cycleMap))
    (cycles : cycleMap) : fillFields env rec cycles [] = Outcome.done ([], cycles) := rfl

/-- The field loop on a field skipped by `isFirstLower`. -/
theorem fillFields_cons_lower (env : Reflect)
    (rec : cycleMap → TypeId → Outcome (Value × cycleMap)) (cycles : cycleMap)
    (ft : StructField) (rest : List StructField) (h : isFirstLower env ft.Name = true) :
    fillFields env rec cycles (ft :: rest) =
      (fillFields env rec cycles rest).bind
        (fun r => Outcome.done (Value.zero ft.Typ :: r.1, r.2)) := by
  rw [fillFields]
  simp only [h, if_true]
  cases fillFields env rec cycles rest <;> rfl

/-- The field loop on a field that is set. -/
theorem fillFields_cons_set (env : Reflect)
    (rec : cycleMap → TypeId → Outcome (Value × cycleMap)) (cycles : cycleMap)
    (ft : StructField) (rest : List StructField) (h : isFirstLower env ft.Name = false) :
    fillFields env rec cycles (ft :: rest) =
      (rec cycles ft.Typ).bind (fun r =>
        if ft.PkgPath = "" then
          (fillFields env rec r.2 rest).bind (fun q => Outcome.done (r.1 :: q.1, q.2))
        else
          Outcome.panic "reflect: reflect.Value.Set using value obtained using unexported field") := by
  rw [fillFields]
  simp only [h]
  cases hr : rec cycles ft.Typ with
  | done p =>
    obtain ⟨fv, c1⟩ := p
    simp only [Outcome.bind]
    by_cases hp : ft.PkgPath = ""
    · simp only [hp, if_true]
      cases fillFields env rec c1 rest <;> rfl
    · simp [hp]
  | panic msg => rfl
  | outOfFuel => rfl

theorem makeRAMLExampleValue_ptr (env : Reflect) (n : Nat) (cycles : cycleMap) (t : TypeId)
    (hk : env.Kind t = Kind.Ptr) :
    makeRAMLExampleValue env (n + 1) cycles t =
      (makeRAMLExampleValue env n cycles (env.Elem t)).bind
        (fun r => r.1.Addr.bind (fun p => Outcome.done (p, r.2))) := by
  rw [makeRAMLExampleValue]
  simp only [hk]
  cases makeRAMLExampleValue env n cycles (env.Elem t) with
  | done p => obtain ⟨v, c⟩ := p; simp only [Outcome.bind]; cases v.Addr <;> rfl
  | panic msg => rfl
  | outOfFuel => rfl

theorem makeRAMLExampleValue_struct_seen (env : Reflect) (n : Nat) (cycles : cycleMap)
    (t : TypeId) (hk : env.Kind t = Kind.Struct) (hin : t ∈ cycles) :
    makeRAMLExampleValue env (n + 1) cycles t = Outcome.done (Value.zero t, cycles) := by
  rw [makeRAMLExampleValue]
  simp only [hk, hin, if_true]

theorem makeRAMLExampleValue_struct_new (env : Reflect) (n : Nat) (cycles : cycleMap)
    (t : TypeId) (hk : env.Kind t = Kind.Struct) (hin : t ∉ cycles) :
    makeRAMLExampleValue env (n + 1) cycles t =
      (fillFields env (makeRAMLExampleValue env n) (t :: cycles) (env.Fields t)).bind
        (fun r => Outcome.done (Value.struct t r.1, r.2)) := by
  rw [makeRAMLExampleValue]
  simp only [hk, hin, if_false]
  cases fillFields env (makeRAMLExampleValue env n) (t :: cycles) (env.Fields t) <;> rfl

theorem makeRAMLExampleValue_slice (env : Reflect) (n : Nat) (cycles : cycleMap) (t : TypeId)
    (hk : env.Kind t = Kind.Slice) :
    makeRAMLExampleValue env (n + 1) cycles t =
      (makeRAMLExampleValue env n cycles (env.Elem t)).bind
        (fun r => Outcome.done (Value.slice t [r.1], r.2)) := by
  rw [makeRAMLExampleValue]
  simp only [hk]
  cases makeRAMLExampleValue env n cycles (env.Elem t) <;> rfl

theorem makeRAMLExampleValue_map (env : Reflect) (n : Nat) (cycles : cycleMap) (t : TypeId)
    (hk : env.Kind t = Kind.Map) :
    makeRAMLExampleValue env (n + 1) cycles t =
      (makeRAMLExampleValue env n cycles (env.Key t)).bind (fun r =>
        (makeRAMLExampleValue env n r.2 (env.Elem t)).bind
          (fun q => Outcome.done (Value.map t [(r.1, q.1)], q.2))) := by
  rw [makeRAMLExampleValue]
  simp only [hk]
  cases makeRAMLExampleValue env n cycles (env.Key t) with
  | done p =>
    obtain ⟨k, c1⟩ := p
    simp only [Outcome.bind]
    cases makeRAMLExampleValue env n c1 (env.Elem t) <;> rfl
  | panic msg => rfl
  | outOfFuel => rfl

theorem makeRAMLExampleValue_other (env : Reflect) (n : Nat) (cycles : cycleMap) (t : TypeId)
    (h1 : env.Kind t ≠ Kind.Ptr) (h2 : env.Kind t ≠ Kind.Struct) (h3 : env.Kind t ≠ Kind.Slice)
    (h4 : env.Kind t ≠ Kind.Map) :
    makeRAMLExampleValue env (n + 1) cycles t = Outcome.done (Value.zero t, cycles) := by
  rw [makeRAMLExampleValue]
  split
  · rename_i hk; exact absurd hk h1
  · rename_i hk; exact absurd hk h2
  · rename_i hk; exact absurd hk h3
  · rename_i hk; exact absurd hk h4
  · rfl

/-- The field loop gives the same result over a recursive call that agrees
with `rec` wherever `rec` does not run out of fuel. -/
theorem fillFields_fuel_mono (env : Reflect)
    (rec rec1 : cycleMap → TypeId → Outcome (Value × cycleMap))
    (hrec : ∀ cycles t, rec cycles t ≠ Outcome.outOfFuel → rec1 cycles t = rec cycles t) :
    ∀ (fs : List StructField) (cycles : cycleMap),
      fillFields env rec cycles fs ≠ Outcome.outOfFuel →
      fillFields env rec1 cycles fs = fillFields env rec cycles fs := by
  intro fs
  induction fs with
  | nil => intro cycles _; rfl
  | cons ft rest ih =>
    intro cycles h
    cases hlow : isFirstLower env ft.Name with
    | true =>
      rw [fillFields_cons_lower env _ _ _ _ hlow] at h ⊢
      rw [fillFields_cons_lower env _ _ _ _ hlow]
      exact bind_fuel_mono _ _ _ _ (ih cycles) (fun _ _ _ => rfl) h
    | false =>
      rw [fillFields_cons_set env _ _ _ _ hlow] at h ⊢
      rw [fillFields_cons_set env _ _ _ _ hlow]
      refine bind_fuel_mono _ _ _ _ (hrec cycles ft.Typ) ?_ h
      intro r _ hr
      by_cases hp : ft.PkgPath = ""
      · simp only [hp, if_true] at hr ⊢
        exact bind_fuel_mono _ _ _ _ (ih r.2) (fun _ _ _ => rfl) hr
      · simp only [hp, if_false]

/-- One more unit of fuel does not change a result that was reached. -/
theorem makeRAMLExampleValue_fuel_succ (env : Reflect) :
    ∀ (fuel : Nat) (cycles : cycleMap) (t : TypeId),
      makeRAMLExampleValue env fuel cycles t ≠ Outcome.outOfFuel →
      makeRAMLExampleValue env (fuel + 1) cycles t = makeRAMLExampleValue env fuel cycles t := by
  intro fuel
  induction fuel with
  | zero => intro cycles t h; exact absurd rfl h
  | succ n ih =>
    intro cycles t h
    by_cases h1 : env.Kind t = Kind.Ptr
    · rw [makeRAMLExampleValue_ptr env _ _ _ h1] at h ⊢
      rw [makeRAMLExampleValue_ptr env _ _ _ h1]
      exact bind_fuel_mono _ _ _ _ (ih _ _) (fun _ _ _ => rfl) h
    by_cases h2 : env.Kind t = Kind.Struct
    · by_cases hin : t ∈ cycles
      · rw [makeRAMLExampleValue_struct_seen env _ _ _ h2 hin,
          makeRAMLExampleValue_struct_seen env _ _ _ h2 hin]
      · rw [makeRAMLExampleValue_struct_new env _ _ _ h2 hin] at h ⊢
        rw [makeRAMLExampleValue_struct_new env _ _ _ h2 hin]
        exact bind_fuel_mono _ _ _ _ (fillFields_fuel_mono env _ _ ih _ _)
          (fun _ _ _ => rfl) h
    by_cases h3 : env.Kind t = Kind.Slice
    · rw [makeRAMLExampleValue_slice env _ _ _ h3] at h ⊢
      rw [makeRAMLExampleValue_slice env _ _ _ h3]
      exact bind_fuel_mono _ _ _ _ (ih _ _) (fun _ _ _ => rfl) h
    by_cases h4 : env.Kind t = Kind.Map
    · rw [makeRAMLExampleValue_map env _ _ _ h4] at h ⊢
      rw [makeRAMLExampleValue_map env _ _ _ h4]
      refine bind_fuel_mono _ _ _ _ (ih _ _) ?_ h
      intro r _ hr
      exact bind_fuel_mono _ _ _ _ (ih _ _) (fun _ _ _ => rfl) hr
    rw [makeRAMLExampleValue_other env _ _ _ h1 h2 h3 h4,
      makeRAMLExampleValue_other env _ _ _ h1 h2 h3 h4]

/-- More fuel does not change a result that was reached. -/
theorem makeRAMLExampleValue_fuel_le (env : Reflect) (n m : Nat) (hnm : n ≤ m)
    (cycles : cycleMap) (t : TypeId)
    (h : makeRAMLExampleValue env n cycles t ≠ Outcome.outOfFuel) :
    makeRAMLExampleValue env m cycles t = makeRAMLExampleValue env n cycles t := by
  induction m with
  | zero =>
    have : n = 0 := by omega
    rw [this]
  | succ k ih =>
    by_cases hk : n ≤ k
    · have h1 := ih hk
      rw [← h1] at h
      rw [makeRAMLExampleValue_fuel_succ env k cycles t h, h1]
    · have : n = k + 1 := by omega
      rw [this]

/-- The field loop terminates when the recursive call does on every guard set
with no more unvisited struct types than the starting one. -/
theorem fillFields_terminates (env : Reflect) (N k : Nat)
    (hrec : ∀ cycles, unvisited N cycles ≤ k → ∀ t,
      ∃ fuel, makeRAMLExampleValue env fuel cycles t ≠ Outcome.outOfFuel) :
    ∀ (fs : List StructField) (cycles : cycleMap), unvisited N cycles ≤ k →
      ∃ fuel, fillFields env (makeRAMLExampleValue env fuel) cycles fs ≠ Outcome.outOfFuel := by
  intro fs
  induction fs with
  | nil => intro cycles _; exact ⟨0, by simp [fillFields]⟩
  | cons ft rest ih =>
    intro cycles hc
    cases hlow : isFirstLower env ft.Name with
    | true =>
      obtain ⟨f, hf⟩ := ih cycles hc
      refine ⟨f, ?_⟩
      rw [fillFields_cons_lower env _ _ _ _ hlow]
      cases hr : fillFields env (makeRAMLExampleValue env f) cycles rest with
      | done p => simp [Outcome.bind]
      | panic msg => simp [Outcome.bind]
      | outOfFuel => exact absurd hr hf
    | false =>
      obtain ⟨f1, hf1⟩ := hrec cycles hc ft.Typ
      cases hr : makeRAMLExampleValue env f1 cycles ft.Typ with
      | outOfFuel => exact absurd hr hf1
      | panic msg =>
        refine ⟨f1, ?_⟩
        rw [fillFields_cons_set env _ _ _ _ hlow, hr]
        simp [Outcome.bind]
      | done p =>
        obtain ⟨fv, c1⟩ := p
        have hsub : cycles ⊆ c1 := makeRAMLExampleValue_guard_mono env f1 cycles ft.Typ fv c1 hr
        have hc1 : unvisited N c1 ≤ k := Nat.le_trans (unvisited_mono N cycles c1 hsub) hc
        obtain ⟨f2, hf2⟩ := ih c1 hc1
        refine ⟨max f1 f2, ?_⟩
        rw [fillFields_cons_set env _ _ _ _ hlow]
        have h1 : makeRAMLExampleValue env (max f1 f2) cycles ft.Typ = Outcome.done (fv, c1) := by
          rw [makeRAMLExampleValue_fuel_le env f1 (max f1 f2) (Nat.le_max_left _ _) cycles ft.Typ hf1,
            hr]
        rw [h1]
        simp only [Outcome.bind]
        by_cases hp : ft.PkgPath = ""
        · simp only [hp, if_true]
          have h2 : fillFields env (makeRAMLExampleValue env (max f1 f2)) c1 rest =
              fillFields env (makeRAMLExampleValue env f2) c1 rest :=
            fillFields_fuel_mono env _ _
              (fun cy u hu => makeRAMLExampleValue_fuel_le env f2 (max f1 f2)
                (Nat.le_max_right _ _) cy u hu) rest c1 hf2
          rw [h2]
          cases hr2 : fillFields env (makeRAMLExampleValue env f2) c1 rest with
          | done p => simp
          | panic msg => simp
          | outOfFuel => exact absurd hr2 hf2
        · simp [hp]

/-- Termination for guard sets with at most `k` unvisited struct types, from
termination for those with fewer. -/
theorem exampleValue_terminates_step (env : Reflect) (rank : TypeId → Nat) (N k : Nat)
    (hrank : RankedBy env rank) (hN : StructsBelow env N)
    (hless : ∀ cycles, unvisited N cycles < k → ∀ t,
      ∃ fuel, makeRAMLExampleValue env fuel cycles t ≠ Outcome.outOfFuel) :
    ∀ (r : Nat) (t : TypeId), rank t ≤ r → ∀ cycles, unvisited N cycles ≤ k →
      ∃ fuel, makeRAMLExampleValue env fuel cycles t ≠ Outcome.outOfFuel := by
  -- a struct type, whatever its rank
  have hstruct : ∀ (t : TypeId), env.Kind t = Kind.Struct → ∀ cycles, unvisited N cycles ≤ k →
      ∃ fuel, makeRAMLExampleValue env fuel cycles t ≠ Outcome.outOfFuel := by
    intro t h2 cycles hc
    by_cases hin : t ∈ cycles
    · exact ⟨1, by rw [makeRAMLExampleValue_struct_seen env 0 cycles t h2 hin]; simp⟩
    · have hlt : unvisited N (t :: cycles) < unvisited N cycles :=
        unvisited_cons_lt N cycles t (hN t h2) hin
      have hk : 0 < k := by omega
      obtain ⟨j, rfl⟩ : ∃ j, k = j + 1 := ⟨k - 1, by omega⟩
      have hrec : ∀ cy, unvisited N cy ≤ j → ∀ u,
          ∃ fuel, makeRAMLExampleValue env fuel cy u ≠ Outcome.outOfFuel :=
        fun cy hcy u => hless cy (by omega) u
      obtain ⟨f, hf⟩ := fillFields_terminates env N j hrec (env.Fields t) (t :: cycles) (by omega)
      refine ⟨f + 1, ?_⟩
      rw [makeRAMLExampleValue_struct_new env f cycles t h2 hin]
      cases hr : fillFields env (makeRAMLExampleValue env f) (t :: cycles) (env.Fields t) with
      | done p => simp [Outcome.bind]
      | panic msg => simp [Outcome.bind]
      | outOfFuel => exact absurd hr hf
  -- one step through a pointer or a slice
  have hwrap : ∀ (cycles : cycleMap) (e : TypeId) (g : Value × cycleMap → Outcome (Value × cycleMap)),
      (∀ p, g p ≠ Outcome.outOfFuel) →
      (∃ fuel, makeRAMLExampleValue env fuel cycles e ≠ Outcome.outOfFuel) →
      ∃ fuel, (makeRAMLExampleValue env fuel cycles e).bind g ≠ Outcome.outOfFuel := by
    intro cycles e g hg ⟨f, hf⟩
    refine ⟨f, ?_⟩
    cases hr : makeRAMLExampleValue env f cycles e with
    | done p => simpa [Outcome.bind] using hg p
    | panic msg => simp [Outcome.bind]
    | outOfFuel => exact absurd hr hf
  intro r
  induction r with
  | zero =>
    intro t hr cycles hc
    by_cases h1 : env.Kind t = Kind.Ptr
    · have := (hrank t).1 (Or.inl h1); omega
    by_cases h2 : env.Kind t = Kind.Struct
    · exact hstruct t h2 cycles hc
    by_cases h3 : env.Kind t = Kind.Slice
    · have := (hrank t).1 (Or.inr h3); omega
    by_cases h4 : env.Kind t = Kind.Map
    · have := ((hrank t).2 h4).1; omega
    exact ⟨1, by rw [makeRAMLExampleValue_other env 0 cycles t h1 h2 h3 h4]; simp⟩
  | succ r ih =>
    intro t hr cycles hc
    by_cases h1 : env.Kind t = Kind.Ptr
    · have hlt := (hrank t).1 (Or.inl h1)
      obtain ⟨f, hf⟩ := hwrap cycles (env.Elem t)
        (fun r => r.1.Addr.bind (fun p => Outcome.done (p, r.2)))
        (by
          intro p
          unfold Value.Addr
          by_cases hca : p.1.CanAddr = true <;> simp [hca, Outcome.bind])
        (ih (env.Elem t) (by omega) cycles hc)
      exact ⟨f + 1, by rw [makeRAMLExampleValue_ptr env f cycles t h1]; exact hf⟩
    by_cases h2 : env.Kind t = Kind.Struct
    · exact hstruct t h2 cycles hc
    by_cases h3 : env.Kind t = Kind.Slice
    · have hlt := (hrank t).1 (Or.inr h3)
      obtain ⟨f, hf⟩ := hwrap cycles (env.Elem t)
        (fun r => Outcome.done (Value.slice t [r.1], r.2)) (by intro p; simp)
        (ih (env.Elem t) (by omega) cycles hc)
      exact ⟨f + 1, by rw [makeRAMLExampleValue_slice env f cycles t h3]; exact hf⟩
    by_cases h4 : env.Kind t = Kind.Map
    · have hlt := (hrank t).2 h4
      obtain ⟨f1, hf1⟩ := ih (env.Key t) (by omega) cycles hc
      cases hr1 : makeRAMLExampleValue env f1 cycles (env.Key t) with
      | outOfFuel => exact absurd hr1 hf1
      | panic msg =>
        refine ⟨f1 + 1, ?_⟩
        rw [makeRAMLExampleValue_map env f1 cycles t h4, hr1]
        simp [Outcome.bind]
      | done p =>
        obtain ⟨kv, c1⟩ := p
        have hsub : cycles ⊆ c1 := makeRAMLExampleValue_guard_mono env f1 cycles _ kv c1 hr1
        have hc1 : unvisited N c1 ≤ k := Nat.le_trans (unvisited_mono N cycles c1 hsub) hc
        obtain ⟨f2, hf2⟩ := ih (env.Elem t) (by omega) c1 hc1
        refine ⟨max f1 f2 + 1, ?_⟩
        rw [makeRAMLExampleValue_map env _ cycles t h4,
          makeRAMLExampleValue_fuel_le env f1 (max f1 f2) (Nat.le_max_left _ _) cycles _ hf1, hr1]
        simp only [Outcome.bind]
        rw [makeRAMLExampleValue_fuel_le env f2 (max f1 f2) (Nat.le_max_right _ _) c1 _ hf2]
        cases hr2 : makeRAMLExampleValue env f2 c1 (env.Elem t) with
        | done p => simp
        | panic msg => simp
        | outOfFuel => exact absurd hr2 hf2
    exact ⟨1, by rw [makeRAMLExampleValue_other env 0 cycles t h1 h2 h3 h4]; simp⟩

/-- `makeRAMLExampleValue` terminates from every guard set, when every cycle of
the type table passes through a struct type. -/
theorem exampleValue_terminates_from (env : Reflect) (rank : TypeId → Nat) (N : Nat)
    (hrank : RankedBy env rank) (hN : StructsBelow env N) :
    ∀ (k : Nat) (cycles : cycleMap), unvisited N cycles ≤ k → ∀ t,
      ∃ fuel, makeRAMLExampleValue env fuel cycles t ≠ Outcome.outOfFuel := by
  intro k
  induction k with
  | zero =>
    intro cycles hc t
    exact exampleValue_terminates_step env rank N 0 hrank hN
      (fun cy hcy => absurd hcy (Nat.not_lt_zero _)) (rank t) t (Nat.le_refl _) cycles hc
  | succ k ih =>
    intro cycles hc t
    exact exampleValue_terminates_step env rank N (k + 1) hrank hN
      (fun cy hcy u => ih cy (by omega) u) (rank t) t (Nat.le_refl _) cycles hc

/-- The field loop fills no struct of a type in the guard set, when the
recursive call does not. -/
theorem fillFields_no_fill (env : Reflect) (T : TypeId)
    (rec : cycleMap → TypeId → Outcome (Value × cycleMap))
    (hmono : ∀ cycles t v c, rec cycles t = Outcome.done (v, c) → cycles ⊆ c)
    (hrec : ∀ cycles t v c, T ∈ cycles → rec cycles t = Outcome.done (v, c) →
      Value.fills T v = false) :
    ∀ (fs : List StructField) (cycles : cycleMap) (vs : List Value) (c : cycleMap),
      T ∈ cycles → fillFields env rec cycles fs = Outcome.done (vs, c) →
      Value.fillsAny T vs = false := by
  intro fs
  induction fs with
  | nil =>
    intro cycles vs c _ h
    simp only [fillFields, Outcome.done.injEq, Prod.mk.injEq] at h
    rw [← h.1]; rfl
  | cons ft rest ih =>
    intro cycles vs c hT h
    cases hlow : isFirstLower env ft.Name with
    | true =>
      rw [fillFields_cons_lower env _ _ _ _ hlow] at h
      cases hr : fillFields env rec cycles rest with
      | outOfFuel => rw [hr] at h; cases h
      | panic msg => rw [hr] at h; cases h
      | done p =>
        rw [hr] at h
        simp only [Outcome.bind, Outcome.done.injEq, Prod.mk.injEq] at h
        rw [← h.1]
        simp [Value.fillsAny, Value.fills, ih cycles p.1 p.2 hT hr]
    | false =>
      rw [fillFields_cons_set env _ _ _ _ hlow] at h
      cases hr : rec cycles ft.Typ with
      | outOfFuel => rw [hr] at h; cases h
      | panic msg => rw [hr] at h; cases h
      | done p =>
        rw [hr] at h
        simp only [Outcome.bind] at h
        by_cases hp : ft.PkgPath = ""
        · simp only [hp, if_true] at h
          cases hr2 : fillFields env rec p.2 rest with
          | outOfFuel => rw [hr2] at h; cases h
          | panic msg => rw [hr2] at h; cases h
          | done q =>
            rw [hr2] at h
            simp only [Outcome.done.injEq, Prod.mk.injEq] at h
            rw [← h.1]
            have h1 := hrec cycles ft.Typ p.1 p.2 hT hr
            have h2 := ih p.2 q.1 q.2 (hmono cycles ft.Typ p.1 p.2 hr hT) hr2
            simp [Value.fillsAny, h1, h2]
        · simp [hp] at h

/-- A value synthesized while `T` is in the guard set contains no filled `T`. -/
theorem makeRAMLExampleValue_no_fill (env : Reflect) (T : TypeId) :
    ∀ (fuel : Nat) (cycles : cycleMap) (t : TypeId) (v : Value) (c : cycleMap),
      T ∈ cycles → makeRAMLExampleValue env fuel cycles t = Outcome.done (v, c) →
      Value.fills T v = false := by
  intro fuel
  induction fuel with
  | zero => intro cycles t v c _ h; simp [makeRAMLExampleValue] at h
  | succ n ih =>
    intro cycles t v c hT h
    by_cases h1 : env.Kind t = Kind.Ptr
    · rw [makeRAMLExampleValue_ptr env _ _ _ h1] at h
      cases hr : makeRAMLExampleValue env n cycles (env.Elem t) with
      | outOfFuel => rw [hr] at h; cases h
      | panic msg => rw [hr] at h; cases h
      | done p =>
        rw [hr] at h
        simp only [Outcome.bind, Value.Addr] at h
        by_cases hca : p.1.CanAddr = true
        · simp only [hca, if_true, Outcome.done.injEq, Prod.mk.injEq] at h
          rw [← h.1]
          simpa [Value.fills] using ih cycles _ p.1 p.2 hT hr
        · simp [hca] at h
    by_cases h2 : env.Kind t = Kind.Struct
    · by_cases hin : t ∈ cycles
      · rw [makeRAMLExampleValue_struct_seen env _ _ _ h2 hin] at h
        simp only [Outcome.done.injEq, Prod.mk.injEq] at h
        rw [← h.1]; rfl
      · rw [makeRAMLExampleValue_struct_new env _ _ _ h2 hin] at h
        cases hr : fillFields env (makeRAMLExampleValue env n) (t :: cycles) (env.Fields t) with
        | outOfFuel => rw [hr] at h; cases h
        | panic msg => rw [hr] at h; cases h
        | done p =>
          rw [hr] at h
          simp only [Outcome.bind, Outcome.done.injEq, Prod.mk.injEq] at h
          rw [← h.1]
          have hne : t ≠ T := fun heq => hin (heq ▸ hT)
          have hfs := fillFields_no_fill env T _ (makeRAMLExampleValue_guard_mono env n) ih
            (env.Fields t) (t :: cycles) p.1 p.2 (List.mem_cons_of_mem _ hT) hr
          simp [Value.fills, hne, hfs]
    by_cases h3 : env.Kind t = Kind.Slice
    · rw [makeRAMLExampleValue_slice env _ _ _ h3] at h
      cases hr : makeRAMLExampleValue env n cycles (env.Elem t) with
      | outOfFuel => rw [hr] at h; cases h
      | panic msg => rw [hr] at h; cases h
      | done p =>
        rw [hr] at h
        simp only [Outcome.bind, Outcome.done.injEq, Prod.mk.injEq] at h
        rw [← h.1]
        simpa [Value.fills, Value.fillsAny] using ih cycles _ p.1 p.2 hT hr
    by_cases h4 : env.Kind t = Kind.Map
    · rw [makeRAMLExampleValue_map env _ _ _ h4] at h
      cases hr : makeRAMLExampleValue env n cycles (env.Key t) with
      | outOfFuel => rw [hr] at h; cases h
      | panic msg => rw [hr] at h; cases h
      | done p =>
        rw [hr] at h
        simp only [Outcome.bind] at h
        cases hr2 : makeRAMLExampleValue env n p.2 (env.Elem t) with
        | outOfFuel => rw [hr2] at h; cases h
        | panic msg => rw [hr2] at h; cases h
        | done q =>
          rw [hr2] at h
          simp only [Outcome.done.injEq, Prod.mk.injEq] at h
          rw [← h.1]
          have hk := ih cycles _ p.1 p.2 hT hr
          have hv := ih p.2 _ q.1 q.2 (makeRAMLExampleValue_guard_mono env n _ _ _ _ hr hT) hr2
          simp [Value.fills, Value.fillsEntries, hk, hv]
    rw [makeRAMLExampleValue_other env _ _ _ h1 h2 h3 h4] at h
    simp only [Outcome.done.injEq, Prod.mk.injEq] at h
    rw [← h.1]; rfl

/-- Types outside a concrete table have the invalid kind. -/
theorem ofDecls_kind_invalid (decls : List TypeDecl) (t : TypeId)
    (h : (timeDecls ++ decls).length ≤ t) : (Reflect.ofDecls decls).Kind t = Kind.Invalid := by
  show ((timeDecls ++ decls).getD t invalidDecl).Kind = Kind.Invalid
  rw [List.getD_eq_default _ _ h]
  rfl

theorem nodeEnv_ranked : RankedBy nodeEnv nodeRank := by
  intro t
  by_cases ht : t < 11
  · interval_cases t <;> decide
  · have hk : nodeEnv.Kind t = Kind.Invalid := ofDecls_kind_invalid nodeDecls t (by
      simp only [timeDecls, nodeDecls, List.length_append, List.length_cons, List.length_nil]
      exact Nat.le_of_not_lt ht)
    simp [hk]

theorem nodeEnv_structsBelow : StructsBelow nodeEnv 7 := by
  intro t hk
  by_cases ht : t < 11
  · interval_cases t <;> first | decide | (exfalso; revert hk; decide)
  · have hk1 : nodeEnv.Kind t = Kind.Invalid := ofDecls_kind_invalid nodeDecls t (by
      simp only [timeDecls, nodeDecls, List.length_append, List.length_cons, List.length_nil]
      exact Nat.le_of_not_lt ht)
    rw [hk1] at hk; cases hk

/-- Every value returned by `makeRAMLExampleValue` has the form of its kind. -/
theorem makeRAMLExampleValue_exampleOf (env : Reflect) (fuel : Nat) (cycles : cycleMap)
    (t : TypeId) (v : Value) (c : cycleMap)
    (h : makeRAMLExampleValue env fuel cycles t = Outcome.done (v, c)) : ExampleOf env t v := by
  cases fuel with
  | zero => simp [makeRAMLExampleValue] at h
  | succ n =>
    by_cases h1 : env.Kind t = Kind.Ptr
    · rw [makeRAMLExampleValue_ptr env _ _ _ h1] at h
      cases hr : makeRAMLExampleValue env n cycles (env.Elem t) with
      | outOfFuel => rw [hr] at h; cases h
      | panic msg => rw [hr] at h; cases h
      | done p =>
        rw [hr] at h
        simp only [Outcome.bind, Value.Addr] at h
        by_cases hca : p.1.CanAddr = true
        · simp only [hca, if_true, Outcome.done.injEq, Prod.mk.injEq] at h
          exact ⟨fun _ => ⟨p.1, h.1.symm⟩, fun hk => (by rw [h1] at hk; cases hk),
            fun hk => (by rw [h1] at hk; cases hk), fun hk => (by rw [h1] at hk; cases hk),
            fun a _ _ _ => absurd h1 a⟩
        · simp [hca] at h
    by_cases h2 : env.Kind t = Kind.Struct
    · have hstruct : v = Value.zero t ∨ ∃ vals, v = Value.struct t vals := by
        by_cases hin : t ∈ cycles
        · rw [makeRAMLExampleValue_struct_seen env _ _ _ h2 hin] at h
          simp only [Outcome.done.injEq, Prod.mk.injEq] at h
          exact Or.inl h.1.symm
        · rw [makeRAMLExampleValue_struct_new env _ _ _ h2 hin] at h
          cases hr : fillFields env (makeRAMLExampleValue env n) (t :: cycles) (env.Fields t) with
          | outOfFuel => rw [hr] at h; cases h
          | panic msg => rw [hr] at h; cases h
          | done p =>
            rw [hr] at h
            simp only [Outcome.bind, Outcome.done.injEq, Prod.mk.injEq] at h
            exact Or.inr ⟨p.1, h.1.symm⟩
      exact ⟨fun hk => (by rw [h2] at hk; cases hk), fun hk => (by rw [h2] at hk; cases hk),
        fun hk => (by rw [h2] at hk; cases hk), fun _ => hstruct, fun _ _ _ d => absurd h2 d⟩
    by_cases h3 : env.Kind t = Kind.Slice
    · rw [makeRAMLExampleValue_slice env _ _ _ h3] at h
      cases hr : makeRAMLExampleValue env n cycles (env.Elem t) with
      | outOfFuel => rw [hr] at h; cases h
      | panic msg => rw [hr] at h; cases h
      | done p =>
        rw [hr] at h
        simp only [Outcome.bind, Outcome.done.injEq, Prod.mk.injEq] at h
        exact ⟨fun hk => (by rw [h3] at hk; cases hk), fun _ => ⟨p.1, h.1.symm⟩,
          fun hk => (by rw [h3] at hk; cases hk), fun hk => (by rw [h3] at hk; cases hk),
          fun _ b _ _ => absurd h3 b⟩
    by_cases h4 : env.Kind t = Kind.Map
    · rw [makeRAMLExampleValue_map env _ _ _ h4] at h
      cases hr : makeRAMLExampleValue env n cycles (env.Key t) with
      | outOfFuel => rw [hr] at h; cases h
      | panic msg => rw [hr] at h; cases h
      | done p =>
        rw [hr] at h
        simp only [Outcome.bind] at h
        cases hr2 : makeRAMLExampleValue env n p.2 (env.Elem t) with
        | outOfFuel => rw [hr2] at h; cases h
        | panic msg => rw [hr2] at h; cases h
        | done q =>
          rw [hr2] at h
          simp only [Outcome.done.injEq, Prod.mk.injEq] at h
          exact ⟨fun hk => (by rw [h4] at hk; cases hk), fun hk => (by rw [h4] at hk; cases hk),
            fun _ => ⟨p.1, q.1, h.1.symm⟩, fun hk => (by rw [h4] at hk; cases hk),
            fun _ _ c1 _ => absurd h4 c1⟩
    rw [makeRAMLExampleValue_other env _ _ _ h1 h2 h3 h4] at h
    simp only [Outcome.done.injEq, Prod.mk.injEq] at h
    exact ⟨fun hk => absurd hk h1, fun hk => absurd hk h3, fun hk => absurd hk h4,
      fun hk => absurd hk h2, fun _ _ _ _ => h.1.symm⟩

/-- The field loop leaves in each field what `FieldShown` says. -/
theorem fillFields_fieldShown (env : Reflect)
    (rec : cycleMap → TypeId → Outcome (Value × cycleMap))
    (hrec : ∀ cycles t v c, rec cycles t = Outcome.done (v, c) → ExampleOf env t v) :
    ∀ (fs : List StructField) (cycles : cycleMap) (vs : List Value) (c : cycleMap),
      fillFields env rec cycles fs = Outcome.done (vs, c) →
      List.Forall₂ (FieldShown env) fs vs := by
  intro fs
  induction fs with
  | nil =>
    intro cycles vs c h
    simp only [fillFields, Outcome.done.injEq, Prod.mk.injEq] at h
    rw [← h.1]; exact List.Forall₂.nil
  | cons ft rest ih =>
    intro cycles vs c h
    cases hlow : isFirstLower env ft.Name with
    | true =>
      rw [fillFields_cons_lower env _ _ _ _ hlow] at h
      cases hr : fillFields env rec cycles rest with
      | outOfFuel => rw [hr] at h; cases h
      | panic msg => rw [hr] at h; cases h
      | done p =>
        rw [hr] at h
        simp only [Outcome.bind, Outcome.done.injEq, Prod.mk.injEq] at h
        rw [← h.1]
        exact List.Forall₂.cons ⟨fun _ => rfl, fun hf => (by rw [hlow] at hf; cases hf)⟩
          (ih cycles p.1 p.2 hr)
    | false =>
      rw [fillFields_cons_set env _ _ _ _ hlow] at h
      cases hr : rec cycles ft.Typ with
      | outOfFuel => rw [hr] at h; cases h
      | panic msg => rw [hr] at h; cases h
      | done p =>
        rw [hr] at h
        simp only [Outcome.bind] at h
        by_cases hp : ft.PkgPath = ""
        · simp only [hp, if_true] at h
          cases hr2 : fillFields env rec p.2 rest with
          | outOfFuel => rw [hr2] at h; cases h
          | panic msg => rw [hr2] at h; cases h
          | done q =>
            rw [hr2] at h
            simp only [Outcome.done.injEq, Prod.mk.injEq] at h
            rw [← h.1]
            exact List.Forall₂.cons
              ⟨fun hf => (by rw [hlow] at hf; cases hf), fun _ => hrec cycles ft.Typ p.1 p.2 hr⟩
              (ih p.2 q.1 q.2 hr2)
        · simp [hp] at h

/-- The field loop builds only one-element slices and one-entry maps, when the
recursive call does. -/
theorem fillFields_singletons (env : Reflect)
    (rec : cycleMap → TypeId → Outcome (Value × cycleMap))
    (hrec : ∀ cycles t v c, rec cycles t = Outcome.done (v, c) → v.singletons = true) :
    ∀ (fs : List StructField) (cycles : cycleMap) (vs : List Value) (c : cycleMap),
      fillFields env rec cycles fs = Outcome.done (vs, c) →
      Value.singletonsAll vs = true := by
  intro fs
  induction fs with
  | nil =>
    intro cycles vs c h
    simp only [fillFields, Outcome.done.injEq, Prod.mk.injEq] at h
    rw [← h.1]; rfl
  | cons ft rest ih =>
    intro cycles vs c h
    cases hlow : isFirstLower env ft.Name with
    | true =>
      rw [fillFields_cons_lower env _ _ _ _ hlow] at h
      cases hr : fillFields env rec cycles rest with
      | outOfFuel => rw [hr] at h; cases h
      | panic msg => rw [hr] at h; cases h
      | done p =>
        rw [hr] at h
        simp only [Outcome.bind, Outcome.done.injEq, Prod.mk.injEq] at h
        rw [← h.1]
        simp [Value.singletonsAll, Value.singletons, ih cycles p.1 p.2 hr]
    | false =>
      rw [fillFields_cons_set env _ _ _ _ hlow] at h
      cases hr : rec cycles ft.Typ with
      | outOfFuel => rw [hr] at h; cases h
      | panic msg => rw [hr] at h; cases h
      | done p =>
        rw [hr] at h
        simp only [Outcome.bind] at h
        by_cases hp : ft.PkgPath = ""
        · simp only [hp, if_true] at h
          cases hr2 : fillFields env rec p.2 rest with
          | outOfFuel => rw [hr2] at h; cases h
          | panic msg => rw [hr2] at h; cases h
          | done q =>
            rw [hr2] at h
            simp only [Outcome.done.injEq, Prod.mk.injEq] at h
            rw [← h.1]
            simp [Value.singletonsAll, hrec cycles ft.Typ p.1 p.2 hr, ih p.2 q.1 q.2 hr2]
        · simp [hp] at h

/-- `makeRAMLExampleValue` builds only one-element slices and one-entry maps. -/
theorem makeRAMLExampleValue_singletons (env : Reflect) :
    ∀ (fuel : Nat) (cycles : cycleMap) (t : TypeId) (v : Value) (c : cycleMap),
      makeRAMLExampleValue env fuel cycles t = Outcome.done (v, c) → v.singletons = true := by
  intro fuel
  induction fuel with
  | zero => intro cycles t v c h; simp [makeRAMLExampleValue] at h
  | succ n ih =>
    intro cycles t v c h
    by_cases h1 : env.Kind t = Kind.Ptr
    · rw [makeRAMLExampleValue_ptr env _ _ _ h1] at h
      cases hr : makeRAMLExampleValue env n cycles (env.Elem t) with
      | outOfFuel => rw [hr] at h; cases h
      | panic msg => rw [hr] at h; cases h
      | done p =>
        rw [hr] at h
        simp only [Outcome.bind, Value.Addr] at h
        by_cases hca : p.1.CanAddr = true
        · simp only [hca, if_true, Outcome.done.injEq, Prod.mk.injEq] at h
          rw [← h.1]
          simpa [Value.singletons] using ih cycles _ p.1 p.2 hr
        · simp [hca] at h
    by_cases h2 : env.Kind t = Kind.Struct
    · by_cases hin : t ∈ cycles
      · rw [makeRAMLExampleValue_struct_seen env _ _ _ h2 hin] at h
        simp only [Outcome.done.injEq, Prod.mk.injEq] at h
        rw [← h.1]; rfl
      · rw [makeRAMLExampleValue_struct_new env _ _ _ h2 hin] at h
        cases hr : fillFields env (makeRAMLExampleValue env n) (t :: cycles) (env.Fields t) with
        | outOfFuel => rw [hr] at h; cases h
        | panic msg => rw [hr] at h; cases h
        | done p =>
          rw [hr] at h
          simp only [Outcome.bind, Outcome.done.injEq, Prod.mk.injEq] at h
          rw [← h.1]
          simpa [Value.singletons] using
            fillFields_singletons env _ ih (env.Fields t) (t :: cycles) p.1 p.2 hr
    by_cases h3 : env.Kind t = Kind.Slice
    · rw [makeRAMLExampleValue_slice env _ _ _ h3] at h
      cases hr : makeRAMLExampleValue env n cycles (env.Elem t) with
      | outOfFuel => rw [hr] at h; cases h
      | panic msg => rw [hr] at h; cases h
      | done p =>
        rw [hr] at h
        simp only [Outcome.bind, Outcome.done.injEq, Prod.mk.injEq] at h
        rw [← h.1]
        simpa [Value.singletons, Value.singletonsAll] using ih cycles _ p.1 p.2 hr
    by_cases h4 : env.Kind t = Kind.Map
    · rw [makeRAMLExampleValue_map env _ _ _ h4] at h
      cases hr : makeRAMLExampleValue env n cycles (env.Key t) with
      | outOfFuel => rw [hr] at h; cases h
      | panic msg => rw [hr] at h; cases h
      | done p =>
        rw [hr] at h
        simp only [Outcome.bind] at h
        cases hr2 : makeRAMLExampleValue env n p.2 (env.Elem t) with
        | outOfFuel => rw [hr2] at h; cases h
        | panic msg => rw [hr2] at h; cases h
        | done q =>
          rw [hr2] at h
          simp only [Outcome.done.injEq, Prod.mk.injEq] at h
          rw [← h.1]
          simp [Value.singletons, Value.singletonsEntries, ih cycles _ p.1 p.2 hr,
            ih p.2 _ q.1 q.2 hr2]
    rw [makeRAMLExampleValue_other env _ _ _ h1 h2 h3 h4] at h
    simp only [Outcome.done.injEq, Prod.mk.injEq] at h
    rw [← h.1]; rfl

theorem collectTypes_time (env : Reflect) (n : Nat) (m : ramlTypeMap) :
    collectTypes env (n + 1) m (some env.timeType) = some m := by
  simp [collectTypes]

theorem collectTypes_seen (env : Reflect) (n : Nat) (m : ramlTypeMap) (t w : TypeId)
    (hs : mapGet m (env.Name t) = some w) : collectTypes env (n + 1) m (some t) = some m := by
  simp [collectTypes, hs]

theorem collectTypes_struct (env : Reflect) (n : Nat) (m : ramlTypeMap) (t : TypeId)
    (ht : t ≠ env.timeType) (hs : mapGet m (env.Name t) = none) (hk : env.Kind t = Kind.Struct) :
    collectTypes env (n + 1) m (some t) =
      collectFields env (collectTypes env n) (mapSet m (env.Name t) t) (env.Fields t) := by
  rw [collectTypes]
  simp only [ht, if_false, hs, Option.isSome_none, hk]
  rfl

theorem collectTypes_elem (env : Reflect) (n : Nat) (m : ramlTypeMap) (t : TypeId)
    (ht : t ≠ env.timeType) (hs : mapGet m (env.Name t) = none)
    (hk : env.Kind t = Kind.Ptr ∨ env.Kind t = Kind.Slice) :
    collectTypes env (n + 1) m (some t) = collectTypes env n m (some (env.Elem t)) := by
  rw [collectTypes]
  rcases hk with hk | hk <;> simp only [ht, if_false, hs, Option.isSome_none, hk] <;> rfl

theorem collectTypes_map (env : Reflect) (n : Nat) (m : ramlTypeMap) (t : TypeId)
    (ht : t ≠ env.timeType) (hs : mapGet m (env.Name t) = none) (hk : env.Kind t = Kind.Map) :
    collectTypes env (n + 1) m (some t) =
      (collectTypes env n m (some (env.Key t))).bind
        (fun m1 => collectTypes env n m1 (some (env.Elem t))) := by
  rw [collectTypes]
  simp only [ht, if_false, hs, Option.isSome_none, hk]
  cases collectTypes env n m (some (env.Key t)) <;> rfl

theorem collectTypes_other (env : Reflect) (n : Nat) (m : ramlTypeMap) (t : TypeId)
    (h1 : env.Kind t ≠ Kind.Struct) (h2 : env.Kind t ≠ Kind.Ptr) (h3 : env.Kind t ≠ Kind.Slice)
    (h4 : env.Kind t ≠ Kind.Map) : collectTypes env (n + 1) m (some t) = some m := by
  rw [collectTypes]
  split
  · rfl
  · split
    · rfl
    · split
      · rename_i hk; exact absurd hk h1
      · rename_i hk; exact absurd hk h2
      · rename_i hk; exact absurd hk h3
      · rename_i hk; exact absurd hk h4
      · rfl

theorem collectFields_cons_lower (env : Reflect)
    (rec : ramlTypeMap → Option TypeId → Option ramlTypeMap) (m : ramlTypeMap)
    (f : StructField) (fs : List StructField) (h : isFirstLower env f.Name = true) :
    collectFields env rec m (f :: fs) = collectFields env rec m fs := by
  rw [collectFields]
  simp only [h, if_true]

theorem collectFields_cons (env : Reflect)
    (rec : ramlTypeMap → Option TypeId → Option ramlTypeMap) (m : ramlTypeMap)
    (f : StructField) (fs : List StructField) (h : isFirstLower env f.Name = false) :
    collectFields env rec m (f :: fs) =
      (rec m (some f.Typ)).bind (fun m1 => collectFields env rec m1 fs) := by
  rw [collectFields]
  simp only [h]
  cases rec m (some f.Typ) <;> rfl

/-- The field loop of `collectTypes` returns the same map over a recursive
call that returns whatever `rec` returns. -/
theorem collectFields_fuel_mono (env : Reflect)
    (rec rec1 : ramlTypeMap → Option TypeId → Option ramlTypeMap)
    (hrec : ∀ m t r, rec m t = some r → rec1 m t = some r) :
    ∀ (fs : List StructField) (m r : ramlTypeMap),
      collectFields env rec m fs = some r → collectFields env rec1 m fs = some r := by
  intro fs
  induction fs with
  | nil => intro m r h; exact h
  | cons f rest ih =>
    intro m r h
    cases hlow : isFirstLower env f.Name with
    | true =>
      rw [collectFields_cons_lower env _ _ _ _ hlow] at h ⊢
      exact ih m r h
    | false =>
      rw [collectFields_cons env _ _ _ _ hlow] at h ⊢
      cases hr : rec m (some f.Typ) with
      | none => rw [hr] at h; cases h
      | some m1 =>
        rw [hr] at h
        rw [hrec m _ m1 hr]
        exact ih m1 r h

/-- One more unit of fuel does not change what `collectTypes` returns. -/
theorem collectTypes_fuel_succ (env : Reflect) :
    ∀ (fuel : Nat) (m : ramlTypeMap) (t : Option TypeId) (r : ramlTypeMap),
      collectTypes env fuel m t = some r → collectTypes env (fuel + 1) m t = some r := by
  intro fuel
  induction fuel with
  | zero => intro m t r h; simp [collectTypes] at h
  | succ n ih =>
    intro m t r h
    cases t with
    | none => simpa [collectTypes] using h
    | some t =>
      by_cases ht : t = env.timeType
      · subst ht
        rw [collectTypes_time] at h ⊢
        exact h
      cases hs : mapGet m (env.Name t) with
      | some w =>
        rw [collectTypes_seen env _ m t w hs] at h ⊢
        exact h
      | none =>
        by_cases h1 : env.Kind t = Kind.Struct
        · rw [collectTypes_struct env _ m t ht hs h1] at h ⊢
          exact collectFields_fuel_mono env _ _ ih _ _ _ h
        by_cases h2 : env.Kind t = Kind.Ptr
        · rw [collectTypes_elem env _ m t ht hs (Or.inl h2)] at h ⊢
          exact ih _ _ _ h
        by_cases h3 : env.Kind t = Kind.Slice
        · rw [collectTypes_elem env _ m t ht hs (Or.inr h3)] at h ⊢
          exact ih _ _ _ h
        by_cases h4 : env.Kind t = Kind.Map
        · rw [collectTypes_map env _ m t ht hs h4] at h ⊢
          cases hr : collectTypes env n m (some (env.Key t)) with
          | none => rw [hr] at h; cases h
          | some m1 =>
            rw [hr] at h
            rw [ih _ _ _ hr]
            exact ih _ _ _ h
        rw [collectTypes_other env _ m t h1 h2 h3 h4] at h ⊢
        exact h

/-- More fuel does not change what `collectTypes` returns. -/
theorem collectTypes_fuel_le (env : Reflect) (n k : Nat) (hnk : n ≤ k) (m : ramlTypeMap)
    (t : Option TypeId) (r : ramlTypeMap) (h : collectTypes env n m t = some r) :
    collectTypes env k m t = some r := by
  induction k with
  | zero =>
    have : n = 0 := by omega
    rw [this] at h; exact h
  | succ j ih =>
    by_cases hj : n ≤ j
    · exact collectTypes_fuel_succ env j m t r (ih hj)
    · have : n = j + 1 := by omega
      rw [this] at h; exact h

theorem unmapped_mono (env : Reflect) (N : Nat) (m m1 : ramlTypeMap) (h : MapLe m m1) :
    unmapped env N m1 ≤ unmapped env N m := by
  unfold unmapped
  apply Finset.card_le_card
  intro x hx
  simp only [Finset.mem_filter, Finset.mem_range] at hx ⊢
  refine ⟨hx.1, ?_⟩
  cases hm : mapGet m (env.Name x) with
  | none => rfl
  | some w => rw [h _ _ hm] at hx; cases hx.2

theorem unmapped_set_lt (env : Reflect) (N : Nat) (m : ramlTypeMap) (t : TypeId) (ht : t < N)
    (hn : mapGet m (env.Name t) = none) :
    unmapped env N (mapSet m (env.Name t) t) < unmapped env N m := by
  unfold unmapped
  apply Finset.card_lt_card
  rw [Finset.ssubset_iff_of_subset]
  · refine ⟨t, ?_, ?_⟩
    · simp only [Finset.mem_filter, Finset.mem_range]
      exact ⟨ht, hn⟩
    · simp [mapGet_mapSet]
  · intro x hx
    simp only [Finset.mem_filter, Finset.mem_range] at hx ⊢
    refine ⟨hx.1, ?_⟩
    have h2 := hx.2
    rw [mapGet_mapSet] at h2
    split at h2
    · cases h2
    · exact h2

/-- `collectTypes` keeps the entries of the map it starts from. -/
theorem collectTypes_mapLe (env : Reflect) (fuel : Nat) (m : ramlTypeMap) (t : TypeId)
    (r : ramlTypeMap) (h : collectTypes env fuel m (some t) = some r) : MapLe m r :=
  (onlyAdds_collectTypes env fuel m t r h).1

/-- The field loop of `collectTypes` terminates when the recursive call does
on every map with no more unmapped types than the starting one. -/
theorem collectFields_terminates (env : Reflect) (N k : Nat)
    (hrec : ∀ m, unmapped env N m ≤ k → ∀ t,
      ∃ fuel r, collectTypes env fuel m (some t) = some r) :
    ∀ (fs : List StructField) (m : ramlTypeMap), unmapped env N m ≤ k →
      ∃ fuel r, collectFields env (collectTypes env fuel) m fs = some r := by
  intro fs
  induction fs with
  | nil => intro m _; exact ⟨0, m, rfl⟩
  | cons f rest ih =>
    intro m hm
    cases hlow : isFirstLower env f.Name with
    | true =>
      obtain ⟨n, r, hr⟩ := ih m hm
      exact ⟨n, r, by rw [collectFields_cons_lower env _ _ _ _ hlow]; exact hr⟩
    | false =>
      obtain ⟨n1, m1, h1⟩ := hrec m hm f.Typ
      have hle : unmapped env N m1 ≤ k :=
        Nat.le_trans (unmapped_mono env N m m1 (collectTypes_mapLe env n1 m f.Typ m1 h1)) hm
      obtain ⟨n2, r, h2⟩ := ih m1 hle
      refine ⟨max n1 n2, r, ?_⟩
      rw [collectFields_cons env _ _ _ _ hlow,
        collectTypes_fuel_le env n1 (max n1 n2) (Nat.le_max_left _ _) m _ m1 h1]
      exact collectFields_fuel_mono env _ _
        (fun m2 u r2 hu => collectTypes_fuel_le env n2 (max n1 n2) (Nat.le_max_right _ _) m2 u r2 hu)
        rest m1 r h2

/-- Termination of `collectTypes` for maps with at most `k` unmapped types,
from termination for those with fewer. -/
theorem collectTypes_terminates_step (env : Reflect) (rank : TypeId → Nat) (N k : Nat)
    (hrank : RankedBy env rank) (hN : StructsBelow env N)
    (hless : ∀ m, unmapped env N m < k → ∀ t,
      ∃ fuel r, collectTypes env fuel m (some t) = some r) :
    ∀ (j : Nat) (t : TypeId), rank t ≤ j → ∀ m, unmapped env N m ≤ k →
      ∃ fuel r, collectTypes env fuel m (some t) = some r := by
  have hstruct : ∀ (t : TypeId) (m : ramlTypeMap), t ≠ env.timeType →
      mapGet m (env.Name t) = none → env.Kind t = Kind.Struct → unmapped env N m ≤ k →
      ∃ fuel r, collectTypes env fuel m (some t) = some r := by
    intro t m ht hs h1 hm
    have hlt := unmapped_set_lt env N m t (hN t h1) hs
    obtain ⟨i, rfl⟩ : ∃ i, k = i + 1 := ⟨k - 1, by omega⟩
    obtain ⟨n, r, hr⟩ := collectFields_terminates env N i (fun m1 hm1 u => hless m1 (by omega) u)
      (env.Fields t) (mapSet m (env.Name t) t) (by omega)
    exact ⟨n + 1, r, by rw [collectTypes_struct env n m t ht hs h1]; exact hr⟩
  have hcases : ∀ (t : TypeId) (m : ramlTypeMap), unmapped env N m ≤ k →
      ((env.Kind t = Kind.Ptr ∨ env.Kind t = Kind.Slice) →
        ∃ fuel r, collectTypes env fuel m (some (env.Elem t)) = some r) →
      (env.Kind t = Kind.Map → ∀ m1, unmapped env N m1 ≤ k →
        (∃ fuel r, collectTypes env fuel m1 (some (env.Key t)) = some r) ∧
        (∃ fuel r, collectTypes env fuel m1 (some (env.Elem t)) = some r)) →
      ∃ fuel r, collectTypes env fuel m (some t) = some r := by
    intro t m hm helem hmap
    by_cases ht : t = env.timeType
    · exact ⟨1, m, by rw [ht, collectTypes_time]⟩
    cases hs : mapGet m (env.Name t) with
    | some w => exact ⟨1, m, collectTypes_seen env 0 m t w hs⟩
    | none =>
      by_cases h1 : env.Kind t = Kind.Struct
      · exact hstruct t m ht hs h1 hm
      by_cases h2 : env.Kind t = Kind.Ptr
      · obtain ⟨n, r, hr⟩ := helem (Or.inl h2)
        exact ⟨n + 1, r, by rw [collectTypes_elem env n m t ht hs (Or.inl h2)]; exact hr⟩
      by_cases h3 : env.Kind t = Kind.Slice
      · obtain ⟨n, r, hr⟩ := helem (Or.inr h3)
        exact ⟨n + 1, r, by rw [collectTypes_elem env n m t ht hs (Or.inr h3)]; exact hr⟩
      by_cases h4 : env.Kind t = Kind.Map
      · obtain ⟨n1, m1, hr1⟩ := (hmap h4 m hm).1
        have hle : unmapped env N m1 ≤ k :=
          Nat.le_trans (unmapped_mono env N m m1 (collectTypes_mapLe env n1 m _ m1 hr1)) hm
        obtain ⟨n2, r, hr2⟩ := (hmap h4 m1 hle).2
        refine ⟨max n1 n2 + 1, r, ?_⟩
        rw [collectTypes_map env _ m t ht hs h4,
          collectTypes_fuel_le env n1 (max n1 n2) (Nat.le_max_left _ _) m _ m1 hr1]
        exact collectTypes_fuel_le env n2 (max n1 n2) (Nat.le_max_right _ _) m1 _ r hr2
      exact ⟨1, m, collectTypes_other env 0 m t h1 h2 h3 h4⟩
  intro j
  induction j with
  | zero =>
    intro t hr m hm
    refine hcases t m hm ?_ ?_
    · intro hk
      have := (hrank t).1 hk; omega
    · intro hk
      have := ((hrank t).2 hk).1; omega
  | succ j ih =>
    intro t hr m hm
    refine hcases t m hm ?_ ?_
    · intro hk
      have := (hrank t).1 hk
      exact ih (env.Elem t) (by omega) m hm
    · intro hk m1 hm1
      have := (hrank t).2 hk
      exact ⟨ih (env.Key t) (by omega) m1 hm1, ih (env.Elem t) (by omega) m1 hm1⟩

/-- `collectTypes` terminates from every map, when every cycle of the type
table passes through a struct type. -/
theorem collectTypes_terminates (env : Reflect) (rank : TypeId → Nat) (N : Nat)
    (hrank : RankedBy env rank) (hN : StructsBelow env N) :
    ∀ (k : Nat) (m : ramlTypeMap), unmapped env N m ≤ k → ∀ t,
      ∃ fuel r, collectTypes env fuel m (some t) = some r := by
  intro k
  induction k with
  | zero =>
    intro m hm t
    exact collectTypes_terminates_step env rank N 0 hrank hN
      (fun m1 hm1 => absurd hm1 (Nat.not_lt_zero _)) (rank t) t (Nat.le_refl _) m hm
  | succ k ih =>
    intro m hm t
    exact collectTypes_terminates_step env rank N (k + 1) hrank hN
      (fun m1 hm1 u => ih m1 (by omega) u) (rank t) t (Nat.le_refl _) m hm

theorem mapLe_refl (m : ramlTypeMap) : MapLe m m := fun _ _ h => h

theorem mapLe_trans (m m1 m2 : ramlTypeMap) (h1 : MapLe m m1) (h2 : MapLe m1 m2) : MapLe m m2 :=
  fun k v h => h2 k v (h1 k v h)

/-- A handled type stays handled when the map grows. -/
theorem handled_mono (env : Reflect) (m m1 : ramlTypeMap) (hle : MapLe m m1) (u : TypeId)
    (h : Handled env m u) : Handled env m1 u := by
  induction h with
  | time => exact Handled.time
  | stored u hk hs => exact Handled.stored u hk (hle _ _ hs)
  | elem u hk _ ih => exact Handled.elem u hk ih
  | map u hk _ _ ih1 ih2 => exact Handled.map u hk ih1 ih2
  | other u h1 h2 h3 h4 => exact Handled.other u h1 h2 h3 h4

theorem closedAt_mono (env : Reflect) (m m1 : ramlTypeMap) (hle : MapLe m m1) (s : TypeId)
    (h : ClosedAt env m s) : ClosedAt env m1 s :=
  fun f hf hlow => handled_mono env m m1 hle _ (h f hf hlow)

theorem collects_refl (env : Reflect) (t0 : TypeId) (m : ramlTypeMap) (h : Stored env t0 m) :
    Collects env t0 m m :=
  ⟨h, mapLe_refl m, fun _ hs => Or.inl hs⟩

theorem collects_trans (env : Reflect) (t0 : TypeId) (m m1 m2 : ramlTypeMap)
    (h1 : Collects env t0 m m1) (h2 : Collects env t0 m1 m2) : Collects env t0 m m2 := by
  refine ⟨h2.1, mapLe_trans m m1 m2 h1.2.1 h2.2.1, ?_⟩
  intro s hs
  rcases h2.2.2 s hs with h | h
  · rcases h1.2.2 s h with h0 | h0
    · exact Or.inl h0
    · exact Or.inr (closedAt_mono env m1 m2 h2.2.1 s h0)
  · exact Or.inr h

/-- The field loop of `collectTypes` is a stretch of a collection run that
handles every field it does not skip. -/
theorem collectFields_collects (env : Reflect) (t0 : TypeId)
    (rec : ramlTypeMap → Option TypeId → Option ramlTypeMap)
    (hrec : ∀ m u r, Reach env t0 u → Stored env t0 m → rec m (some u) = some r →
      Collects env t0 m r ∧ Handled env r u) :
    ∀ (fs : List StructField) (m r : ramlTypeMap),
      (∀ f ∈ fs, isFirstLower env f.Name = false → Reach env t0 f.Typ) →
      Stored env t0 m → collectFields env rec m fs = some r →
      Collects env t0 m r ∧ ∀ f ∈ fs, isFirstLower env f.Name = false → Handled env r f.Typ := by
  intro fs
  induction fs with
  | nil =>
    intro m r _ hst h
    simp only [collectFields, Option.some.injEq] at h
    subst h
    exact ⟨collects_refl env t0 m hst, fun f hf => absurd hf (List.not_mem_nil f)⟩
  | cons f rest ih =>
    intro m r hreach hst h
    have hrest : ∀ g ∈ rest, isFirstLower env g.Name = false → Reach env t0 g.Typ :=
      fun g hg => hreach g (List.mem_cons_of_mem _ hg)
    cases hlow : isFirstLower env f.Name with
    | true =>
      rw [collectFields_cons_lower env _ _ _ _ hlow] at h
      obtain ⟨hc, hh⟩ := ih m r hrest hst h
      refine ⟨hc, ?_⟩
      intro g hg hgl
      rcases List.mem_cons.mp hg with heq | hmem
      · subst heq; rw [hlow] at hgl; cases hgl
      · exact hh g hmem hgl
    | false =>
      rw [collectFields_cons env _ _ _ _ hlow] at h
      cases hr : rec m (some f.Typ) with
      | none => rw [hr] at h; cases h
      | some m1 =>
        rw [hr] at h
        obtain ⟨hc1, hh1⟩ := hrec m f.Typ m1 (hreach f (List.mem_cons_self _ _) hlow) hst hr
        obtain ⟨hc2, hh2⟩ := ih m1 r hrest hc1.1 h
        refine ⟨collects_trans env t0 m m1 r hc1 hc2, ?_⟩
        intro g hg hgl
        rcases List.mem_cons.mp hg with heq | hmem
        · subst heq; exact handled_mono env m1 r hc2.2.1 _ hh1
        · exact hh2 g hmem hgl

/-- A call of `collectTypes` on a type reachable from `t0` is a stretch of a
collection run that handles the type, when names do not clash. -/
theorem collectTypes_collects (env : Reflect) (t0 : TypeId) (hclash : NoNameClash env t0) :
    ∀ (fuel : Nat) (m : ramlTypeMap) (t : TypeId) (r : ramlTypeMap),
      Reach env t0 t → Stored env t0 m → collectTypes env fuel m (some t) = some r →
      Collects env t0 m r ∧ Handled env r t := by
  intro fuel
  induction fuel with
  | zero => intro m t r _ _ h; simp [collectTypes] at h
  | succ n ih =>
    intro m t r hreach hst h
    by_cases ht : t = env.timeType
    · subst ht
      rw [collectTypes_time] at h
      simp only [Option.some.injEq] at h; subst h
      exact ⟨collects_refl env t0 m hst, Handled.time⟩
    cases hs : mapGet m (env.Name t) with
    | some w =>
      rw [collectTypes_seen env _ m t w hs] at h
      simp only [Option.some.injEq] at h; subst h
      obtain ⟨hname, hkind, htime, hw⟩ := hst _ _ hs
      have heq : t = w := hclash t w hreach hw hkind htime hname.symm
      subst heq
      exact ⟨collects_refl env t0 m hst, Handled.stored t hkind hs⟩
    | none =>
      by_cases h1 : env.Kind t = Kind.Struct
      · rw [collectTypes_struct env _ m t ht hs h1] at h
        have hget : mapGet (mapSet m (env.Name t) t) (env.Name t) = some t := by
          rw [mapGet_mapSet]; simp
        have hst1 : Stored env t0 (mapSet m (env.Name t) t) := by
          intro k v hkv
          rw [mapGet_mapSet] at hkv
          split at hkv
          · rename_i heq
            simp only [Option.some.injEq] at hkv
            subst hkv
            exact ⟨heq, h1, ht, hreach⟩
          · exact hst k v hkv
        have hle1 : MapLe m (mapSet m (env.Name t) t) := by
          intro k v hkv
          rw [mapGet_mapSet]
          split
          · rename_i heq; rw [← heq, hs] at hkv; cases hkv
          · exact hkv
        obtain ⟨hc, hh⟩ := collectFields_collects env t0 _
          (fun m1 u r1 hu hm1 hcall => ih m1 u r1 hu hm1 hcall) (env.Fields t) _ r
          (fun f hf hlow => Relation.ReflTransGen.tail hreach ⟨ht, Or.inl ⟨h1, f, hf, hlow, rfl⟩⟩)
          hst1 h
        have hclosed : ClosedAt env r t := hh
        refine ⟨⟨hc.1, mapLe_trans _ _ _ hle1 hc.2.1, ?_⟩, Handled.stored t h1 (hc.2.1 _ _ hget)⟩
        intro s hsr
        rcases hc.2.2 s hsr with h0 | h0
        · rw [mapGet_mapSet] at h0
          split at h0
          · simp only [Option.some.injEq] at h0
            subst h0
            exact Or.inr hclosed
          · exact Or.inl h0
        · exact Or.inr h0
      by_cases hps : env.Kind t = Kind.Ptr ∨ env.Kind t = Kind.Slice
      · rw [collectTypes_elem env _ m t ht hs hps] at h
        obtain ⟨hc, hh⟩ := ih m (env.Elem t) r
          (Relation.ReflTransGen.tail hreach ⟨ht, Or.inr (Or.inl ⟨hps, rfl⟩)⟩) hst h
        exact ⟨hc, Handled.elem t hps hh⟩
      by_cases h4 : env.Kind t = Kind.Map
      · rw [collectTypes_map env _ m t ht hs h4] at h
        cases hr : collectTypes env n m (some (env.Key t)) with
        | none => rw [hr] at h; cases h
        | some m1 =>
          rw [hr] at h
          simp only [Option.bind] at h
          obtain ⟨hc1, hh1⟩ := ih m (env.Key t) m1
            (Relation.ReflTransGen.tail hreach ⟨ht, Or.inr (Or.inr ⟨h4, Or.inl rfl⟩)⟩) hst hr
          obtain ⟨hc2, hh2⟩ := ih m1 (env.Elem t) r
            (Relation.ReflTransGen.tail hreach ⟨ht, Or.inr (Or.inr ⟨h4, Or.inr rfl⟩)⟩) hc1.1 h
          exact ⟨collects_trans env t0 m m1 r hc1 hc2,
            Handled.map t h4 (handled_mono env m1 r hc2.2.1 _ hh1) hh2⟩
      have h2 : env.Kind t ≠ Kind.Ptr := fun hk => hps (Or.inl hk)
      have h3 : env.Kind t ≠ Kind.Slice := fun hk => hps (Or.inr hk)
      rw [collectTypes_other env _ m t h1 h2 h3 h4] at h
      simp only [Option.some.injEq] at h; subst h
      exact ⟨collects_refl env t0 m hst, Handled.other t h1 h2 h3 h4⟩

/-- In a map whose stored structs all have their fields handled, handling is
inherited along the descent of `collectTypes`. -/
theorem handled_descend (env : Reflect) (m : ramlTypeMap)
    (hclosed : ∀ s, mapGet m (env.Name s) = some s → ClosedAt env m s) (b c : TypeId)
    (hb : Handled env m b) (hd : Descends env b c) : Handled env m c := by
  obtain ⟨hbt, hd⟩ := hd
  cases hb with
  | time => exact absurd rfl hbt
  | stored _ hk hs =>
    rcases hd with ⟨_, f, hf, hlow, rfl⟩ | ⟨hk1, _⟩ | ⟨hk1, _⟩
    · exact hclosed b hs f hf hlow
    · rcases hk1 with hk1 | hk1 <;> rw [hk] at hk1 <;> cases hk1
    · rw [hk] at hk1; cases hk1
  | elem _ hk he =>
    rcases hd with ⟨hk1, _⟩ | ⟨_, rfl⟩ | ⟨hk1, _⟩
    · rcases hk with hk | hk <;> rw [hk] at hk1 <;> cases hk1
    · exact he
    · rcases hk with hk | hk <;> rw [hk] at hk1 <;> cases hk1
  | map _ hk h1 h2 =>
    rcases hd with ⟨hk1, _⟩ | ⟨hk1, _⟩ | ⟨_, rfl | rfl⟩
    · rw [hk] at hk1; cases hk1
    · rcases hk1 with hk1 | hk1 <;> rw [hk] at hk1 <;> cases hk1
    · exact h1
    · exact h2
  | other _ h1 h2 h3 h4 =>
    rcases hd with ⟨hk1, _⟩ | ⟨hk1, _⟩ | ⟨hk1, _⟩
    · exact absurd hk1 h1
    · rcases hk1 with hk1 | hk1
      · exact absurd hk1 h2
      · exact absurd hk1 h3
    · exact absurd hk1 h4

theorem descends_mem (env : Reflect) (u v : TypeId) (h : Descends env u v) :
    v ∈ descendants env u := by
  obtain ⟨ht, h⟩ := h
  unfold descendants
  simp only [ht, if_false]
  rcases h with ⟨hk, f, hf, hlow, rfl⟩ | ⟨hk | hk, rfl⟩ | ⟨hk, rfl | rfl⟩
  · simp only [hk, List.mem_map, List.mem_filter]
    exact ⟨f, ⟨hf, by simp [hlow]⟩, rfl⟩
  · simp [hk]
  · simp [hk]
  · simp [hk]
  · simp [hk]

theorem mem_descends (env : Reflect) (u v : TypeId) (h : v ∈ descendants env u) :
    Descends env u v := by
  unfold descendants at h
  by_cases ht : u = env.timeType
  · simp [ht] at h
  · simp only [ht, if_false] at h
    refine ⟨ht, ?_⟩
    split at h
    · rename_i hk
      simp only [List.mem_map, List.mem_filter] at h
      obtain ⟨f, ⟨hf, hlow⟩, rfl⟩ := h
      exact Or.inl ⟨hk, f, hf, by simpa using hlow, rfl⟩
    · rename_i hk
      simp only [List.mem_singleton] at h
      exact Or.inr (Or.inl ⟨Or.inl hk, h⟩)
    · rename_i hk
      simp only [List.mem_singleton] at h
      exact Or.inr (Or.inl ⟨Or.inr hk, h⟩)
    · rename_i hk
      simp only [List.mem_cons, List.mem_singleton, List.not_mem_nil, or_false] at h
      exact Or.inr (Or.inr ⟨hk, h⟩)
    · simp at h

/-- A list of types that holds `t0` and the descendants of its members holds
every type reachable from `t0`. -/
theorem reach_mem_closed (env : Reflect) (t0 : TypeId) (S : List TypeId) (h0 : t0 ∈ S)
    (hcl : ∀ u ∈ S, ∀ v ∈ descendants env u, v ∈ S) (s : TypeId) (h : Reach env t0 s) :
    s ∈ S := by
  induction h with
  | refl => exact h0
  | tail _ hd ih => exact hcl _ ih _ (descends_mem env _ _ hd)

theorem noNameClash_of_closed (env : Reflect) (t0 : TypeId) (S : List TypeId) (h0 : t0 ∈ S)
    (hcl : ∀ u ∈ S, ∀ v ∈ descendants env u, v ∈ S)
    (huniq : ∀ u ∈ S, ∀ s ∈ S, env.Kind s = Kind.Struct → s ≠ env.timeType →
      env.Name u = env.Name s → u = s) : NoNameClash env t0 :=
  fun u s hu hs hk ht hn =>
    huniq u (reach_mem_closed env t0 S h0 hcl u hu) s (reach_mem_closed env t0 S h0 hcl s hs)
      hk ht hn

theorem nodeEnv_noNameClash : NoNameClash nodeEnv 6 :=
  noNameClash_of_closed nodeEnv 6 [5, 6, 7, 8, 9, 10] (by decide) (by decide) (by decide)

/-- An unnamed struct type is stored under the empty name, and every later
type without a name, such as a pointer, is then taken for already collected:
from `Reply{Meta struct{Code int}; Info *Detail}` the struct `Detail` is
reachable and gets no entry. -/
theorem collectTypes_unnamed_struct_hides_pointer :
    Reach exampleEnv 24 8 ∧
      collectTypes exampleEnv 4 [] (some 24) = some [("Reply", 24), ("", 23)] ∧
      mapGet [("Reply", 24), ("", 23)] (exampleEnv.Name 8) = none :=
  ⟨Relation.ReflTransGen.tail
      (Relation.ReflTransGen.single (mem_descends exampleEnv 24 25 (by decide)))
      (mem_descends exampleEnv 25 8 (by decide)),
    by decide, by decide⟩

/-- `strings.Split` yields the name part of a json tag followed by its options. -/
theorem stringsSplit_cons (json : String) :
    stringsSplit json ',' = jsonName json :: jsonOptions json := by
  unfold jsonName jsonOptions stringsSplit
  cases h : splitChars ',' json.data with
  | nil =>
    exfalso
    cases hd : json.data with
    | nil => rw [hd] at h; simp [splitChars] at h
    | cons c cs =>
      rw [hd] at h
      unfold splitChars at h
      split at h
      · cases h
      · split at h <;> cases h
  | cons p ps => rfl

/-- `parseTag` on a field whose json tag has the name part `-`. -/
theorem parseTag_excluded (ext : Externals) (f : StructField)
    (hj : ext.TagGet f.Tag "json" ≠ "") (hd : jsonName (ext.TagGet f.Tag "json") = "-") :
    parseTag ext f = ("", true) := by
  unfold parseTag
  exact if_pos ⟨hj, hd⟩

/-- `parseTag` on every other field. -/
theorem parseTag_kept (ext : Externals) (f : StructField)
    (h : ¬ (ext.TagGet f.Tag "json" ≠ "" ∧ jsonName (ext.TagGet f.Tag "json") = "-")) :
    parseTag ext f =
      if ext.TagGet f.Tag "schema" ≠ "" then
        (if (if ext.TagGet f.Tag "json" ≠ "" then jsonName (ext.TagGet f.Tag "json")
              else f.Name) = "-" then ""
          else ext.TagGet f.Tag "schema",
          if ext.TagGet f.Tag "json" ≠ "" then
            decide ((stringsSplit (ext.TagGet f.Tag "json") ',').length < 2 ∨
              (stringsSplit (ext.TagGet f.Tag "json") ',').getD 1 "" ≠ "omitempty")
          else true)
      else
        (if ext.TagGet f.Tag "json" ≠ "" then jsonName (ext.TagGet f.Tag "json") else f.Name,
          if ext.TagGet f.Tag "json" ≠ "" then
            decide ((stringsSplit (ext.TagGet f.Tag "json") ',').length < 2 ∨
              (stringsSplit (ext.TagGet f.Tag "json") ',').getD 1 "" ≠ "omitempty")
          else true) := by
  unfold parseTag
  exact if_neg h

/-- The `required` flag of `parseTag` on a field that is not excluded. -/
theorem parseTag_kept_required (ext : Externals) (f : StructField)
    (h : ¬ (ext.TagGet f.Tag "json" ≠ "" ∧ jsonName (ext.TagGet f.Tag "json") = "-")) :
    (parseTag ext f).2 =
      if ext.TagGet f.Tag "json" ≠ "" then
        decide ((stringsSplit (ext.TagGet f.Tag "json") ',').length < 2 ∨
          (stringsSplit (ext.TagGet f.Tag "json") ',').getD 1 "" ≠ "omitempty")
      else true := by
  rw [parseTag_kept ext f h]
  split <;> rfl

/-- A sequence of two steps returns exactly when both steps return. -/
theorem bind_eq_done {α β : Type} (x : Outcome α) (f : α → Outcome β) (b : β) :
    x.bind f = Outcome.done b ↔ ∃ a, x = Outcome.done a ∧ f a = Outcome.done b := by
  cases x with
  | done a =>
    constructor
    · intro h; exact ⟨a, rfl, h⟩
    · rintro ⟨a1, h1, h2⟩; cases h1; exact h2
  | panic msg =>
    constructor
    · intro h; cases h
    · rintro ⟨a1, h1, _⟩; cases h1
  | outOfFuel =>
    constructor
    · intro h; cases h
    · rintro ⟨a1, h1, _⟩; cases h1

/-- A sequence whose first step does not return does not return. -/
theorem bind_not_done_left {α β : Type} (x : Outcome α) (f : α → Outcome β)
    (h : ∀ a, x ≠ Outcome.done a) (b : β) : x.bind f ≠ Outcome.done b := by
  intro hb
  obtain ⟨a, ha, _⟩ := (bind_eq_done x f b).1 hb
  exact h a ha

/-- A sequence whose second step never returns does not return. -/
theorem bind_not_done_right {α β : Type} (x : Outcome α) (f : α → Outcome β)
    (h : ∀ a b, f a ≠ Outcome.done b) (b : β) : x.bind f ≠ Outcome.done b := by
  intro hb
  obtain ⟨a, _, ha⟩ := (bind_eq_done x f b).1 hb
  exact h a b ha

/-- A response whose payload schema is not returned has no entry. -/
theorem responseToRAML_not_done (ext : Externals) (env : Reflect) (fuel : Nat)
    (response : ResponseSchema)
    (h : ∀ a, ramlSchemaForType ext env fuel response.Typ ≠ Outcome.done a) (a : rmap) :
    responseToRAML ext env fuel response ≠ Outcome.done a := by
  unfold responseToRAML
  exact bind_not_done_left _ _ h a

/-- The responses loop does not return when one response has no entry. -/
theorem responsesToRAML_not_done (ext : Externals) (env : Reflect) (fuel : Nat)
    (response : ResponseSchema)
    (h : ∀ a, responseToRAML ext env fuel response ≠ Outcome.done a) :
    ∀ (l : List ResponseSchema) (m : rmap), response ∈ l →
      ∀ a, responsesToRAML ext env fuel m l ≠ Outcome.done a := by
  intro l
  induction l with
  | nil => intro m hm; cases hm
  | cons x xs ih =>
    intro m hm a
    unfold responsesToRAML
    rcases List.mem_cons.1 hm with hx | hx
    · subst hx
      exact bind_not_done_left _ _ h a
    · exact bind_not_done_right _ _ (fun rrm b => ih _ hx b) a

/-- No method entry is returned for a route one of whose responses has no
entry. -/
theorem methodToRAML_not_done_response (ext : Externals) (env : Reflect) (fuel : Nat)
    (url : String) (r : RouteSchema)
    (h : ∀ a, responsesToRAML ext env fuel [] r.Responses ≠ Outcome.done a) (a : rmap) :
    methodToRAML ext env fuel url r ≠ Outcome.done a := by
  unfold methodToRAML
  exact bind_not_done_right _ _ (fun method0 b => bind_not_done_left _ _ h b) a

/-- No method entry is returned for a route whose request body schema is not
returned. -/
theorem methodToRAML_not_done_request (ext : Externals) (env : Reflect) (fuel : Nat)
    (url : String) (r : RouteSchema) (t : TypeId) (ht : r.RequestType = some t)
    (h : ∀ a, ramlSchemaForType ext env fuel (some t) ≠ Outcome.done a) (a : rmap) :
    methodToRAML ext env fuel url r ≠ Outcome.done a := by
  unfold methodToRAML
  refine bind_not_done_right _ _ (fun method0 b => ?_) a
  refine bind_not_done_right _ _ (fun responseMap b => ?_) b
  refine bind_not_done_right _ _ (fun description b => ?_) b
  refine bind_not_done_left _ _ ?_ b
  rw [ht]
  intro body
  exact bind_not_done_left _ _ h body

/-- The route loop does not return when one route has no method entry. -/
theorem routesToRAML_not_done (ext : Externals) (env : Reflect) (fuel : Nat) (url : String)
    (resource : ResourceSchema) (r : RouteSchema)
    (h : ∀ a, methodToRAML ext env fuel url r ≠ Outcome.done a) :
    ∀ (l : List RouteSchema) (out : rmap), r ∈ l →
      ∀ a, routesToRAML ext env fuel url resource out l ≠ Outcome.done a := by
  intro l
  induction l with
  | nil => intro out hm; cases hm
  | cons x xs ih =>
    intro out hm a
    unfold routesToRAML
    split
    · rcases List.mem_cons.1 hm with hx | hx
      · subst hx
        exact bind_not_done_right _ _ (fun route b => bind_not_done_left _ _ h b) a
      · exact bind_not_done_right _ _
          (fun route b => bind_not_done_right _ _ (fun method c => ih _ hx c) b) a
    · intro hp; cases hp

/-- The resource loop does not return when a resource that is not hidden has
no section. -/
theorem resourcesToRAML_not_done (ext : Externals) (env : Reflect) (fuel : Nat) (url : String)
    (resource : ResourceSchema) (hv : ext.Hidden resource = false)
    (h : ∀ a, resourceToRAML ext env fuel url resource ≠ Outcome.done a) :
    ∀ (l : List ResourceSchema) (y : rmap), resource ∈ l →
      ∀ a, resourcesToRAML ext env fuel url y l ≠ Outcome.done a := by
  intro l
  induction l with
  | nil => intro y hm; cases hm
  | cons x xs ih =>
    intro y hm a
    unfold resourcesToRAML
    rcases List.mem_cons.1 hm with hx | hx
    · subst hx
      rw [hv]
      simp only [Bool.false_eq_true, if_false]
      exact bind_not_done_left _ _ h a
    · split
      · exact ih _ hx a
      · exact bind_not_done_right _ _ (fun rraml b => ih _ hx b) a

/-- What `SchemaToRAML` returns when the document is not built: nothing is
written, and the error is that of the `schemas` loop. -/
theorem SchemaToRAML_without_document (ext : Externals) (env : Reflect) (fuel : Nat)
    (url : String) (s : Schema)
    (h : ∀ y, schemaDocument ext env fuel url s ≠ Outcome.done (Except.ok y))
    (w : List String) (e : Option String)
    (hr : SchemaToRAML ext env fuel url s = Outcome.done (w, e)) :
    w = [] ∧ ∃ typeMap err, e = some err ∧ schemaTypeMap env fuel s = some typeMap ∧
      schemaList ext.ReflectSchema (ext.RangeOrder typeMap) = Except.error err := by
  unfold SchemaToRAML at hr
  obtain ⟨doc, hdoc, hres⟩ := (bind_eq_done _ _ _).1 hr
  cases doc with
  | ok y => exact absurd hdoc (h y)
  | error err =>
    simp only [Outcome.done.injEq, Prod.mk.injEq] at hres
    refine ⟨hres.1.symm, ?_⟩
    unfold schemaDocument at hdoc
    cases htm : schemaTypeMap env fuel s with
    | none => rw [htm] at hdoc; cases hdoc
    | some typeMap =>
      rw [htm] at hdoc
      simp only at hdoc
      cases hsl : schemaList ext.ReflectSchema (ext.RangeOrder typeMap) with
      | error err1 =>
        rw [hsl] at hdoc
        simp only [Outcome.done.injEq, Except.error.injEq] at hdoc
        exact ⟨typeMap, err, hres.2.symm, rfl, by rw [← hdoc]; exact hsl⟩
      | ok schemas =>
        rw [hsl] at hdoc
        simp only at hdoc
        obtain ⟨y2, _, h2⟩ := (bind_eq_done _ _ _).1 hdoc
        cases h2

/-- The document is not built when a resource that is not hidden has no
section. -/
theorem schemaDocument_not_ok (ext : Externals) (env : Reflect) (fuel : Nat) (url : String)
    (s : Schema) (resource : ResourceSchema) (hm : resource ∈ s.Resources)
    (hv : ext.Hidden resource = false)
    (h : ∀ a, resourceToRAML ext env fuel url resource ≠ Outcome.done a) (y : rmap) :
    schemaDocument ext env fuel url s ≠ Outcome.done (Except.ok y) := by
  intro hdoc
  unfold schemaDocument at hdoc
  cases htm : schemaTypeMap env fuel s with
  | none => rw [htm] at hdoc; cases hdoc
  | some typeMap =>
    rw [htm] at hdoc
    simp only at hdoc
    cases hsl : schemaList ext.ReflectSchema (ext.RangeOrder typeMap) with
    | error err1 =>
      rw [hsl] at hdoc
      cases hdoc
    | ok schemas =>
      rw [hsl] at hdoc
      simp only at hdoc
      obtain ⟨y2, hy2, _⟩ := (bind_eq_done _ _ _).1 hdoc
      exact resourcesToRAML_not_done ext env fuel url resource hv h _ _ hm y2 hy2

/-- The route loop on no route. -/
theorem routesToRAML_nil (ext : Externals) (env : Reflect) (fuel : Nat) (url : String)
    (resource : ResourceSchema) (out : rmap) :
    routesToRAML ext env fuel url resource out [] = Outcome.done out := by
  rw [routesToRAML]

/-- One turn of the route loop. -/
theorem routesToRAML_cons (ext : Externals) (env : Reflect) (fuel : Nat) (url : String)
    (resource : ResourceSchema) (out : rmap) (r : RouteSchema) (rest : List RouteSchema) :
    routesToRAML ext env fuel url resource out (r :: rest) =
      if hasPrefix r.Path resource.Path then
        (routeNode out (ext.simplifiedPath (dropPrefix r.Path resource.Path))).bind (fun route =>
          (methodToRAML ext env fuel url r).bind (fun method =>
            routesToRAML ext env fuel url resource
              (storeRoute out (ext.simplifiedPath (dropPrefix r.Path resource.Path)) route
                (ext.ToLower r.Method) method) rest))
      else
        Outcome.panic
          ("resource " ++ resource.Path ++ " has route " ++ r.Path ++ " outside prefix") := by
  rw [routesToRAML]

/-- The route loop over a list in two pieces. -/
theorem routesToRAML_append (ext : Externals) (env : Reflect) (fuel : Nat) (url : String)
    (resource : ResourceSchema) (rest : List RouteSchema) :
    ∀ (pre : List RouteSchema) (out : rmap),
      routesToRAML ext env fuel url resource out (pre ++ rest) =
        (routesToRAML ext env fuel url resource out pre).bind
          (fun o => routesToRAML ext env fuel url resource o rest) := by
  intro pre
  induction pre with
  | nil => intro out; rw [routesToRAML_nil]; rfl
  | cons x xs ih =>
    intro out
    rw [List.cons_append, routesToRAML_cons, routesToRAML_cons]
    by_cases hp : hasPrefix x.Path resource.Path = true
    · rw [if_pos hp, if_pos hp]
      cases routeNode out (ext.simplifiedPath (dropPrefix x.Path resource.Path)) with
      | done route =>
        simp only [Outcome.bind]
        cases methodToRAML ext env fuel url x with
        | done method => simp only [Outcome.bind]; exact ih _
        | panic msg => rfl
        | outOfFuel => rfl
      | panic msg => rfl
      | outOfFuel => rfl
    · rw [if_neg hp, if_neg hp]
      rfl

/-- The route loop does not return when one route is outside the prefix. -/
theorem routesToRAML_outside_not_done (ext : Externals) (env : Reflect) (fuel : Nat)
    (url : String) (resource : ResourceSchema) (r : RouteSchema)
    (h : hasPrefix r.Path resource.Path = false) :
    ∀ (l : List RouteSchema) (out : rmap), r ∈ l →
      ∀ a, routesToRAML ext env fuel url resource out l ≠ Outcome.done a := by
  intro l
  induction l with
  | nil => intro out hm; cases hm
  | cons x xs ih =>
    intro out hm a
    rw [routesToRAML_cons]
    split
    · rename_i hp
      rcases List.mem_cons.1 hm with hx | hx
      · subst hx
        rw [h] at hp
        cases hp
      · exact bind_not_done_right _ _
          (fun route b => bind_not_done_right _ _ (fun method c => ih _ hx c) b) a
    · intro hp; cases hp

/-- Where a panic of the route loop comes from when every route carries the
prefix: the lookup of the route's node or the rendering of the route. -/
theorem routesToRAML_panic_origin (ext : Externals) (env : Reflect) (fuel : Nat)
    (url : String) (resource : ResourceSchema) (msg : String) :
    ∀ (l : List RouteSchema) (out : rmap),
      (∀ r ∈ l, hasPrefix r.Path resource.Path = true) →
      routesToRAML ext env fuel url resource out l = Outcome.panic msg →
      ∃ r ∈ l, (∃ o, routeNode o (ext.simplifiedPath (dropPrefix r.Path resource.Path)) =
          Outcome.panic msg) ∨ methodToRAML ext env fuel url r = Outcome.panic msg := by
  intro l
  induction l with
  | nil => intro out _ h; rw [routesToRAML_nil] at h; cases h
  | cons x xs ih =>
    intro out hall h
    rw [routesToRAML_cons, if_pos (hall x (List.mem_cons_self _ _))] at h
    cases hrn : routeNode out (ext.simplifiedPath (dropPrefix x.Path resource.Path)) with
    | done route =>
      rw [hrn] at h
      simp only [Outcome.bind] at h
      cases hme : methodToRAML ext env fuel url x with
      | done method =>
        rw [hme] at h
        simp only [Outcome.bind] at h
        obtain ⟨r, hr, hor⟩ := ih _ (fun r hr => hall r (List.mem_cons_of_mem _ hr)) h
        exact ⟨r, List.mem_cons_of_mem _ hr, hor⟩
      | panic m =>
        rw [hme] at h
        simp only [Outcome.bind, Outcome.panic.injEq] at h
        exact ⟨x, List.mem_cons_self _ _, Or.inr (by rw [← h]; exact hme)⟩
      | outOfFuel => rw [hme] at h; cases h
    | panic m =>
      rw [hrn] at h
      simp only [Outcome.bind, Outcome.panic.injEq] at h
      exact ⟨x, List.mem_cons_self _ _, Or.inl ⟨out, by rw [← h]; exact hrn⟩⟩
    | outOfFuel => rw [hrn] at h; cases h

/-- A key that is the same key as a string is that string. -/
theorem sameKey_str (k : RVal) (a : String) (h : RVal.sameKey k (RVal.str a) = true) :
    k = RVal.str a := by
  cases k with
  | str b =>
    simp only [RVal.sameKey, beq_iff_eq] at h
    rw [h]
  | int _ => simp [RVal.sameKey] at h
  | bool _ => simp [RVal.sameKey] at h
  | map _ => simp [RVal.sameKey] at h
  | seq _ => simp [RVal.sameKey] at h

/-- Reading a string key after writing it. -/
theorem rmapGet_rmapSet_same (a : String) (v : RVal) :
    ∀ m : rmap, rmapGet (rmapSet m (RVal.str a) v) (RVal.str a) = some v := by
  intro m
  induction m with
  | nil => simp [rmapSet, rmapGet, RVal.sameKey]
  | cons p m ih =>
    obtain ⟨k1, v1⟩ := p
    by_cases hk : RVal.sameKey k1 (RVal.str a) = true
    · rw [rmapSet, if_pos hk, rmapGet]
      simp [RVal.sameKey]
    · rw [rmapSet, if_neg hk, rmapGet, if_neg hk]
      exact ih

/-- Reading a string key after writing another one. -/
theorem rmapGet_rmapSet_other (a b : String) (v : RVal) (hab : a ≠ b) :
    ∀ m : rmap, rmapGet (rmapSet m (RVal.str a) v) (RVal.str b) = rmapGet m (RVal.str b) := by
  intro m
  induction m with
  | nil => simp [rmapSet, rmapGet, RVal.sameKey, hab]
  | cons p m ih =>
    obtain ⟨k1, v1⟩ := p
    by_cases hk : RVal.sameKey k1 (RVal.str a) = true
    · have hk1 := sameKey_str k1 a hk
      subst hk1
      rw [rmapSet, if_pos hk, rmapGet, rmapGet]
      simp [RVal.sameKey, hab]
    · rw [rmapSet, if_neg hk, rmapGet, rmapGet, ih]

/-- A path key begins with `/`. -/
theorem pathKey_slash (p : String) : hasPrefix (pathKey p) "/" = true := by
  unfold pathKey
  split
  · assumption
  · simp [hasPrefix]

/-- A key of a route is a path key. -/
theorem routeKey_slash (ext : Externals) (resource : ResourceSchema) (r : RouteSchema)
    (k : String) (h : routeKey ext resource r = some k) : hasPrefix k "/" = true := by
  unfold routeKey at h
  split at h
  · cases h
  · simp only [Option.some.injEq] at h
    rw [← h]
    exact pathKey_slash _

/-- The entry at the place a method entry has just been stored at. -/
theorem entryAt_storeRoute_same (out route method : rmap) (rpath mk : String)
    (_hn : routeNode out rpath = Outcome.done route) :
    entryAt (storeRoute out rpath route mk method)
      (if rpath = "" then none else some (pathKey rpath)) mk = some (RVal.map method) := by
  unfold storeRoute
  by_cases hr : rpath = ""
  · rw [if_pos hr, if_pos hr]
    exact rmapGet_rmapSet_same _ _ _
  · rw [if_neg hr, if_neg hr]
    unfold entryAt
    simp only [rmapGet_rmapSet_same]

/-- The entries at the other places are left as they were. -/
theorem entryAt_storeRoute_other (out route method : rmap) (rpath mk : String)
    (key : Option String) (mk1 : String)
    (hn : routeNode out rpath = Outcome.done route)
    (hmk : hasPrefix mk "/" = false) (hmk1 : hasPrefix mk1 "/" = false)
    (hkey : ∀ k, key = some k → hasPrefix k "/" = true)
    (hne : ¬ (key = (if rpath = "" then none else some (pathKey rpath)) ∧ mk1 = mk)) :
    entryAt (storeRoute out rpath route mk method) key mk1 = entryAt out key mk1 := by
  unfold storeRoute
  by_cases hr : rpath = ""
  · rw [if_pos hr] at hne ⊢
    cases key with
    | none =>
      have hd : mk ≠ mk1 := fun h => hne ⟨rfl, h.symm⟩
      exact rmapGet_rmapSet_other _ _ _ hd _
    | some k =>
      have hd : mk ≠ k := by
        intro h
        have := hkey k rfl
        rw [← h, hmk] at this
        cases this
      unfold entryAt
      simp only [rmapGet_rmapSet_other _ _ _ hd]
  · rw [if_neg hr] at hne ⊢
    cases key with
    | none =>
      have hd : pathKey rpath ≠ mk1 := by
        intro h
        have := pathKey_slash rpath
        rw [h, hmk1] at this
        cases this
      exact rmapGet_rmapSet_other _ _ _ hd _
    | some k =>
      by_cases hk : k = pathKey rpath
      · subst hk
        have hd : mk ≠ mk1 := fun h => hne ⟨rfl, h.symm⟩
        unfold entryAt
        simp only [rmapGet_rmapSet_same]
        rw [rmapGet_rmapSet_other _ _ _ hd]
        unfold routeNode at hn
        rw [if_neg hr] at hn
        cases hg : rmapGet out (RVal.str (pathKey rpath)) with
        | none =>
          rw [hg] at hn
          simp only [Outcome.done.injEq] at hn
          rw [← hn]
          rfl
        | some tr =>
          rw [hg] at hn
          cases tr with
          | map node =>
            simp only [Outcome.done.injEq] at hn
            rw [hn]
          | str _ => cases hn
          | int _ => cases hn
          | bool _ => cases hn
          | seq _ => cases hn
      · have hd : pathKey rpath ≠ k := fun h => hk h.symm
        unfold entryAt
        simp only [rmapGet_rmapSet_other _ _ _ hd]

/-- A turn of the route loop that returns: the route carries the prefix, its
node is found, its method entry is built and stored, and the rest of the loop
returns. -/
theorem routesToRAML_cons_done (ext : Externals) (env : Reflect) (fuel : Nat) (url : String)
    (resource : ResourceSchema) (out0 out : rmap) (x : RouteSchema) (xs : List RouteSchema)
    (h : routesToRAML ext env fuel url resource out0 (x :: xs) = Outcome.done out) :
    hasPrefix x.Path resource.Path = true ∧
    ∃ route method,
      routeNode out0 (ext.simplifiedPath (dropPrefix x.Path resource.Path)) =
        Outcome.done route ∧
      methodToRAML ext env fuel url x = Outcome.done method ∧
      routesToRAML ext env fuel url resource
        (storeRoute out0 (ext.simplifiedPath (dropPrefix x.Path resource.Path)) route
          (ext.ToLower x.Method) method) xs = Outcome.done out := by
  rw [routesToRAML_cons] at h
  by_cases hp : hasPrefix x.Path resource.Path = true
  · rw [if_pos hp] at h
    obtain ⟨route, hroute, h1⟩ := (bind_eq_done _ _ _).1 h
    obtain ⟨method, hmethod, h2⟩ := (bind_eq_done _ _ _).1 h1
    exact ⟨hp, route, method, hroute, hmethod, h2⟩
  · rw [if_neg hp] at h
    cases h

/-- The route loop leaves the entry of a place alone when no route of the
loop is filed at that place. -/
theorem routesToRAML_entry_kept (ext : Externals) (env : Reflect) (fuel : Nat) (url : String)
    (resource : ResourceSchema) (key : Option String) (mk1 : String)
    (hmk1 : hasPrefix mk1 "/" = false)
    (hkey : ∀ k, key = some k → hasPrefix k "/" = true) :
    ∀ (l : List RouteSchema) (out0 out : rmap),
      routesToRAML ext env fuel url resource out0 l = Outcome.done out →
      (∀ r ∈ l, hasPrefix (ext.ToLower r.Method) "/" = false) →
      (∀ r ∈ l, ¬ (routeKey ext resource r = key ∧ ext.ToLower r.Method = mk1)) →
      entryAt out key mk1 = entryAt out0 key mk1 := by
  intro l
  induction l with
  | nil =>
    intro out0 out h _ _
    rw [routesToRAML_nil] at h
    cases h
    rfl
  | cons x xs ih =>
    intro out0 out h hm hno
    obtain ⟨_, route, method, hroute, _, hrest⟩ :=
      routesToRAML_cons_done ext env fuel url resource out0 out x xs h
    rw [ih _ _ hrest (fun r hr => hm r (List.mem_cons_of_mem _ hr))
      (fun r hr => hno r (List.mem_cons_of_mem _ hr))]
    refine entryAt_storeRoute_other out0 route method _ _ key mk1 hroute
      (hm x (List.mem_cons_self _ _)) hmk1 hkey ?_
    intro hx
    refine hno x (List.mem_cons_self _ _) ⟨?_, hx.2.symm⟩
    unfold routeKey
    exact hx.1.symm

/-- After the route loop, the place of each route holds the method entry of a
route of the loop that is filed at this place. -/
theorem routesToRAML_entry_placed (ext : Externals) (env : Reflect) (fuel : Nat) (url : String)
    (resource : ResourceSchema) :
    ∀ (l : List RouteSchema) (out0 out : rmap),
      routesToRAML ext env fuel url resource out0 l = Outcome.done out →
      (∀ r ∈ l, hasPrefix (ext.ToLower r.Method) "/" = false) →
      ∀ r ∈ l, ∃ r1 ∈ l, routeKey ext resource r1 = routeKey ext resource r ∧
        ext.ToLower r1.Method = ext.ToLower r.Method ∧
        ∃ m, methodToRAML ext env fuel url r1 = Outcome.done m ∧
          entryAt out (routeKey ext resource r) (ext.ToLower r.Method) = some (RVal.map m) := by
  intro l
  induction l with
  | nil => intro out0 out _ _ r hr; cases hr
  | cons x xs ih =>
    intro out0 out h hm r hr
    obtain ⟨_, route, method, hroute, hmethod, hrest⟩ :=
      routesToRAML_cons_done ext env fuel url resource out0 out x xs h
    have hmxs : ∀ r ∈ xs, hasPrefix (ext.ToLower r.Method) "/" = false :=
      fun r hr => hm r (List.mem_cons_of_mem _ hr)
    by_cases hex : ∃ r2 ∈ xs, routeKey ext resource r2 = routeKey ext resource r ∧
        ext.ToLower r2.Method = ext.ToLower r.Method
    · obtain ⟨r2, hr2, hk2, hm2⟩ := hex
      obtain ⟨r1, hr1, hk1, hm1, m, hmeth, hentry⟩ := ih _ _ hrest hmxs r2 hr2
      rw [hk2, hm2] at hentry
      exact ⟨r1, List.mem_cons_of_mem _ hr1, hk1.trans hk2, hm1.trans hm2, m, hmeth, hentry⟩
    · have hrx : r = x := by
        rcases List.mem_cons.1 hr with hrx | hrx
        · exact hrx
        · exact absurd ⟨r, hrx, rfl, rfl⟩ hex
      subst hrx
      refine ⟨r, List.mem_cons_self _ _, rfl, rfl, method, hmethod, ?_⟩
      rw [routesToRAML_entry_kept ext env fuel url resource _ _ (hm r hr)
        (fun k hk => routeKey_slash ext resource r k hk) xs _ _ hrest hmxs
        (fun r2 hr2 h2 => hex ⟨r2, hr2, h2.1, h2.2⟩)]
      exact entryAt_storeRoute_same out0 route method _ _ hroute

/-- A key that is the same key as an integer is that integer. -/
theorem sameKey_int (k : RVal) (n : Int) (h : RVal.sameKey k (RVal.int n) = true) :
    k = RVal.int n := by
  cases k with
  | int b =>
    simp only [RVal.sameKey, beq_iff_eq] at h
    rw [h]
  | str _ => simp [RVal.sameKey] at h
  | bool _ => simp [RVal.sameKey] at h
  | map _ => simp [RVal.sameKey] at h
  | seq _ => simp [RVal.sameKey] at h

/-- Reading an integer key after writing it. -/
theorem rmapGet_rmapSet_same_int (n : Int) (v : RVal) :
    ∀ m : rmap, rmapGet (rmapSet m (RVal.int n) v) (RVal.int n) = some v := by
  intro m
  induction m with
  | nil => simp [rmapSet, rmapGet, RVal.sameKey]
  | cons p m ih =>
    obtain ⟨k1, v1⟩ := p
    by_cases hk : RVal.sameKey k1 (RVal.int n) = true
    · rw [rmapSet, if_pos hk, rmapGet]
      simp [RVal.sameKey]
    · rw [rmapSet, if_neg hk, rmapGet, if_neg hk]
      exact ih

/-- Reading an integer key after writing another one. -/
theorem rmapGet_rmapSet_other_int (a b : Int) (v : RVal) (hab : a ≠ b) :
    ∀ m : rmap, rmapGet (rmapSet m (RVal.int a) v) (RVal.int b) = rmapGet m (RVal.int b) := by
  intro m
  induction m with
  | nil => simp [rmapSet, rmapGet, RVal.sameKey, hab]
  | cons p m ih =>
    obtain ⟨k1, v1⟩ := p
    by_cases hk : RVal.sameKey k1 (RVal.int a) = true
    · have hk1 := sameKey_int k1 a hk
      subst hk1
      rw [rmapSet, if_pos hk, rmapGet, rmapGet]
      simp [RVal.sameKey, hab]
    · rw [rmapSet, if_neg hk, rmapGet, rmapGet, ih]

/-- A turn of the responses loop that returns. -/
theorem responsesToRAML_cons_done (ext : Externals) (env : Reflect) (fuel : Nat)
    (m out : rmap) (x : ResponseSchema) (xs : List ResponseSchema)
    (h : responsesToRAML ext env fuel m (x :: xs) = Outcome.done out) :
    ∃ rrm, responseToRAML ext env fuel x = Outcome.done rrm ∧
      responsesToRAML ext env fuel (rmapSet m (RVal.int x.Status) (RVal.map rrm)) xs =
        Outcome.done out := by
  rw [responsesToRAML] at h
  exact (bind_eq_done _ _ _).1 h

/-- The responses loop leaves the entry of a status alone when no response of
the loop has this status. -/
theorem responsesToRAML_entry_kept (ext : Externals) (env : Reflect) (fuel : Nat)
    (st : Int) :
    ∀ (l : List ResponseSchema) (m out : rmap),
      responsesToRAML ext env fuel m l = Outcome.done out →
      (∀ r ∈ l, r.Status ≠ st) →
      rmapGet out (RVal.int st) = rmapGet m (RVal.int st) := by
  intro l
  induction l with
  | nil =>
    intro m out h _
    rw [responsesToRAML] at h
    cases h
    rfl
  | cons x xs ih =>
    intro m out h hno
    obtain ⟨rrm, _, hrest⟩ := responsesToRAML_cons_done ext env fuel m out x xs h
    rw [ih _ _ hrest (fun r hr => hno r (List.mem_cons_of_mem _ hr))]
    exact rmapGet_rmapSet_other_int _ _ _ (hno x (List.mem_cons_self _ _)) _

/-- After the responses loop, the status of each response holds the entry of
a response of the loop with this status. -/
theorem responsesToRAML_entry_placed (ext : Externals) (env : Reflect) (fuel : Nat) :
    ∀ (l : List ResponseSchema) (m out : rmap),
      responsesToRAML ext env fuel m l = Outcome.done out →
      ∀ r ∈ l, ∃ r1 ∈ l, r1.Status = r.Status ∧
        ∃ rrm, responseToRAML ext env fuel r1 = Outcome.done rrm ∧
          rmapGet out (RVal.int r.Status) = some (RVal.map rrm) := by
  intro l
  induction l with
  | nil => intro m out _ r hr; cases hr
  | cons x xs ih =>
    intro m out h r hr
    obtain ⟨rrm, hrrm, hrest⟩ := responsesToRAML_cons_done ext env fuel m out x xs h
    by_cases hex : ∃ r2 ∈ xs, r2.Status = r.Status
    · obtain ⟨r2, hr2, hs2⟩ := hex
      obtain ⟨r1, hr1, hs1, rrm1, hrrm1, hentry⟩ := ih _ _ hrest r2 hr2
      rw [hs2] at hentry
      exact ⟨r1, List.mem_cons_of_mem _ hr1, hs1.trans hs2, rrm1, hrrm1, hentry⟩
    · have hrx : r = x := by
        rcases List.mem_cons.1 hr with hrx | hrx
        · exact hrx
        · exact absurd ⟨r, hrx, rfl⟩ hex
      subst hrx
      refine ⟨r, List.mem_cons_self _ _, rfl, rrm, hrrm, ?_⟩
      rw [responsesToRAML_entry_kept ext env fuel r.Status xs _ _ hrest
        (fun r2 hr2 h2 => hex ⟨r2, hr2, h2⟩)]
      exact rmapGet_rmapSet_same_int _ _ _

/-- The entry built for one response whose payload schema is returned. -/
theorem responseToRAML_done (ext : Externals) (env : Reflect) (fuel : Nat)
    (response : ResponseSchema) (rresp : rmap)
    (h : ramlSchemaForType ext env fuel response.Typ = Outcome.done rresp) :
    ∃ rrm, responseToRAML ext env fuel response = Outcome.done rrm ∧
      rmapGet rrm (RVal.str "body") =
        some (RVal.map [(RVal.str
          (if response.ContentType = "" then "application/json" else response.ContentType),
          RVal.map rresp)]) ∧
      (response.Streaming = true →
        rmapGet rrm (RVal.str "headers") =
          some (RVal.map [(RVal.str "Content-Encoding",
            RVal.map [(RVal.str "type", RVal.str "string")])]) ∧
        rmapGet rrm (RVal.str "description") = some (RVal.str "Streaming response.")) ∧
      (response.Streaming = false →
        rmapGet rrm (RVal.str "headers") = none ∧
        (response.Description ≠ "" →
          rmapGet rrm (RVal.str "description") = some (RVal.str response.Description)) ∧
        (response.Description = "" → rmapGet rrm (RVal.str "description") = none)) := by
  unfold responseToRAML
  rw [h]
  simp only [Outcome.bind]
  refine ⟨_, rfl, ?_, ?_, ?_⟩
  · cases response.Streaming <;> by_cases hd : response.Description = "" <;>
      simp [hd, rmapSet, rmapGet, RVal.sameKey]
  · intro hs
    rw [hs]
    simp [rmapSet, rmapGet, RVal.sameKey]
  · intro hs
    rw [hs]
    refine ⟨?_, ?_, ?_⟩
    · by_cases hd : response.Description = "" <;> simp [hd, rmapSet, rmapGet, RVal.sameKey]
    · intro hd
      simp [hd, rmapSet, rmapGet, RVal.sameKey]
    · intro hd
      simp [hd, rmapSet, rmapGet, RVal.sameKey]

/-- The field loop leaves examples of the field types, when the recursive
call returns examples. -/
theorem fillFields_shaped (env : Reflect)
    (rec : cycleMap → TypeId → Outcome (Value × cycleMap))
    (hrec : ∀ cycles t v c, rec cycles t = Outcome.done (v, c) → Shaped env t v) :
    ∀ (fs : List StructField) (cycles : cycleMap) (vs : List Value) (c : cycleMap),
      fillFields env rec cycles fs = Outcome.done (vs, c) → ShapedFields env fs vs := by
  intro fs
  induction fs with
  | nil =>
    intro cycles vs c h
    simp only [fillFields, Outcome.done.injEq, Prod.mk.injEq] at h
    rw [← h.1]; exact ShapedFields.nil
  | cons ft rest ih =>
    intro cycles vs c h
    cases hlow : isFirstLower env ft.Name with
    | true =>
      rw [fillFields_cons_lower env _ _ _ _ hlow] at h
      cases hr : fillFields env rec cycles rest with
      | outOfFuel => rw [hr] at h; cases h
      | panic msg => rw [hr] at h; cases h
      | done p =>
        rw [hr] at h
        simp only [Outcome.bind, Outcome.done.injEq, Prod.mk.injEq] at h
        rw [← h.1]
        exact ShapedFields.lower ft rest p.1 hlow (ih cycles p.1 p.2 hr)
    | false =>
      rw [fillFields_cons_set env _ _ _ _ hlow] at h
      cases hr : rec cycles ft.Typ with
      | outOfFuel => rw [hr] at h; cases h
      | panic msg => rw [hr] at h; cases h
      | done p =>
        rw [hr] at h
        simp only [Outcome.bind] at h
        by_cases hp : ft.PkgPath = ""
        · simp only [hp, if_true] at h
          cases hr2 : fillFields env rec p.2 rest with
          | outOfFuel => rw [hr2] at h; cases h
          | panic msg => rw [hr2] at h; cases h
          | done q =>
            rw [hr2] at h
            simp only [Outcome.done.injEq, Prod.mk.injEq] at h
            rw [← h.1]
            exact ShapedFields.set ft p.1 rest q.1 hlow hp (hrec cycles ft.Typ p.1 p.2 hr)
              (ih p.2 q.1 q.2 hr2)
        · simp [hp] at h

/-- Every value returned by `makeRAMLExampleValue` is, through and through, an
example of its type. -/
theorem makeRAMLExampleValue_shaped (env : Reflect) :
    ∀ (fuel : Nat) (cycles : cycleMap) (t : TypeId) (v : Value) (c : cycleMap),
      makeRAMLExampleValue env fuel cycles t = Outcome.done (v, c) → Shaped env t v := by
  intro fuel
  induction fuel with
  | zero => intro cycles t v c h; simp [makeRAMLExampleValue] at h
  | succ n ih =>
    intro cycles t v c h
    by_cases h1 : env.Kind t = Kind.Ptr
    · rw [makeRAMLExampleValue_ptr env _ _ _ h1] at h
      cases hr : makeRAMLExampleValue env n cycles (env.Elem t) with
      | outOfFuel => rw [hr] at h; cases h
      | panic msg => rw [hr] at h; cases h
      | done p =>
        rw [hr] at h
        simp only [Outcome.bind, Value.Addr] at h
        by_cases hca : p.1.CanAddr = true
        · simp only [hca, if_true, Outcome.done.injEq, Prod.mk.injEq] at h
          rw [← h.1]
          exact Shaped.ptr t p.1 h1 (ih cycles (env.Elem t) p.1 p.2 hr)
        · simp [hca] at h
    by_cases h2 : env.Kind t = Kind.Struct
    · by_cases hin : t ∈ cycles
      · rw [makeRAMLExampleValue_struct_seen env _ _ _ h2 hin] at h
        simp only [Outcome.done.injEq, Prod.mk.injEq] at h
        rw [← h.1]
        exact Shaped.zero t h1 (by rw [h2]; decide) (by rw [h2]; decide)
      · rw [makeRAMLExampleValue_struct_new env _ _ _ h2 hin] at h
        cases hr : fillFields env (makeRAMLExampleValue env n) (t :: cycles) (env.Fields t) with
        | outOfFuel => rw [hr] at h; cases h
        | panic msg => rw [hr] at h; cases h
        | done p =>
          rw [hr] at h
          simp only [Outcome.bind, Outcome.done.injEq, Prod.mk.injEq] at h
          rw [← h.1]
          exact Shaped.struct t p.1 h2 (fillFields_shaped env _ ih _ _ _ _ hr)
    by_cases h3 : env.Kind t = Kind.Slice
    · rw [makeRAMLExampleValue_slice env _ _ _ h3] at h
      cases hr : makeRAMLExampleValue env n cycles (env.Elem t) with
      | outOfFuel => rw [hr] at h; cases h
      | panic msg => rw [hr] at h; cases h
      | done p =>
        rw [hr] at h
        simp only [Outcome.bind, Outcome.done.injEq, Prod.mk.injEq] at h
        rw [← h.1]
        exact Shaped.slice t p.1 h3 (ih _ _ _ _ hr)
    by_cases h4 : env.Kind t = Kind.Map
    · rw [makeRAMLExampleValue_map env _ _ _ h4] at h
      cases hr : makeRAMLExampleValue env n cycles (env.Key t) with
      | outOfFuel => rw [hr] at h; cases h
      | panic msg => rw [hr] at h; cases h
      | done p =>
        rw [hr] at h
        simp only [Outcome.bind] at h
        cases hr2 : makeRAMLExampleValue env n p.2 (env.Elem t) with
        | outOfFuel => rw [hr2] at h; cases h
        | panic msg => rw [hr2] at h; cases h
        | done q =>
          rw [hr2] at h
          simp only [Outcome.done.injEq, Prod.mk.injEq] at h
          rw [← h.1]
          exact Shaped.map t p.1 q.1 h4 (ih _ _ _ _ hr) (ih _ _ _ _ hr2)
    rw [makeRAMLExampleValue_other env _ _ _ h1 h2 h3 h4] at h
    simp only [Outcome.done.injEq, Prod.mk.injEq] at h
    rw [← h.1]
    exact Shaped.zero t h1 h3 h4

/-- The field loop leaves in each field the value synthesized for it. -/
theorem fillFields_synthesized (env : Reflect) (n : Nat) :
    ∀ (fs : List StructField) (cycles : cycleMap) (vs : List Value) (c : cycleMap),
      fillFields env (makeRAMLExampleValue env n) cycles fs = Outcome.done (vs, c) →
      FieldsSynthesized env cycles fs vs c := by
  intro fs
  induction fs with
  | nil =>
    intro cycles vs c h
    simp only [fillFields, Outcome.done.injEq, Prod.mk.injEq] at h
    rw [← h.1, ← h.2]; exact FieldsSynthesized.nil cycles
  | cons ft rest ih =>
    intro cycles vs c h
    cases hlow : isFirstLower env ft.Name with
    | true =>
      rw [fillFields_cons_lower env _ _ _ _ hlow] at h
      cases hr : fillFields env (makeRAMLExampleValue env n) cycles rest with
      | outOfFuel => rw [hr] at h; cases h
      | panic msg => rw [hr] at h; cases h
      | done p =>
        rw [hr] at h
        simp only [Outcome.bind, Outcome.done.injEq, Prod.mk.injEq] at h
        rw [← h.1, ← h.2]
        exact FieldsSynthesized.lower cycles p.2 ft rest p.1 hlow (ih cycles p.1 p.2 hr)
    | false =>
      rw [fillFields_cons_set env _ _ _ _ hlow] at h
      cases hr : makeRAMLExampleValue env n cycles ft.Typ with
      | outOfFuel => rw [hr] at h; cases h
      | panic msg => rw [hr] at h; cases h
      | done p =>
        rw [hr] at h
        simp only [Outcome.bind] at h
        by_cases hp : ft.PkgPath = ""
        · simp only [hp, if_true] at h
          cases hr2 : fillFields env (makeRAMLExampleValue env n) p.2 rest with
          | outOfFuel => rw [hr2] at h; cases h
          | panic msg => rw [hr2] at h; cases h
          | done q =>
            rw [hr2] at h
            simp only [Outcome.done.injEq, Prod.mk.injEq] at h
            rw [← h.1, ← h.2]
            exact FieldsSynthesized.set cycles p.2 q.2 ft p.1 rest q.1 hlow ⟨n, hr⟩
              (ih p.2 q.1 q.2 hr2)
        · simp [hp] at h

/-- The value synthesized for a struct type: the zero value when the type is
in the guard set, which is left as it is, and else a value that went through
the field loop. -/
theorem makeRAMLExampleValue_struct_cases (env : Reflect) (fuel : Nat) (cycles : cycleMap)
    (t : TypeId) (v : Value) (c : cycleMap) (hk : env.Kind t = Kind.Struct)
    (h : makeRAMLExampleValue env fuel cycles t = Outcome.done (v, c)) :
    (t ∈ cycles ∧ v = Value.zero t ∧ c = cycles) ∨
      (t ∉ cycles ∧ ∃ vals, v = Value.struct t vals) := by
  cases fuel with
  | zero => simp [makeRAMLExampleValue] at h
  | succ n =>
    by_cases hin : t ∈ cycles
    · rw [makeRAMLExampleValue_struct_seen env _ _ _ hk hin] at h
      simp only [Outcome.done.injEq, Prod.mk.injEq] at h
      exact Or.inl ⟨hin, h.1.symm, h.2.symm⟩
    · rw [makeRAMLExampleValue_struct_new env _ _ _ hk hin] at h
      cases hr : fillFields env (makeRAMLExampleValue env n) (t :: cycles) (env.Fields t) with
      | outOfFuel => rw [hr] at h; cases h
      | panic msg => rw [hr] at h; cases h
      | done p =>
        rw [hr] at h
        simp only [Outcome.bind, Outcome.done.injEq, Prod.mk.injEq] at h
        exact Or.inr ⟨hin, p.1, h.1.symm⟩

/-- An example of a type that is no pointer, slice or map is addressable. -/
theorem shaped_canAddr (env : Reflect) (t : TypeId) (v : Value) (h : Shaped env t v)
    (h1 : env.Kind t ≠ Kind.Ptr) (h3 : env.Kind t ≠ Kind.Slice) (h4 : env.Kind t ≠ Kind.Map) :
    v.CanAddr = true := by
  cases h with
  | zero => rfl
  | struct => rfl
  | slice _ _ hk => exact absurd hk h3
  | map _ _ _ hk => exact absurd hk h4
  | ptr _ _ hk => exact absurd hk h1

/-- The field loop does not panic when the recursive call does not and the
fields it sets are exported. -/
theorem fillFields_no_panic (env : Reflect)
    (rec : cycleMap → TypeId → Outcome (Value × cycleMap))
    (hrec : ∀ cycles t msg, rec cycles t ≠ Outcome.panic msg) :
    ∀ (fs : List StructField),
      (∀ f ∈ fs, isFirstLower env f.Name = false → f.PkgPath = "") →
      ∀ (cycles : cycleMap) (msg : String), fillFields env rec cycles fs ≠ Outcome.panic msg := by
  intro fs
  induction fs with
  | nil => intro _ cycles msg h; simp [fillFields] at h
  | cons ft rest ih =>
    intro hfs cycles msg h
    have hrest : ∀ f ∈ rest, isFirstLower env f.Name = false → f.PkgPath = "" :=
      fun f hf => hfs f (List.mem_cons_of_mem _ hf)
    cases hlow : isFirstLower env ft.Name with
    | true =>
      rw [fillFields_cons_lower env _ _ _ _ hlow] at h
      cases hr : fillFields env rec cycles rest with
      | outOfFuel => rw [hr] at h; cases h
      | panic m => exact ih hrest cycles m hr
      | done p => rw [hr] at h; cases h
    | false =>
      rw [fillFields_cons_set env _ _ _ _ hlow] at h
      cases hr : rec cycles ft.Typ with
      | outOfFuel => rw [hr] at h; cases h
      | panic m => exact hrec cycles ft.Typ m hr
      | done p =>
        rw [hr] at h
        simp only [Outcome.bind, hfs ft (List.mem_cons_self _ _) hlow, if_true] at h
        cases hr2 : fillFields env rec p.2 rest with
        | outOfFuel => rw [hr2] at h; cases h
        | panic m => exact ih hrest p.2 m hr2
        | done q => rw [hr2] at h; cases h

/-- In a program without a source of panic `makeRAMLExampleValue` does not
panic. -/
theorem makeRAMLExampleValue_no_panic (env : Reflect) (hfree : NoPanicSource env) :
    ∀ (fuel : Nat) (cycles : cycleMap) (t : TypeId) (msg : String),
      makeRAMLExampleValue env fuel cycles t ≠ Outcome.panic msg := by
  intro fuel
  induction fuel with
  | zero => intro cycles t msg h; simp [makeRAMLExampleValue] at h
  | succ n ih =>
    intro cycles t msg h
    by_cases h1 : env.Kind t = Kind.Ptr
    · rw [makeRAMLExampleValue_ptr env _ _ _ h1] at h
      cases hr : makeRAMLExampleValue env n cycles (env.Elem t) with
      | outOfFuel => rw [hr] at h; cases h
      | panic m => exact ih _ _ m hr
      | done p =>
        rw [hr] at h
        obtain ⟨e1, e3, e4⟩ := hfree.1 t h1
        have hca := shaped_canAddr env _ _ (makeRAMLExampleValue_shaped env _ _ _ p.1 p.2 hr)
          e1 e3 e4
        simp [Outcome.bind, Value.Addr, hca] at h
    by_cases h2 : env.Kind t = Kind.Struct
    · by_cases hin : t ∈ cycles
      · rw [makeRAMLExampleValue_struct_seen env _ _ _ h2 hin] at h
        cases h
      · rw [makeRAMLExampleValue_struct_new env _ _ _ h2 hin] at h
        cases hr : fillFields env (makeRAMLExampleValue env n) (t :: cycles) (env.Fields t) with
        | outOfFuel => rw [hr] at h; cases h
        | panic m => exact fillFields_no_panic env _ ih _ (hfree.2 t h2) _ m hr
        | done p => rw [hr] at h; cases h
    by_cases h3 : env.Kind t = Kind.Slice
    · rw [makeRAMLExampleValue_slice env _ _ _ h3] at h
      cases hr : makeRAMLExampleValue env n cycles (env.Elem t) with
      | outOfFuel => rw [hr] at h; cases h
      | panic m => exact ih _ _ m hr
      | done p => rw [hr] at h; cases h
    by_cases h4 : env.Kind t = Kind.Map
    · rw [makeRAMLExampleValue_map env _ _ _ h4] at h
      cases hr : makeRAMLExampleValue env n cycles (env.Key t) with
      | outOfFuel => rw [hr] at h; cases h
      | panic m => exact ih _ _ m hr
      | done p =>
        rw [hr] at h
        simp only [Outcome.bind] at h
        cases hr2 : makeRAMLExampleValue env n p.2 (env.Elem t) with
        | outOfFuel => rw [hr2] at h; cases h
        | panic m => exact ih _ _ m hr2
        | done q => rw [hr2] at h; cases h
    rw [makeRAMLExampleValue_other env _ _ _ h1 h2 h3 h4] at h
    cases h

/-- In a program in which no pointer, slice or map type contains itself
without passing through a struct type and which has no source of panic,
`makeRAMLExampleValue` returns a value, on every type and from every guard
set: some call depth gives it, and every larger one gives the same. -/
theorem makeRAMLExampleValue_returns (env : Reflect) (rank : TypeId → Nat) (N : Nat)
    (hrank : RankedBy env rank) (hN : StructsBelow env N) (hfree : NoPanicSource env)
    (cycles : cycleMap) (t : TypeId) :
    ∃ fuel v c, ∀ fuel1, fuel ≤ fuel1 →
      makeRAMLExampleValue env fuel1 cycles t = Outcome.done (v, c) := by
  obtain ⟨fuel, hf⟩ := exampleValue_terminates_from env rank N hrank hN
    (unvisited N cycles) cycles (Nat.le_refl _) t
  cases hr : makeRAMLExampleValue env fuel cycles t with
  | outOfFuel => exact absurd hr hf
  | panic m => exact absurd hr (makeRAMLExampleValue_no_panic env hfree fuel cycles t m)
  | done p =>
    refine ⟨fuel, p.1, p.2, fun fuel1 hle => ?_⟩
    rw [makeRAMLExampleValue_fuel_le env fuel fuel1 hle cycles t hf, hr]

/-- The rank of `shapeEnv` decreases from a pointer, slice or map type to its
parts. -/
theorem shapeEnv_ranked : RankedBy shapeEnv shapeRank := by
  intro t
  by_cases ht : t < 12
  · interval_cases t <;> decide
  · have hk : shapeEnv.Kind t = Kind.Invalid := ofDecls_kind_invalid shapeDecls t (by
      simp only [timeDecls, shapeDecls, List.length_append, List.length_cons, List.length_nil]
      exact Nat.le_of_not_lt ht)
    simp [hk]

/-- The struct types of `shapeEnv` are below 12. -/
theorem shapeEnv_structsBelow : StructsBelow shapeEnv 12 := by
  intro t hk
  by_cases ht : t < 12
  · exact ht
  · have hk1 : shapeEnv.Kind t = Kind.Invalid := ofDecls_kind_invalid shapeDecls t (by
      simp only [timeDecls, shapeDecls, List.length_append, List.length_cons, List.length_nil]
      exact Nat.le_of_not_lt ht)
    rw [hk1] at hk; cases hk

/-- The table `shapeEnv` has no source of panic. -/
theorem shapeEnv_noPanicSource : NoPanicSource shapeEnv := by
  constructor
  · intro t hk
    by_cases ht : t < 12
    · interval_cases t <;> decide
    · have hk1 : shapeEnv.Kind t = Kind.Invalid := ofDecls_kind_invalid shapeDecls t (by
        simp only [timeDecls, shapeDecls, List.length_append, List.length_cons, List.length_nil]
        exact Nat.le_of_not_lt ht)
      rw [hk1] at hk; cases hk
  · intro t hk
    by_cases ht : t < 12
    · interval_cases t <;> decide
    · have hk1 : shapeEnv.Kind t = Kind.Invalid := ofDecls_kind_invalid shapeDecls t (by
        simp only [timeDecls, shapeDecls, List.length_append, List.length_cons, List.length_nil]
        exact Nat.le_of_not_lt ht)
      rw [hk1] at hk; cases hk

/-- A run that panics at some call depth returns at no call depth. -/
theorem makeRAMLExampleValue_panic_never_done (env : Reflect) (n : Nat) (cycles : cycleMap)
    (t : TypeId) (msg : String)
    (hrun : makeRAMLExampleValue env n cycles t = Outcome.panic msg) :
    ¬ ∃ fuel v c, makeRAMLExampleValue env fuel cycles t = Outcome.done (v, c) := by
  rintro ⟨fuel, v, c, h⟩
  have hne : makeRAMLExampleValue env n cycles t ≠ Outcome.outOfFuel := by
    rw [hrun]; intro hc; cases hc
  have hne1 : makeRAMLExampleValue env fuel cycles t ≠ Outcome.outOfFuel := by
    rw [h]; intro hc; cases hc
  rcases Nat.le_total fuel n with hle | hle
  · have := makeRAMLExampleValue_fuel_le env fuel n hle cycles t hne1
    rw [hrun, h] at this
    cases this
  · have := makeRAMLExampleValue_fuel_le env n fuel hle cycles t hne
    rw [hrun, h] at this
    cases this

/-- A struct `A` whose fields are `X` and `Y`, both exported and of struct type
`B`: when the synthesis of `B` from the guard set `[A]` returns `vx`, that of
`A` from the empty guard set returns `A` with `X = vx` and `Y` the zero `B`. -/
theorem pairStruct_synthesis (env : Reflect) (fuel : Nat) (A B : TypeId)
    (fx fy : StructField) (marshal : Bool → Value → Except String String) (indent : Bool)
    (vx : Value) (c : cycleMap)
    (hA : env.Kind A = Kind.Struct) (hB : env.Kind B = Kind.Struct) (hAB : A ≠ B)
    (hf : env.Fields A = [fx, fy]) (hxt : fx.Typ = B) (hyt : fy.Typ = B)
    (hxl : isFirstLower env fx.Name = false) (hyl : isFirstLower env fy.Name = false)
    (hxe : fx.PkgPath = "") (hye : fy.PkgPath = "")
    (hX : makeRAMLExampleValue env fuel [A] B = Outcome.done (vx, c)) :
    (∀ cycles, B ∈ cycles →
      makeRAMLExampleValue env (fuel + 1) cycles B = Outcome.done (Value.zero B, cycles)) ∧
    (∀ n cycles u w c2, B ∈ cycles →
      makeRAMLExampleValue env n cycles u = Outcome.done (w, c2) →
      B ∈ c2 ∧ Value.fills B w = false) ∧
    B ∈ c ∧
    (∃ vals, vx = Value.struct B vals) ∧
    makeRAMLExampleValue env (fuel + 1) [] A =
      Outcome.done (Value.struct A [vx, Value.zero B], c) ∧
    makeRAMLExample env marshal (fuel + 1) A indent =
      (match marshal indent (Value.struct A [vx, Value.zero B]) with
        | Except.ok b => Outcome.done b
        | Except.error err => Outcome.panic err) := by
  have hzero : ∀ n cycles, B ∈ cycles →
      makeRAMLExampleValue env (n + 1) cycles B = Outcome.done (Value.zero B, cycles) :=
    fun n cycles hin => makeRAMLExampleValue_struct_seen env n cycles B hB hin
  have hlater : ∀ n cycles u w c2, B ∈ cycles →
      makeRAMLExampleValue env n cycles u = Outcome.done (w, c2) →
      B ∈ c2 ∧ Value.fills B w = false :=
    fun n cycles u w c2 hin h =>
      ⟨makeRAMLExampleValue_guard_mono env n cycles u w c2 h hin,
        makeRAMLExampleValue_no_fill env B n cycles u w c2 hin h⟩
  have hBc : B ∈ c := makeRAMLExampleValue_struct_entered env fuel [A] B vx c hB hX
  obtain ⟨n, rfl⟩ : ∃ n, fuel = n + 1 := by
    cases fuel with
    | zero => simp [makeRAMLExampleValue] at hX
    | succ n => exact ⟨n, rfl⟩
  have hnin : B ∉ [A] := by simpa using fun h => hAB h.symm
  have hvx : ∃ vals, vx = Value.struct B vals := by
    have h := hX
    rw [makeRAMLExampleValue_struct_new env n [A] B hB hnin] at h
    cases hr : fillFields env (makeRAMLExampleValue env n) [B, A] (env.Fields B) with
    | outOfFuel => rw [hr] at h; cases h
    | panic msg => rw [hr] at h; cases h
    | done p =>
      rw [hr] at h
      simp only [Outcome.bind, Outcome.done.injEq, Prod.mk.injEq] at h
      exact ⟨p.1, h.1.symm⟩
  have hmain : makeRAMLExampleValue env (n + 1 + 1) [] A =
      Outcome.done (Value.struct A [vx, Value.zero B], c) := by
    have hY := hzero n c hBc
    rw [makeRAMLExampleValue_struct_new env (n + 1) [] A hA (List.not_mem_nil A), hf,
      fillFields_cons_set env _ _ _ _ hxl, hxt, hX]
    simp only [Outcome.bind, hxe, if_true]
    rw [fillFields_cons_set env _ _ _ _ hyl, hyt, hY]
    simp only [Outcome.bind, hye, if_true, fillFields_nil]
  refine ⟨hzero _, hlater, hBc, hvx, hmain, ?_⟩
  simp [makeRAMLExample, hmain]

/-- On `type S []S` of `faultyEnv` no call depth is enough, whatever the guard
set. -/
theorem faultyEnv_slice_diverges :
    ∀ (fuel : Nat) (cycles : cycleMap),
      makeRAMLExampleValue faultyEnv fuel cycles 12 = Outcome.outOfFuel := by
  intro fuel
  induction fuel with
  | zero => intro cycles; rfl
  | succ n ih =>
    intro cycles
    have hk : faultyEnv.Kind 12 = Kind.Slice := by decide
    have he : faultyEnv.Elem 12 = 12 := by decide
    rw [makeRAMLExampleValue_slice faultyEnv n cycles 12 hk, he, ih]
    rfl

/-- On `[]S` of `faultyEnv` no call depth is enough. -/
theorem faultyEnv_sliceOfS_diverges (fuel : Nat) (cycles : cycleMap) :
    makeRAMLExampleValue faultyEnv fuel cycles 17 = Outcome.outOfFuel := by
  cases fuel with
  | zero => rfl
  | succ n =>
    have hk : faultyEnv.Kind 17 = Kind.Slice := by decide
    have he : faultyEnv.Elem 17 = 12 := by decide
    rw [makeRAMLExampleValue_slice faultyEnv n cycles 17 hk, he, faultyEnv_slice_diverges]
    rfl

/-- On `Looped{L S}` of `faultyEnv` no call depth is enough, from a guard set
without `Looped`. -/
theorem faultyEnv_looped_diverges (fuel : Nat) (cycles : cycleMap) (h : 13 ∉ cycles) :
    makeRAMLExampleValue faultyEnv fuel cycles 13 = Outcome.outOfFuel := by
  cases fuel with
  | zero => rfl
  | succ k =>
    have hk13 : faultyEnv.Kind 13 = Kind.Struct := by decide
    have hf13 : faultyEnv.Fields 13 = [⟨"L", "", 12, ""⟩] := rfl
    rw [makeRAMLExampleValue_struct_new faultyEnv k cycles 13 hk13 h, hf13,
      fillFields_cons_set faultyEnv _ _ _ _ (by decide)]
    simp only [faultyEnv_slice_diverges, Outcome.bind]

/-- On `Twin{X Looped; Y Looped}` of `faultyEnv` no call depth is enough from
the empty guard set. -/
theorem faultyEnv_twin_diverges (fuel : Nat) :
    makeRAMLExampleValue faultyEnv fuel [] 14 = Outcome.outOfFuel := by
  cases fuel with
  | zero => rfl
  | succ n =>
    have hk : faultyEnv.Kind 14 = Kind.Struct := by decide
    have hf : faultyEnv.Fields 14 = [⟨"X", "", 13, ""⟩, ⟨"Y", "", 13, ""⟩] := rfl
    rw [makeRAMLExampleValue_struct_new faultyEnv n [] 14 hk (List.not_mem_nil _), hf,
      fillFields_cons_set faultyEnv _ _ _ _ (by decide)]
    simp only [faultyEnv_looped_diverges n [14] (by decide), Outcome.bind]

/-- The key built by the code is the path normalized to start with `/`. -/
theorem pathKey_eq_withLeadingSlash (p : String) : pathKey p = withLeadingSlash p := by
  obtain ⟨l⟩ := p
  cases l with
  | nil => simp [pathKey, withLeadingSlash, hasPrefix]
  | cons c cs =>
    by_cases hc : c = '/'
    · subst hc
      simp [pathKey, withLeadingSlash, hasPrefix]
    · simp [pathKey, withLeadingSlash, hasPrefix, hc]
      rw [if_neg (fun h => hc h.symm)]
      rfl

/-- A string has each of its beginnings as a prefix. -/
theorem hasPrefix_append (a b : String) : hasPrefix (a ++ b) a = true := by
  unfold hasPrefix
  rw [String.data_append, List.isPrefixOf_iff_prefix]
  exact List.prefix_append _ _

/-- Cutting a beginning off a string leaves the rest. -/
theorem dropPrefix_append (a b : String) : dropPrefix (a ++ b) a = b := by
  unfold dropPrefix
  rw [String.data_append, List.drop_left]

/-- A string whose first character is not `/` has no prefix `/`. -/
theorem hasPrefix_slash_false (s : String) (h : s.data.head? ≠ some '/') :
    hasPrefix s "/" = false := by
  obtain ⟨l⟩ := s
  cases l with
  | nil => simp [hasPrefix]
  | cons c cs =>
    have hc : ¬ '/' = c := fun hc => h (by simp [← hc])
    simp [hasPrefix, List.isPrefixOf, hc]

/-- The place the spec names is the place the code files a route at, for a
`simplifiedPath` that sends exactly the empty path to the empty path. -/
theorem placedAt_iff_routeKey (ext : Externals) (resource : ResourceSchema)
    (hs : ∀ p, ext.simplifiedPath p = "" ↔ p = "") (r : RouteSchema) (rest : String)
    (hrest : r.Path = resource.Path ++ rest) (key : Option String) :
    PlacedAt ext resource r key ↔ key = routeKey ext resource r := by
  have hkey : routeKey ext resource r =
      if rest = "" then none else some (withLeadingSlash (ext.simplifiedPath rest)) := by
    unfold routeKey
    rw [hrest, dropPrefix_append]
    by_cases h : rest = ""
    · rw [if_pos ((hs _).2 h), if_pos h]
    · rw [if_neg (fun hc => h ((hs _).1 hc)), if_neg h, pathKey_eq_withLeadingSlash]
  constructor
  · rintro ⟨rest1, h1, hk⟩
    have hsame : rest1 = rest := by
      rw [hrest] at h1
      have hd := congrArg String.data h1
      rw [String.data_append, String.data_append] at hd
      exact (String.ext (List.append_cancel_left hd)).symm
    rw [hsame] at hk
    rw [hk, hkey]
  · intro hk
    exact ⟨rest, hrest, by rw [hk, hkey]⟩

/-- A value read from a map is the value of one of its entries. -/
theorem rmapGet_mem (k : RVal) (v : RVal) :
    ∀ m : rmap, rmapGet m k = some v → ∃ p ∈ m, p.2 = v := by
  intro m
  induction m with
  | nil => intro h; simp [rmapGet] at h
  | cons p m ih =>
    obtain ⟨k1, v1⟩ := p
    intro h
    rw [rmapGet] at h
    split at h
    · simp only [Option.some.injEq] at h
      exact ⟨(k1, v1), List.mem_cons_self _ _, h⟩
    · obtain ⟨q, hq, hv⟩ := ih h
      exact ⟨q, List.mem_cons_of_mem _ hq, hv⟩

/-- An entry of a map after an assignment is an entry it had or the one
assigned. -/
theorem rmapSet_mem (k v : RVal) :
    ∀ (m : rmap) (p : RVal × RVal), p ∈ rmapSet m k v → p ∈ m ∨ p = (k, v) := by
  intro m
  induction m with
  | nil =>
    intro p hp
    simp only [rmapSet, List.mem_singleton] at hp
    exact Or.inr hp
  | cons q m ih =>
    obtain ⟨k1, v1⟩ := q
    intro p hp
    rw [rmapSet] at hp
    split at hp
    · rcases List.mem_cons.1 hp with h | h
      · exact Or.inr h
      · exact Or.inl (List.mem_cons_of_mem _ h)
    · rcases List.mem_cons.1 hp with h | h
      · exact Or.inl (by rw [h]; exact List.mem_cons_self _ _)
      · rcases ih p h with h1 | h1
        · exact Or.inl (List.mem_cons_of_mem _ h1)
        · exact Or.inr h1

/-- The node of a route is found in a section all of whose values are
maps. -/
theorem routeNode_returns (out : rmap) (rpath : String)
    (hall : ∀ p ∈ out, ∃ m, p.2 = RVal.map m) : ∃ route, routeNode out rpath = Outcome.done route := by
  unfold routeNode
  by_cases hr : rpath = ""
  · exact ⟨out, by rw [if_pos hr]⟩
  · rw [if_neg hr]
    cases hg : rmapGet out (RVal.str (pathKey rpath)) with
    | none => exact ⟨[], rfl⟩
    | some v =>
      obtain ⟨p, hp, hv⟩ := rmapGet_mem _ _ out hg
      obtain ⟨m, hm⟩ := hall p hp
      rw [hv] at hm
      rw [hm]
      exact ⟨m, rfl⟩

/-- Storing a method entry keeps all values of the section maps. -/
theorem storeRoute_maps (out route method : rmap) (rpath mk : String)
    (hall : ∀ p ∈ out, ∃ m, p.2 = RVal.map m) :
    ∀ p ∈ storeRoute out rpath route mk method, ∃ m, p.2 = RVal.map m := by
  intro p hp
  unfold storeRoute at hp
  split at hp
  · rcases rmapSet_mem _ _ out p hp with h | h
    · exact hall p h
    · rw [h]; exact ⟨_, rfl⟩
  · rcases rmapSet_mem _ _ out p hp with h | h
    · exact hall p h
    · rw [h]; exact ⟨_, rfl⟩

/-- The route loop returns a section when every route carries the prefix and
has its method entry rendered. -/
theorem routesToRAML_returns (ext : Externals) (env : Reflect) (fuel : Nat) (url : String)
    (resource : ResourceSchema) :
    ∀ (l : List RouteSchema) (out0 : rmap),
      (∀ p ∈ out0, ∃ m, p.2 = RVal.map m) →
      (∀ r ∈ l, hasPrefix r.Path resource.Path = true) →
      (∀ r ∈ l, ∃ m, methodToRAML ext env fuel url r = Outcome.done m) →
      ∃ out, routesToRAML ext env fuel url resource out0 l = Outcome.done out := by
  intro l
  induction l with
  | nil => intro out0 _ _ _; exact ⟨out0, routesToRAML_nil ext env fuel url resource out0⟩
  | cons x xs ih =>
    intro out0 hall hpre hrender
    obtain ⟨route, hroute⟩ :=
      routeNode_returns out0 (ext.simplifiedPath (dropPrefix x.Path resource.Path)) hall
    obtain ⟨method, hmethod⟩ := hrender x (List.mem_cons_self _ _)
    obtain ⟨out, hout⟩ := ih
      (storeRoute out0 (ext.simplifiedPath (dropPrefix x.Path resource.Path)) route
        (ext.ToLower x.Method) method)
      (storeRoute_maps out0 route method _ _ hall)
      (fun r hr => hpre r (List.mem_cons_of_mem _ hr))
      (fun r hr => hrender r (List.mem_cons_of_mem _ hr))
    refine ⟨out, ?_⟩
    rw [routesToRAML_cons, if_pos (hpre x (List.mem_cons_self _ _)), hroute]
    simp only [Outcome.bind]
    rw [hmethod]
    exact hout

/-- The method entry of a route holds, under `responses`, the map that the
responses loop returns. -/
theorem methodToRAML_responses (ext : Externals) (env : Reflect) (fuel : Nat) (url : String)
    (r : RouteSchema) (m : rmap) (h : methodToRAML ext env fuel url r = Outcome.done m) :
    ∃ responseMap, responsesToRAML ext env fuel [] r.Responses = Outcome.done responseMap ∧
      rmapGet m (RVal.str "responses") = some (RVal.map responseMap) := by
  unfold methodToRAML at h
  obtain ⟨method0, _, h1⟩ := (bind_eq_done _ _ _).1 h
  obtain ⟨responseMap, hresp, h2⟩ := (bind_eq_done _ _ _).1 h1
  obtain ⟨description, _, h3⟩ := (bind_eq_done _ _ _).1 h2
  obtain ⟨body, _, h4⟩ := (bind_eq_done _ _ _).1 h3
  refine ⟨responseMap, hresp, ?_⟩
  simp only [Outcome.done.injEq] at h4
  rw [← h4]
  cases body with
  | none =>
    simp only
    rw [rmapGet_rmapSet_other _ _ _ (by decide), rmapGet_rmapSet_same]
  | some rreq =>
    simp only
    rw [rmapGet_rmapSet_other _ _ _ (by decide), rmapGet_rmapSet_other _ _ _ (by decide),
      rmapGet_rmapSet_same]

/-! ### The claims -/

/-- C1, the code at a failing input: the type map of `pairSchema` has the two
entries `Pair` and `Point`; Go's `range` may yield them in either order, and
the `schemas` list built from one order differs from the list built from the
other, whatever the schema texts are (here the type strings stand for them). -/
theorem schemaList_depends_on_range_order :
    schemaTypeMap exampleEnv 4 pairSchema = some [("Pair", 20), ("Point", 19)] ∧
      List.Perm [("Point", 19), ("Pair", 20)] [("Pair", 20), ("Point", 19)] ∧
      schemaList (fun t => Except.ok (exampleEnv.TypeString t)) [("Pair", 20), ("Point", 19)] =
        Except.ok [[(RVal.str "Pair", RVal.str "main.Pair")],
          [(RVal.str "Point", RVal.str "main.Point")]] ∧
      schemaList (fun t => Except.ok (exampleEnv.TypeString t)) [("Point", 19), ("Pair", 20)] =
        Except.ok [[(RVal.str "Point", RVal.str "main.Point")],
          [(RVal.str "Pair", RVal.str "main.Pair")]] ∧
      schemaList (fun t => Except.ok (exampleEnv.TypeString t)) [("Pair", 20), ("Point", 19)] ≠
        schemaList (fun t => Except.ok (exampleEnv.TypeString t)) [("Point", 19), ("Pair", 20)] := by
  refine ⟨by decide, List.Perm.swap _ _ _, rfl, rfl, ?_⟩
  intro h
  have h1 : schemaList (fun t => Except.ok (exampleEnv.TypeString t))
      [("Pair", 20), ("Point", 19)] =
      Except.ok [[(RVal.str "Pair", RVal.str "main.Pair")],
        [(RVal.str "Point", RVal.str "main.Point")]] := rfl
  have h2 : schemaList (fun t => Except.ok (exampleEnv.TypeString t))
      [("Point", 19), ("Pair", 20)] =
      Except.ok [[(RVal.str "Point", RVal.str "main.Point")],
        [(RVal.str "Pair", RVal.str "main.Pair")]] := rfl
  rw [h1, h2] at h
  simp at h

/-- C2 (amended): let no struct type reachable from `t` share its name with
another type reachable from `t`.  Then in the map that `collectTypes` returns
when run on `t` from the empty map, every struct type other than the date
type that is reachable from `t` through struct fields with non-lowercase
names, pointer and slice elements and map keys and values is stored under its
unqualified name.  The run does return, with the same map for every
sufficient call depth, when no pointer, slice or map type contains itself
without passing through a struct type. -/
theorem collectTypes_complete (env : Reflect) (t : TypeId) (hclash : NoNameClash env t) :
    (∀ fuel m, collectTypes env fuel [] (some t) = some m →
      ∀ s, Reach env t s → env.Kind s = Kind.Struct → s ≠ env.timeType →
        mapGet m (env.Name s) = some s) ∧
    (∀ (rank : TypeId → Nat) (N : Nat), RankedBy env rank → StructsBelow env N →
      ∃ fuel m, collectTypes env fuel [] (some t) = some m ∧
        ∀ fuel1, fuel ≤ fuel1 → collectTypes env fuel1 [] (some t) = some m) := by
  constructor
  · intro fuel m hrun
    have hst0 : Stored env t [] := by
      intro k v hkv
      simp [mapGet] at hkv
    obtain ⟨hc, hroot⟩ := collectTypes_collects env t hclash fuel [] t m
      Relation.ReflTransGen.refl hst0 hrun
    have hclosed : ∀ s, mapGet m (env.Name s) = some s → ClosedAt env m s := by
      intro s hs
      rcases hc.2.2 s hs with h | h
      · simp [mapGet] at h
      · exact h
    have hall : ∀ s, Reach env t s → Handled env m s := by
      intro s hs
      induction hs with
      | refl => exact hroot
      | tail _ hd ih => exact handled_descend env m hclosed _ _ ih hd
    intro s hs hk htime
    have h := hall s hs
    cases h with
    | time => exact absurd rfl htime
    | stored _ _ hget => exact hget
    | elem _ hk1 _ => rcases hk1 with hk1 | hk1 <;> rw [hk] at hk1 <;> cases hk1
    | map _ hk1 _ _ => rw [hk] at hk1; cases hk1
    | other _ h1 _ _ _ => exact absurd hk h1
  · intro rank N hrank hN
    obtain ⟨fuel, m, hrun⟩ := collectTypes_terminates env rank N hrank hN
      (unmapped env N []) [] (Nat.le_refl _) t
    exact ⟨fuel, m, hrun, fun fuel1 hle => collectTypes_fuel_le env fuel fuel1 hle [] _ m hrun⟩

/-- C2 witness: from `Node`, whose fields reach `Node` again through a pointer,
a slice and a map, the run returns the map that holds `Node` under its name. -/
theorem collectTypes_complete_witness :
    NoNameClash nodeEnv 6 ∧
      collectTypes nodeEnv 3 [] (some 6) = some [("Node", 6)] ∧
      mapGet [("Node", 6)] (nodeEnv.Name 6) = some 6 ∧
      ∃ fuel m, collectTypes nodeEnv fuel [] (some 6) = some m ∧
        ∀ fuel1, fuel ≤ fuel1 → collectTypes nodeEnv fuel1 [] (some 6) = some m :=
  ⟨nodeEnv_noNameClash, by decide,
    (collectTypes_complete nodeEnv 6 nodeEnv_noNameClash).1 3 [("Node", 6)] (by decide) 6
      Relation.ReflTransGen.refl (by decide) (by decide),
    (collectTypes_complete nodeEnv 6 nodeEnv_noNameClash).2 nodeRank 7 nodeEnv_ranked
      nodeEnv_structsBelow⟩

/-- C2 counterexample: `Order{First a.Item; Second b.Item}` reaches the struct
`Detail` through `b.Item`, whose unqualified name `Item` is already taken by
`a.Item` when `collectTypes` comes to it; the map returned has no entry under
`Detail`. -/
theorem collectTypes_misses_struct_behind_name_clash :
    Reach exampleEnv 11 8 ∧ exampleEnv.Kind 8 = Kind.Struct ∧
      (8 : TypeId) ≠ exampleEnv.timeType ∧
      collectTypes exampleEnv 4 [] (some 11) = some [("Order", 11), ("Item", 9)] ∧
      ¬ ∃ fuel m, collectTypes exampleEnv fuel [] (some 11) = some m ∧
          (mapGet m (exampleEnv.Name 8)).isSome = true := by
  have hrun : collectTypes exampleEnv 4 [] (some 11) = some [("Order", 11), ("Item", 9)] := by
    decide
  refine ⟨?_, by decide, by decide, hrun, ?_⟩
  · exact Relation.ReflTransGen.tail
      (Relation.ReflTransGen.single (mem_descends exampleEnv 11 10 (by decide)))
      (mem_descends exampleEnv 10 8 (by decide))
  · rintro ⟨fuel, m, h, hget⟩
    have hm : m = [("Order", 11), ("Item", 9)] := by
      rcases Nat.le_total fuel 4 with hle | hle
      · have := collectTypes_fuel_le exampleEnv fuel 4 hle [] _ m h
        rw [hrun] at this
        exact (Option.some.inj this).symm
      · have := collectTypes_fuel_le exampleEnv 4 fuel hle [] _ _ hrun
        rw [h] at this
        exact Option.some.inj this
    subst hm
    revert hget
    decide

/-- Termination of `makeRAMLExampleValue`: when no pointer, slice or map type
contains itself without
passing through a struct type, `makeRAMLExampleValue` terminates on every type
and from every guard set, also for struct types that contain themselves in
fields, directly or through pointers, slices or maps: some call depth
suffices, and every larger one gives the same outcome.  When a struct type
`T` that was not in the guard set is synthesized, no field of the result
contains a filled `T`: every nested occurrence of `T` is the zero `T`. -/
theorem makeRAMLExampleValue_terminates (env : Reflect) (rank : TypeId → Nat) (N : Nat)
    (hrank : RankedBy env rank) (hN : StructsBelow env N) (cycles : cycleMap) (t : TypeId) :
    (∃ fuel, makeRAMLExampleValue env fuel cycles t ≠ Outcome.outOfFuel ∧
      ∀ fuel1, fuel ≤ fuel1 →
        makeRAMLExampleValue env fuel1 cycles t = makeRAMLExampleValue env fuel cycles t) ∧
    (∀ fuel v c, env.Kind t = Kind.Struct → t ∉ cycles →
      makeRAMLExampleValue env fuel cycles t = Outcome.done (v, c) →
      ∃ vals, v = Value.struct t vals ∧ Value.fillsAny t vals = false) := by
  constructor
  · obtain ⟨fuel, hf⟩ := exampleValue_terminates_from env rank N hrank hN
      (unvisited N cycles) cycles (Nat.le_refl _) t
    exact ⟨fuel, hf, fun fuel1 hle => makeRAMLExampleValue_fuel_le env fuel fuel1 hle cycles t hf⟩
  · intro fuel v c hk hin h
    cases fuel with
    | zero => simp [makeRAMLExampleValue] at h
    | succ n =>
      rw [makeRAMLExampleValue_struct_new env _ _ _ hk hin] at h
      cases hr : fillFields env (makeRAMLExampleValue env n) (t :: cycles) (env.Fields t) with
      | outOfFuel => rw [hr] at h; cases h
      | panic msg => rw [hr] at h; cases h
      | done p =>
        rw [hr] at h
        simp only [Outcome.bind, Outcome.done.injEq, Prod.mk.injEq] at h
        exact ⟨p.1, h.1.symm, fillFields_no_fill env t _ (makeRAMLExampleValue_guard_mono env n)
          (makeRAMLExampleValue_no_fill env t n) (env.Fields t) (t :: cycles) p.1 p.2
          (List.mem_cons_self _ _) hr⟩

/-- An instance of the termination: the self-referential `Node` is
synthesized, its nested
occurrences being the zero `Node`. -/
theorem makeRAMLExampleValue_terminates_witness :
    RankedBy nodeEnv nodeRank ∧ StructsBelow nodeEnv 7 ∧
      (∃ fuel, makeRAMLExampleValue nodeEnv fuel [] 6 ≠ Outcome.outOfFuel ∧
        ∀ fuel1, fuel ≤ fuel1 →
          makeRAMLExampleValue nodeEnv fuel1 [] 6 = makeRAMLExampleValue nodeEnv fuel [] 6) ∧
      makeRAMLExampleValue nodeEnv 3 [] 6 =
        Outcome.done (Value.struct 6 [Value.zero 5, Value.ptr (Value.zero 6),
          Value.slice 8 [Value.zero 6], Value.map 9 [(Value.zero 10, Value.zero 6)]], [6]) :=
  ⟨nodeEnv_ranked, nodeEnv_structsBelow,
    (makeRAMLExampleValue_terminates nodeEnv nodeRank 7 nodeEnv_ranked nodeEnv_structsBelow
      [] 6).1, rfl⟩

/-- C3, the code at a failing input: on `type S []S`, a slice type that
contains itself, `makeRAMLExampleValue` calls itself on the same type for
ever: no call depth is enough for it to return or panic.  The guard set is
consulted in the struct case only: the self-referential struct `Node` of the
same program is synthesized, its nested occurrences being the zero `Node`. -/
theorem makeRAMLExampleValue_recursive_slice_diverges :
    exampleEnv.Kind 12 = Kind.Slice ∧ exampleEnv.Elem 12 = 12 ∧
      (¬ ∃ fuel, makeRAMLExampleValue exampleEnv fuel [] 12 ≠ Outcome.outOfFuel) ∧
      makeRAMLExampleValue exampleEnv 3 [] 15 =
        Outcome.done (Value.struct 15 [Value.zero 5, Value.ptr (Value.zero 15),
          Value.slice 17 [Value.zero 15], Value.map 18 [(Value.zero 6, Value.zero 15)],
          Value.zero 21], [15]) := by
  refine ⟨by decide, by decide, ?_, rfl⟩
  rintro ⟨fuel, h⟩
  apply h
  have hk : exampleEnv.Kind 12 = Kind.Slice := by decide
  have he : exampleEnv.Elem 12 = 12 := by decide
  induction fuel with
  | zero => rfl
  | succ n ih =>
    by_cases hn : makeRAMLExampleValue exampleEnv n [] 12 = Outcome.outOfFuel
    · rw [makeRAMLExampleValue_slice exampleEnv n [] 12 hk, he, hn]; rfl
    · exact absurd (ih hn) hn

/-- C4, the code at failing inputs: on `*[]int` the value synthesized for the
pointee `[]int` comes from `reflect.Append` and is not addressable, so
`Addr` panics and no call depth makes `makeRAMLExampleValue` return a value;
on `Padded{_ int; N int}` the field `_` is not skipped (its name does not start
with a lowercase letter) and `Set` panics on the unexported field. -/
theorem makeRAMLExampleValue_pointer_to_slice_panics :
    exampleEnv.Kind 14 = Kind.Ptr ∧ exampleEnv.Kind (exampleEnv.Elem 14) = Kind.Slice ∧
      makeRAMLExampleValue exampleEnv 3 [] 14 =
        Outcome.panic "reflect.Value.Addr of unaddressable value" ∧
      (¬ ∃ fuel v c, makeRAMLExampleValue exampleEnv fuel [] 14 = Outcome.done (v, c)) ∧
      makeRAMLExampleValue exampleEnv 3 [] 22 =
        Outcome.panic "reflect: reflect.Value.Set using value obtained using unexported field" := by
  have hrun : makeRAMLExampleValue exampleEnv 3 [] 14 =
      Outcome.panic "reflect.Value.Addr of unaddressable value" := rfl
  refine ⟨by decide, by decide, hrun, ?_, rfl⟩
  rintro ⟨fuel, v, c, h⟩
  have hne : makeRAMLExampleValue exampleEnv 3 [] 14 ≠ Outcome.outOfFuel := by
    rw [hrun]; intro hc; cases hc
  have hne1 : makeRAMLExampleValue exampleEnv fuel [] 14 ≠ Outcome.outOfFuel := by
    rw [h]; intro hc; cases hc
  rcases Nat.le_total fuel 3 with hle | hle
  · have := makeRAMLExampleValue_fuel_le exampleEnv fuel 3 hle [] 14 hne1
    rw [hrun, h] at this
    cases this
  · have := makeRAMLExampleValue_fuel_le exampleEnv 3 fuel hle [] 14 hne
    rw [hrun, h] at this
    cases this

/-- C5 (amended): a struct type `T` that is not in the guard set (the guard
set is empty at the start of `makeRAMLExample`).  Every value that
`makeRAMLExampleValue` returns for `T` went through the field loop and has one
value per field of `T`, in order: a field whose name starts with a lowercase
letter keeps its zero value, and every other field holds the value that
`makeRAMLExampleValue` returns for the field type from the guard set left by
the fields before it.  The value is through and through an example of its
type (`Shaped`): non-nil pointers to examples, one-element slices of an
example, one-entry maps of examples, zero values for the primitive kinds; no
field contains a filled `T`.  A value synthesized for a struct type is the
zero value exactly when the type is in the guard set, that is, was entered
earlier, and else went through the field loop.  And in a program in which no
pointer, slice or map type contains itself without passing through a struct
and which has no source of panic, the synthesis of `T` returns. -/
theorem makeRAMLExampleValue_struct_fields (env : Reflect) (cycles : cycleMap) (T : TypeId)
    (hk : env.Kind T = Kind.Struct) (hT : T ∉ cycles) :
    (∀ fuel v c, makeRAMLExampleValue env fuel cycles T = Outcome.done (v, c) →
      ∃ vals, v = Value.struct T vals ∧
        FieldsSynthesized env (T :: cycles) (env.Fields T) vals c ∧
        Shaped env T v ∧
        Value.fillsAny T vals = false ∧
        List.Forall₂ (FieldShown env) (env.Fields T) vals ∧
        (∀ f fv, (f, fv) ∈ (env.Fields T).zip vals → isFirstLower env f.Name = false →
          ((env.Kind f.Typ = Kind.Ptr ∨ env.Kind f.Typ = Kind.Slice ∨
              env.Kind f.Typ = Kind.Map) → fv.IsZero = false) ∧
          (env.Kind f.Typ ≠ Kind.Ptr → env.Kind f.Typ ≠ Kind.Slice →
            env.Kind f.Typ ≠ Kind.Map → env.Kind f.Typ ≠ Kind.Struct → fv.IsZero = true)) ∧
        v.singletons = true) ∧
    (∀ fuel cy u w c1, makeRAMLExampleValue env fuel cy u = Outcome.done (w, c1) →
      env.Kind u = Kind.Struct →
      (u ∈ cy ∧ w = Value.zero u ∧ c1 = cy) ∨ (u ∉ cy ∧ ∃ ws, w = Value.struct u ws)) ∧
    (∀ rank N, RankedBy env rank → StructsBelow env N → NoPanicSource env →
      ∃ fuel v c, ∀ fuel1, fuel ≤ fuel1 →
        makeRAMLExampleValue env fuel1 cycles T = Outcome.done (v, c)) := by
  refine ⟨?_, ?_, ?_⟩
  · intro fuel v c h
    have hsing := makeRAMLExampleValue_singletons env fuel cycles T v c h
    have hshaped := makeRAMLExampleValue_shaped env fuel cycles T v c h
    cases fuel with
    | zero => simp [makeRAMLExampleValue] at h
    | succ n =>
      rw [makeRAMLExampleValue_struct_new env _ _ _ hk hT] at h
      cases hr : fillFields env (makeRAMLExampleValue env n) (T :: cycles) (env.Fields T) with
      | outOfFuel => rw [hr] at h; cases h
      | panic msg => rw [hr] at h; cases h
      | done p =>
        rw [hr] at h
        simp only [Outcome.bind, Outcome.done.injEq, Prod.mk.injEq] at h
        have hall := fillFields_fieldShown env _
          (fun cy t w c1 hw => makeRAMLExampleValue_exampleOf env n cy t w c1 hw)
          (env.Fields T) (T :: cycles) p.1 p.2 hr
        have hsyn := fillFields_synthesized env n (env.Fields T) (T :: cycles) p.1 p.2 hr
        have hnofill := fillFields_no_fill env T _ (makeRAMLExampleValue_guard_mono env n)
          (makeRAMLExampleValue_no_fill env T n) (env.Fields T) (T :: cycles) p.1 p.2
          (List.mem_cons_self _ _) hr
        rw [h.2] at hsyn
        refine ⟨p.1, h.1.symm, hsyn, hshaped, hnofill, hall, ?_, hsing⟩
        intro f fv hmem hlow
        have hshown : FieldShown env f fv := List.forall₂_zip hall hmem
        have hex := hshown.2 hlow
        constructor
        · rintro (hp | hs | hm)
          · obtain ⟨w, rfl⟩ := hex.1 hp; rfl
          · obtain ⟨w, rfl⟩ := hex.2.1 hs; rfl
          · obtain ⟨k, w, rfl⟩ := hex.2.2.1 hm; rfl
        · intro a b c1 d
          rw [hex.2.2.2.2 a b c1 d]; rfl
  · intro fuel cy u w c1 h hku
    exact makeRAMLExampleValue_struct_cases env fuel cy u w c1 hku h
  · intro rank N hrank hN hfree
    exact makeRAMLExampleValue_returns env rank N hrank hN hfree cycles T

/-- C5 witness: `Holder{P *Point; L []Pair; M map[int]Pair; n int}` is
synthesized with a pointer to a filled `Point`, a one-element slice of a
`Pair` whose `Point` fields are zero (`Point` was entered for `P`), a
one-entry map to the zero `Pair` (entered for `L`), and the zero `n`. -/
theorem makeRAMLExampleValue_struct_fields_witness :
    ∃ vals, Value.struct 11 [Value.ptr (Value.struct 6 [Value.zero 5]),
        Value.slice 8 [Value.struct 7 [Value.zero 6, Value.zero 6]],
        Value.map 9 [(Value.zero 5, Value.zero 7)], Value.zero 5] = Value.struct 11 vals ∧
      FieldsSynthesized shapeEnv [11] (shapeEnv.Fields 11) vals [7, 6, 11] ∧
      Shaped shapeEnv 11 (Value.struct 11 [Value.ptr (Value.struct 6 [Value.zero 5]),
        Value.slice 8 [Value.struct 7 [Value.zero 6, Value.zero 6]],
        Value.map 9 [(Value.zero 5, Value.zero 7)], Value.zero 5]) :=
  let ⟨vals, h1, h2, h3, _⟩ :=
    (makeRAMLExampleValue_struct_fields shapeEnv [] 11 (by decide) (by decide)).1 4
      (Value.struct 11 [Value.ptr (Value.struct 6 [Value.zero 5]),
        Value.slice 8 [Value.struct 7 [Value.zero 6, Value.zero 6]],
        Value.map 9 [(Value.zero 5, Value.zero 7)], Value.zero 5]) [7, 6, 11] rfl
  ⟨vals, h1, h2, h3⟩

/-- C5 counterexample: `Point{N int}` has no self-reference and its exported
field `N` is synthesized as the zero `int`, not as a non-zero value. -/
theorem makeRAMLExampleValue_int_field_zero :
    exampleEnv.Fields 19 = [⟨"N", "", 5, ""⟩] ∧
      makeRAMLExampleValue exampleEnv 2 [] 19 =
        Outcome.done (Value.struct 19 [Value.zero 5], [19]) ∧
      (Value.zero 5).IsZero = true ∧
      ¬ ∃ fuel fv c, makeRAMLExampleValue exampleEnv fuel [] 19 =
          Outcome.done (Value.struct 19 [fv], c) ∧ fv.IsZero = false := by
  refine ⟨rfl, rfl, rfl, ?_⟩
  rintro ⟨fuel, fv, c, h, hz⟩
  have hne : makeRAMLExampleValue exampleEnv 2 [] 19 ≠ Outcome.outOfFuel := by
    intro hc; cases hc
  have h2 : makeRAMLExampleValue exampleEnv 2 [] 19 =
      Outcome.done (Value.struct 19 [Value.zero 5], [19]) := rfl
  rcases Nat.lt_or_ge fuel 2 with hlt | hge
  · have hne1 : makeRAMLExampleValue exampleEnv fuel [] 19 ≠ Outcome.outOfFuel := by
      rw [h]; intro hc; cases hc
    have := makeRAMLExampleValue_fuel_le exampleEnv fuel 2 (Nat.le_of_lt hlt) [] 19 hne1
    rw [h2, h] at this
    injection this with this
    injection this with this _
    injection this with _ this
    injection this with this _
    rw [← this] at hz
    cases hz
  · have := makeRAMLExampleValue_fuel_le exampleEnv 2 fuel hge [] 19 hne
    rw [h2, h] at this
    injection this with this
    injection this with this _
    injection this with _ this
    injection this with this _
    rw [this] at hz
    cases hz

/-- The coarse guard: a struct type that is in the guard set is synthesized as
its zero value, with the guard set unchanged; it stays in the guard set for the
rest of the call, and no value synthesized while it is there contains a
filled struct of this type, on a cycle or not.  In a program in which no
pointer, slice or map type contains itself without passing through a struct
and which has no source of panic, for a struct `A` whose fields are `X` and
`Y`, both exported and of struct type `B`, the synthesis of `A` from the empty
guard set returns: `X` is the `B` filled field by field and `Y` is the zero
`B`; and `makeRAMLExample` marshals exactly this value, its guard set
starting empty. -/
theorem makeRAMLExampleValue_guard_coarse (env : Reflect) (rank : TypeId → Nat) (N : Nat)
    (A B : TypeId) (fx fy : StructField) (marshal : Bool → Value → Except String String)
    (indent : Bool)
    (hrank : RankedBy env rank) (hN : StructsBelow env N) (hfree : NoPanicSource env)
    (hA : env.Kind A = Kind.Struct) (hB : env.Kind B = Kind.Struct) (hAB : A ≠ B)
    (hf : env.Fields A = [fx, fy]) (hxt : fx.Typ = B) (hyt : fy.Typ = B)
    (hxl : isFirstLower env fx.Name = false) (hyl : isFirstLower env fy.Name = false)
    (hxe : fx.PkgPath = "") (hye : fy.PkgPath = "") :
    (∀ fuel cycles, B ∈ cycles →
      makeRAMLExampleValue env (fuel + 1) cycles B = Outcome.done (Value.zero B, cycles)) ∧
    (∀ n cycles u w c2, B ∈ cycles →
      makeRAMLExampleValue env n cycles u = Outcome.done (w, c2) →
      B ∈ c2 ∧ Value.fills B w = false) ∧
    ∃ fuel vx c,
      (∀ fuel1, fuel ≤ fuel1 → makeRAMLExampleValue env fuel1 [A] B = Outcome.done (vx, c)) ∧
      B ∈ c ∧
      (∃ vals, vx = Value.struct B vals) ∧
      (∀ fuel1, fuel ≤ fuel1 →
        makeRAMLExampleValue env (fuel1 + 1) [] A =
          Outcome.done (Value.struct A [vx, Value.zero B], c)) ∧
      (∀ fuel1, fuel ≤ fuel1 →
        makeRAMLExample env marshal (fuel1 + 1) A indent =
          (match marshal indent (Value.struct A [vx, Value.zero B]) with
            | Except.ok b => Outcome.done b
            | Except.error err => Outcome.panic err)) := by
  obtain ⟨fuel, vx, c, hrun⟩ := makeRAMLExampleValue_returns env rank N hrank hN hfree [A] B
  have hstep := fun fuel1 (hle : fuel ≤ fuel1) =>
    pairStruct_synthesis env fuel1 A B fx fy marshal indent vx c hA hB hAB hf hxt hyt hxl hyl
      hxe hye (hrun fuel1 hle)
  have h0 := hstep fuel (Nat.le_refl _)
  refine ⟨fun n cycles hin => makeRAMLExampleValue_struct_seen env n cycles B hB hin, h0.2.1,
    fuel, vx, c, hrun, h0.2.2.1, h0.2.2.2.1, fun fuel1 hle => (hstep fuel1 hle).2.2.2.2.1,
    fun fuel1 hle => (hstep fuel1 hle).2.2.2.2.2⟩

/-- An instance of the coarse guard: in `shapeEnv` the struct `Pair{X Point; Y Point}` is
synthesized with `X` filled and `Y` the zero `Point`. -/
theorem makeRAMLExampleValue_guard_coarse_witness :
    ∃ fuel vx c,
      (∀ fuel1, fuel ≤ fuel1 → makeRAMLExampleValue shapeEnv fuel1 [7] 6 = Outcome.done (vx, c)) ∧
      6 ∈ c ∧
      (∃ vals, vx = Value.struct 6 vals) ∧
      (∀ fuel1, fuel ≤ fuel1 →
        makeRAMLExampleValue shapeEnv (fuel1 + 1) [] 7 =
          Outcome.done (Value.struct 7 [vx, Value.zero 6], c)) ∧
      (∀ fuel1, fuel ≤ fuel1 →
        makeRAMLExample shapeEnv (fun _ _ => Except.ok "") (fuel1 + 1) 7 true =
          (match (fun _ _ => Except.ok "" : Bool → Value → Except String String) true
              (Value.struct 7 [vx, Value.zero 6]) with
            | Except.ok b => Outcome.done b
            | Except.error err => Outcome.panic err)) :=
  (makeRAMLExampleValue_guard_coarse shapeEnv shapeRank 12 7 6 ⟨"X", "", 6, ""⟩ ⟨"Y", "", 6, ""⟩
    (fun _ _ => Except.ok "") true shapeEnv_ranked shapeEnv_structsBelow shapeEnv_noPanicSource
    (by decide) (by decide) (by decide) rfl rfl rfl (by decide) (by decide) rfl rfl).2.2

/-- C6, the code at failing inputs: `Both{X Tagged; Y Tagged}` has two exported fields of
the struct type `Tagged{Tags *[]int}`; the synthesis of `Tagged` for `X`
panics on the pointer to a slice, so that of `Both` returns no value, at any
call depth: `X` is not populated and `Y` is not the zero `Tagged`.  Likewise
`Duo{X Blank; Y Blank}` with `Blank{_ int}` panics on the unexported field
`_`, and on `Twin{X Looped; Y Looped}` with `Looped{L S}` and `type S []S` no
call depth is enough. -/
theorem makeRAMLExampleValue_two_fields_panics :
    faultyEnv.Kind 11 = Kind.Struct ∧ faultyEnv.Kind 10 = Kind.Struct ∧
      faultyEnv.Fields 11 = [⟨"X", "", 10, ""⟩, ⟨"Y", "", 10, ""⟩] ∧
      makeRAMLExampleValue faultyEnv 5 [] 11 =
        Outcome.panic "reflect.Value.Addr of unaddressable value" ∧
      (¬ ∃ fuel v c, makeRAMLExampleValue faultyEnv fuel [] 11 = Outcome.done (v, c)) ∧
      faultyEnv.Fields 16 = [⟨"X", "", 15, ""⟩, ⟨"Y", "", 15, ""⟩] ∧
      makeRAMLExampleValue faultyEnv 5 [] 16 =
        Outcome.panic
          "reflect: reflect.Value.Set using value obtained using unexported field" ∧
      faultyEnv.Fields 14 = [⟨"X", "", 13, ""⟩, ⟨"Y", "", 13, ""⟩] ∧
      ∀ fuel, makeRAMLExampleValue faultyEnv fuel [] 14 = Outcome.outOfFuel :=
  ⟨by decide, by decide, rfl, rfl,
    makeRAMLExampleValue_panic_never_done faultyEnv 5 [] 11 _ rfl, rfl, rfl, rfl,
    faultyEnv_twin_diverges⟩

/-- The form of the result for slices and maps: for a slice type, whatever the
guard set, when the synthesis
of the element type returns, `makeRAMLExampleValue` returns the one-element
sequence holding the value synthesized for the element type; for a map type,
when the syntheses of the key type and then of the element type return, it
returns the one-entry mapping whose key is the value synthesized for the key
type and whose value is the one synthesized for the element type from the
guard set the key left.  Every value it returns for a slice or map type has
this form, so none is empty or nil.  In a program in which no pointer, slice
or map type contains itself without passing through a struct and which has no
source of panic, these syntheses return, for every slice and map type and
every guard set. -/
theorem makeRAMLExampleValue_slice_map (env : Reflect) (fuel : Nat) (cycles : cycleMap)
    (t : TypeId) :
    (env.Kind t = Kind.Slice → ∀ v c,
      makeRAMLExampleValue env fuel cycles (env.Elem t) = Outcome.done (v, c) →
      makeRAMLExampleValue env (fuel + 1) cycles t = Outcome.done (Value.slice t [v], c)) ∧
    (env.Kind t = Kind.Map → ∀ k c1 v c2,
      makeRAMLExampleValue env fuel cycles (env.Key t) = Outcome.done (k, c1) →
      makeRAMLExampleValue env fuel c1 (env.Elem t) = Outcome.done (v, c2) →
      makeRAMLExampleValue env (fuel + 1) cycles t = Outcome.done (Value.map t [(k, v)], c2)) ∧
    (env.Kind t = Kind.Slice → ∀ r c,
      makeRAMLExampleValue env (fuel + 1) cycles t = Outcome.done (r, c) →
      ∃ v, r = Value.slice t [v] ∧
        makeRAMLExampleValue env fuel cycles (env.Elem t) = Outcome.done (v, c)) ∧
    (env.Kind t = Kind.Map → ∀ r c,
      makeRAMLExampleValue env (fuel + 1) cycles t = Outcome.done (r, c) →
      ∃ k c1 v, r = Value.map t [(k, v)] ∧
        makeRAMLExampleValue env fuel cycles (env.Key t) = Outcome.done (k, c1) ∧
        makeRAMLExampleValue env fuel c1 (env.Elem t) = Outcome.done (v, c)) ∧
    (∀ rank N, RankedBy env rank → StructsBelow env N → NoPanicSource env →
      (env.Kind t = Kind.Slice → ∃ fuel1 v c,
        makeRAMLExampleValue env fuel1 cycles (env.Elem t) = Outcome.done (v, c) ∧
        makeRAMLExampleValue env (fuel1 + 1) cycles t =
          Outcome.done (Value.slice t [v], c)) ∧
      (env.Kind t = Kind.Map → ∃ fuel1 k c1 v c2,
        makeRAMLExampleValue env fuel1 cycles (env.Key t) = Outcome.done (k, c1) ∧
        makeRAMLExampleValue env fuel1 c1 (env.Elem t) = Outcome.done (v, c2) ∧
        makeRAMLExampleValue env (fuel1 + 1) cycles t =
          Outcome.done (Value.map t [(k, v)], c2))) := by
  refine ⟨?_, ?_, ?_, ?_, ?_⟩
  · intro hk v c h
    simp [makeRAMLExampleValue, hk, h]
  · intro hk k c1 v c2 h1 h2
    simp [makeRAMLExampleValue, hk, h1, h2]
  · intro hk r c h
    unfold makeRAMLExampleValue at h
    simp only [hk] at h
    split at h
    · rename_i v1 c1 h1
      simp only [Outcome.done.injEq, Prod.mk.injEq] at h
      exact ⟨v1, h.1.symm, by rw [h1, h.2]⟩
    · cases h
    · cases h
  · intro hk r c h
    unfold makeRAMLExampleValue at h
    simp only [hk] at h
    split at h
    · rename_i k c1 h1
      split at h
      · rename_i v2 c2 h2
        simp only [Outcome.done.injEq, Prod.mk.injEq] at h
        exact ⟨k, c1, v2, h.1.symm, h1, by rw [h2, h.2]⟩
      · cases h
      · cases h
    · cases h
    · cases h
  · intro rank N hrank hN hfree
    constructor
    · intro hk
      obtain ⟨f1, v, c, hrun⟩ :=
        makeRAMLExampleValue_returns env rank N hrank hN hfree cycles (env.Elem t)
      have h1 := hrun f1 (Nat.le_refl _)
      refine ⟨f1, v, c, h1, ?_⟩
      rw [makeRAMLExampleValue_slice env f1 cycles t hk, h1]
      rfl
    · intro hk
      obtain ⟨f1, k, c1, hrun1⟩ :=
        makeRAMLExampleValue_returns env rank N hrank hN hfree cycles (env.Key t)
      obtain ⟨f2, v, c2, hrun2⟩ :=
        makeRAMLExampleValue_returns env rank N hrank hN hfree c1 (env.Elem t)
      have h1 := hrun1 (max f1 f2) (Nat.le_max_left _ _)
      have h2 := hrun2 (max f1 f2) (Nat.le_max_right _ _)
      refine ⟨max f1 f2, k, c1, v, c2, h1, h2, ?_⟩
      rw [makeRAMLExampleValue_map env _ cycles t hk, h1]
      simp only [Outcome.bind]
      rw [h2]

/-- An instance for slices and maps: in `shapeEnv`, `[]Pair` gives a one-element slice of a `Pair`
and `map[int]Pair` a one-entry map from the zero `int` to a `Pair`; both
syntheses return. -/
theorem makeRAMLExampleValue_slice_map_witness :
    makeRAMLExampleValue shapeEnv 4 [] 8 =
        Outcome.done (Value.slice 8 [Value.struct 7 [Value.struct 6 [Value.zero 5],
          Value.zero 6]], [6, 7]) ∧
      makeRAMLExampleValue shapeEnv 4 [] 9 =
        Outcome.done (Value.map 9 [(Value.zero 5, Value.struct 7 [Value.struct 6 [Value.zero 5],
          Value.zero 6])], [6, 7]) ∧
      (∃ fuel1 v c, makeRAMLExampleValue shapeEnv fuel1 [] (shapeEnv.Elem 8) =
          Outcome.done (v, c) ∧
        makeRAMLExampleValue shapeEnv (fuel1 + 1) [] 8 = Outcome.done (Value.slice 8 [v], c)) :=
  ⟨(makeRAMLExampleValue_slice_map shapeEnv 3 [] 8).1 (by decide) _ _ rfl,
    (makeRAMLExampleValue_slice_map shapeEnv 3 [] 9).2.1 (by decide) _ _ _ _ rfl rfl,
    ((makeRAMLExampleValue_slice_map shapeEnv 0 [] 8).2.2.2.2 shapeRank 12 shapeEnv_ranked
      shapeEnv_structsBelow shapeEnv_noPanicSource).1 (by decide)⟩

/-- C7, the code at failing inputs: for the slice type `[]*[]int` and the map type
`map[int]*[]int` the synthesis of the element `*[]int` panics, so
`makeRAMLExampleValue` returns no sequence and no mapping, at any call
depth; for `[]Blank` with `Blank{_ int}` it panics on the unexported field;
and for `[]S` with `type S []S` no call depth is enough. -/
theorem makeRAMLExampleValue_slice_of_pointer_panics :
    faultyEnv.Kind 8 = Kind.Slice ∧ faultyEnv.Kind 9 = Kind.Map ∧
      makeRAMLExampleValue faultyEnv 4 [] 8 =
        Outcome.panic "reflect.Value.Addr of unaddressable value" ∧
      (¬ ∃ fuel v c, makeRAMLExampleValue faultyEnv fuel [] 8 = Outcome.done (v, c)) ∧
      makeRAMLExampleValue faultyEnv 4 [] 9 =
        Outcome.panic "reflect.Value.Addr of unaddressable value" ∧
      (¬ ∃ fuel v c, makeRAMLExampleValue faultyEnv fuel [] 9 = Outcome.done (v, c)) ∧
      faultyEnv.Kind 18 = Kind.Slice ∧
      makeRAMLExampleValue faultyEnv 4 [] 18 =
        Outcome.panic
          "reflect: reflect.Value.Set using value obtained using unexported field" ∧
      faultyEnv.Kind 17 = Kind.Slice ∧
      ∀ fuel, makeRAMLExampleValue faultyEnv fuel [] 17 = Outcome.outOfFuel :=
  ⟨by decide, by decide, rfl, makeRAMLExampleValue_panic_never_done faultyEnv 4 [] 8 _ rfl,
    rfl, makeRAMLExampleValue_panic_never_done faultyEnv 4 [] 9 _ rfl, by decide, rfl,
    by decide, fun fuel => faultyEnv_sliceOfS_diverges fuel []⟩

/-- C8: `collectTypes` only adds entries.  In every run that returns, every
entry of the map it starts from is kept unchanged, and every entry it adds is
under a key absent before and maps the name of a struct type to that type,
which is not the date type and is reachable from `t` through fields with
non-lowercase names, pointer and slice elements and map keys and values (so
no pointer, slice, map or primitive type is stored).  On the nil type and on
the date type the map is returned unchanged.  The run on `t` does return when
no pointer, slice or map type contains itself without passing through a
struct type. -/
theorem collectTypes_onlyAdds (env : Reflect) (m : ramlTypeMap) (t : TypeId) :
    (∀ fuel m1, collectTypes env fuel m (some t) = some m1 →
      (∀ k v, mapGet m k = some v → mapGet m1 k = some v) ∧
      (∀ k v, mapGet m1 k = some v → mapGet m k = some v ∨
        (mapGet m k = none ∧ env.Name v = k ∧ env.Kind v = Kind.Struct ∧ v ≠ env.timeType ∧
          Reach env t v))) ∧
    (∀ fuel, collectTypes env (fuel + 1) m none = some m ∧
      collectTypes env (fuel + 1) m (some env.timeType) = some m) ∧
    (∀ (rank : TypeId → Nat) (N : Nat), RankedBy env rank → StructsBelow env N →
      ∃ fuel m1, collectTypes env fuel m (some t) = some m1) := by
  refine ⟨?_, ?_, ?_⟩
  · intro fuel m1 h
    have h1 := onlyAdds_collectTypes env fuel m t m1 h
    exact ⟨h1.1, h1.2⟩
  · intro fuel
    exact ⟨rfl, collectTypes_time env fuel m⟩
  · intro rank N hrank hN
    exact collectTypes_terminates env rank N hrank hN (unmapped env N m) m (Nat.le_refl _) t

/-- C8 witness: on `Order` from a map that holds `Detail`, the run returns, and
keeps the entry of `Detail`. -/
theorem collectTypes_onlyAdds_witness :
    collectTypes exampleEnv 4 [("Detail", 8)] (some 11) =
        some [("Detail", 8), ("Order", 11), ("Item", 9)] ∧
      mapGet [("Detail", 8), ("Order", 11), ("Item", 9)] "Detail" = some 8 :=
  ⟨by decide,
    ((collectTypes_onlyAdds exampleEnv [("Detail", 8)] 11).1 4
      [("Detail", 8), ("Order", 11), ("Item", 9)] (by decide)).1 "Detail" 8 (by decide)⟩

/-- C9 (amended): `typeToRAML` returns `{type: "integer"}` for each of the ten
kinds Int, Int8, Int16, Int32, Int64, Uint, Uint8, Uint16, Uint32, Uint64,
`{type: "number"}` for Float32 and Float64, `{type: "boolean"}` for bool,
`{type: "string"}` for string, `{type: "date"}` for the date type; for a
pointer type it returns exactly what it returns on the pointee (one call
deeper); every successful result is `{type: s}` with `s` one of these five
strings. -/
theorem typeToRAML_table (env : Reflect) (fuel : Nat) (t : TypeId) :
    (env.Kind t ∈ integerKinds →
      typeToRAML env (fuel + 1) t = Outcome.done (typeDescriptor "integer")) ∧
    (env.Kind t ∈ [Kind.Float32, Kind.Float64] →
      typeToRAML env (fuel + 1) t = Outcome.done (typeDescriptor "number")) ∧
    (env.Kind t = Kind.Bool →
      typeToRAML env (fuel + 1) t = Outcome.done (typeDescriptor "boolean")) ∧
    (env.Kind t = Kind.String →
      typeToRAML env (fuel + 1) t = Outcome.done (typeDescriptor "string")) ∧
    typeToRAML env (fuel + 1) env.timeType = Outcome.done (typeDescriptor "date") ∧
    (env.Kind t = Kind.Ptr →
      typeToRAML env (fuel + 1) t = typeToRAML env fuel (env.Elem t)) ∧
    (∀ r, typeToRAML env fuel t = Outcome.done r →
      ∃ s ∈ ["string", "integer", "number", "boolean", "date"], r = typeDescriptor s) := by
  refine ⟨?_, ?_, ?_, ?_, ?_, ?_, ?_⟩
  · intro h
    simp only [integerKinds, List.mem_cons, List.mem_singleton, List.not_mem_nil, or_false] at h
    rcases h with h | h | h | h | h | h | h | h | h | h <;> simp [typeToRAML, h]
  · intro h
    simp only [List.mem_cons, List.mem_singleton, List.not_mem_nil, or_false] at h
    rcases h with h | h <;> simp [typeToRAML, h]
  · intro h; simp [typeToRAML, h]
  · intro h; simp [typeToRAML, h]
  · exact typeToRAML_date env fuel
  · exact typeToRAML_ptr env fuel t
  · induction fuel generalizing t with
    | zero => intro r h; simp [typeToRAML] at h
    | succ n ih =>
      intro r h
      unfold typeToRAML at h
      split at h
      · split at h
        · injection h with h; exact ⟨"date", by simp, h.symm⟩
        · cases h
      all_goals first
        | (injection h with h; subst h; first
            | exact ⟨"integer", by simp, rfl⟩
            | exact ⟨"number", by simp, rfl⟩
            | exact ⟨"boolean", by simp, rfl⟩
            | exact ⟨"string", by simp, rfl⟩)
        | exact ih _ r h
        | cases h

/-- C9 witness: `int` is mapped to `{type: "integer"}` and `*main.Node` is
mapped like `main.Node`. -/
theorem typeToRAML_table_witness :
    exampleEnv.Kind 5 ∈ integerKinds ∧
      typeToRAML exampleEnv 1 5 = Outcome.done (typeDescriptor "integer") ∧
      exampleEnv.Kind 16 = Kind.Ptr ∧
      typeToRAML exampleEnv 2 16 = typeToRAML exampleEnv 1 (exampleEnv.Elem 16) :=
  ⟨by decide, (typeToRAML_table exampleEnv 0 5).1 (by decide), by decide,
    (typeToRAML_table exampleEnv 1 16).2.2.2.2.2.1 (by decide)⟩

/-- C9 counterexample: `uintptr` is an unsigned integer kind, and `typeToRAML`
never returns `{type: "integer"}` for it. -/
theorem typeToRAML_uintptr_not_integer :
    exampleEnv.Kind 7 = Kind.Uintptr ∧
      ¬ ∃ fuel, typeToRAML exampleEnv fuel 7 = Outcome.done (typeDescriptor "integer") := by
  refine ⟨by decide, ?_⟩
  rintro ⟨fuel, h⟩
  cases fuel with
  | zero => simp [typeToRAML] at h
  | succ n =>
    have hk : exampleEnv.Kind 7 = Kind.Uintptr := by decide
    simp [typeToRAML, hk] at h

/-- C10 (amended): let `u` be the type left after stripping the `n` pointer
layers of `t`, and let the call depth suffice.  Then `typeToRAML` fails with
`unsupported type u` exactly when `u` is not in the mapping table (the ten
integer kinds Int to Int64 and Uint to Uint64, the two floating-point kinds,
bool, string, the date type), and returns a descriptor exactly when it is;
it fails for every slice, map, array, channel, function and interface type
and for every struct type other than the date type. -/
theorem typeToRAML_fails_iff (env : Reflect) (n fuel : Nat) (t : TypeId)
    (hp : ∀ i, i < n → env.Kind (Nat.iterate env.Elem i t) = Kind.Ptr)
    (hu : env.Kind (Nat.iterate env.Elem n t) ≠ Kind.Ptr) (hf : n < fuel) :
    (typeToRAML env fuel t =
        Outcome.panic ("unsupported type " ++ env.TypeString (Nat.iterate env.Elem n t)) ↔
      ¬ inMappingTable env (Nat.iterate env.Elem n t)) ∧
    ((∃ r, typeToRAML env fuel t = Outcome.done r) ↔
      inMappingTable env (Nat.iterate env.Elem n t)) ∧
    ((env.Kind t ∈ [Kind.Slice, Kind.Map, Kind.Array, Kind.Chan, Kind.Func, Kind.Interface] ∨
        (env.Kind t = Kind.Struct ∧ t ≠ env.timeType)) →
      typeToRAML env fuel t = Outcome.panic ("unsupported type " ++ env.TypeString t)) := by
  obtain ⟨k, rfl⟩ : ∃ k, fuel = n + (k + 1) := ⟨fuel - n - 1, by omega⟩
  rw [typeToRAML_strip env k n t hp]
  refine ⟨?_, ?_, ?_⟩
  · rcases typeToRAML_base env k _ hu with ⟨h1, h2⟩ | ⟨⟨r, h1⟩, h2⟩
    · simp [h1, h2]
    · simp [h1, h2]
  · rcases typeToRAML_base env k _ hu with ⟨h1, h2⟩ | ⟨⟨r, h1⟩, h2⟩
    · simp [h1, h2]
    · simp [h1, h2]
  · intro hk
    have hn : n = 0 := by
      rcases Nat.eq_zero_or_pos n with h | h
      · exact h
      · have := hp 0 h
        simp at this
        rcases hk with hk | hk
        · rw [this] at hk; simp at hk
        · rw [this] at hk; simp at hk
    subst hn
    simp only [Function.iterate_zero, id_eq]
    rcases hk with hk | ⟨hk, ht⟩
    · simp only [List.mem_cons, List.mem_singleton, List.not_mem_nil, or_false] at hk
      rcases hk with hk | hk | hk | hk | hk | hk <;> simp [typeToRAML, hk]
    · simp [typeToRAML, hk, ht]

/-- C10 witness: `*[]int` strips to `[]int`, which is not in the table. -/
theorem typeToRAML_fails_iff_witness :
    exampleEnv.Kind 14 = Kind.Ptr ∧ exampleEnv.Kind (exampleEnv.Elem 14) = Kind.Slice ∧
      typeToRAML exampleEnv 3 14 = Outcome.panic "unsupported type []int" :=
  ⟨by decide, by decide,
    (typeToRAML_fails_iff exampleEnv 1 3 14 (by decide) (by decide) (by decide)).1.mpr
      (by simp [inMappingTable, integerKinds]; decide)⟩

/-- C10 counterexample: `uintptr` is an integer kind, not a pointer, not the
date type, and `typeToRAML` fails on it with the unsupported-type error. -/
theorem typeToRAML_fails_on_uintptr :
    exampleEnv.Kind 7 = Kind.Uintptr ∧ (7 : TypeId) ≠ exampleEnv.timeType ∧
      typeToRAML exampleEnv 1 7 = Outcome.panic "unsupported type uintptr" :=
  ⟨by decide, by decide, rfl⟩

/-- C13, the code at failing inputs: in `Filter` the field `Token` is tagged
`json:"-"`; `parseTag` names it with the empty string and
`structToRAMLParams` stores its descriptor under the empty name, next to the
entry of `Limit`.  In `Hooks` the field `Tags []string` is tagged `json:"-"`
and `typeToRAML` is still called on its type, which it does not support. -/
theorem structToRAMLParams_keeps_excluded_field :
    paramEnv.Fields 8 =
        [⟨"Token", "", 6, r#"json:"-""#⟩, ⟨"Limit", "", 5, r#"json:"limit,omitempty""#⟩] ∧
      parseTag exampleExt ⟨"Token", "", 6, r#"json:"-""#⟩ = ("", true) ∧
      structToRAMLParams exampleExt paramEnv 3 8 false =
        Outcome.done [(RVal.str "", RVal.map (typeDescriptor "string")),
          (RVal.str "limit", RVal.map (typeDescriptor "integer"))] ∧
      paramEnv.Fields 9 = [⟨"Tags", "", 7, r#"json:"-""#⟩, ⟨"ID", "", 5, ""⟩] ∧
      structToRAMLParams exampleExt paramEnv 3 9 false =
        Outcome.panic "unsupported type []string" :=
  ⟨rfl, rfl, rfl, rfl, rfl⟩

/-- C14 (amended): for a field with a non-empty parameter tag `schema:"x"`,
`parseTag` returns `x` as the name when the field has no json tag, and when
it has a json tag whose name part is not `-` (a name, a name with options, an
empty name part); when the name part of the json tag is `-` it returns the
empty name. -/
theorem parseTag_schema_name (ext : Externals) (f : StructField) (x : String)
    (hx : ext.TagGet f.Tag "schema" = x) (hne : x ≠ "") :
    (ext.TagGet f.Tag "json" = "" → f.Name ≠ "-" → (parseTag ext f).1 = x) ∧
    (ext.TagGet f.Tag "json" ≠ "" → jsonName (ext.TagGet f.Tag "json") ≠ "-" →
      (parseTag ext f).1 = x) ∧
    (ext.TagGet f.Tag "json" ≠ "" → jsonName (ext.TagGet f.Tag "json") = "-" →
      (parseTag ext f).1 = "") := by
  subst hx
  refine ⟨?_, ?_, ?_⟩
  · intro hj hn
    rw [parseTag_kept ext f (fun h => h.1 hj), if_pos hne]
    simp only [hj, ne_eq, not_true_eq_false, if_false]
    rw [if_neg hn]
  · intro hj hn
    rw [parseTag_kept ext f (fun h => hn h.2), if_pos hne]
    simp only [hj, ne_eq, not_false_eq_true, if_true]
    rw [if_neg hn]
  · intro hj hn
    rw [parseTag_excluded ext f hj hn]

/-- C14 witness: `ID int` tagged `schema:"id"` is named `id`. -/
theorem parseTag_schema_name_witness :
    tagGet r#"schema:"id""# "schema" = "id" ∧
      (parseTag exampleExt ⟨"ID", "", 5, r#"schema:"id""#⟩).1 = "id" :=
  ⟨by decide,
    (parseTag_schema_name exampleExt ⟨"ID", "", 5, r#"schema:"id""#⟩ "id" (by decide)
      (by decide)).1 (by decide) (by decide)⟩

/-- C14 counterexample: a field tagged `json:"-" schema:"id"` carries the
parameter tag `id`, and `parseTag` returns the empty name for it. -/
theorem parseTag_excluded_ignores_schema_tag :
    tagGet r#"json:"-" schema:"id""# "schema" = "id" ∧
      tagGet r#"json:"-" schema:"id""# "json" = "-" ∧
      parseTag exampleExt ⟨"ID", "", 5, r#"json:"-" schema:"id""#⟩ = ("", true) :=
  ⟨by decide, by decide, by decide⟩

/-- C15, the code at a failing input: the field `Limit` tagged
`json:",omitempty"` has no parameter tag and an empty name part in its json
tag; `parseTag` returns the empty name for it, not the field's own name. -/
theorem parseTag_empty_json_name :
    tagGet r#"json:",omitempty""# "schema" = "" ∧
      jsonName (tagGet r#"json:",omitempty""# "json") = "" ∧
      parseTag exampleExt ⟨"Limit", "", 5, r#"json:",omitempty""#⟩ = ("", false) :=
  ⟨by decide, by decide, by decide⟩

/-- C16 (amended): `parseTag` returns required = true for a field without
json tag, for a field whose json tag has the name part `-`, for a field whose
json tag has no option, and for a field whose json tag has options none of
which is `omitempty`; it returns required = false for a field whose json tag
has a name part other than `-` and `omitempty` as its first option. -/
theorem parseTag_required (ext : Externals) (f : StructField) :
    (ext.TagGet f.Tag "json" = "" → (parseTag ext f).2 = true) ∧
    (jsonName (ext.TagGet f.Tag "json") = "-" → (parseTag ext f).2 = true) ∧
    (jsonOptions (ext.TagGet f.Tag "json") = [] → (parseTag ext f).2 = true) ∧
    ("omitempty" ∉ jsonOptions (ext.TagGet f.Tag "json") → (parseTag ext f).2 = true) ∧
    (ext.TagGet f.Tag "json" ≠ "" → jsonName (ext.TagGet f.Tag "json") ≠ "-" →
      (jsonOptions (ext.TagGet f.Tag "json")).head? = some "omitempty" →
      (parseTag ext f).2 = false) := by
  by_cases hj : ext.TagGet f.Tag "json" = ""
  · have hreqd : (parseTag ext f).2 = true := by
      rw [parseTag_kept_required ext f (fun h => h.1 hj), if_neg (fun h => h hj)]
    exact ⟨fun _ => hreqd, fun _ => hreqd, fun _ => hreqd, fun _ => hreqd, fun h => absurd hj h⟩
  · by_cases hd : jsonName (ext.TagGet f.Tag "json") = "-"
    · have hreqd : (parseTag ext f).2 = true := by
        rw [parseTag_excluded ext f hj hd]
      exact ⟨fun _ => hreqd, fun _ => hreqd, fun _ => hreqd, fun _ => hreqd,
        fun _ h => absurd hd h⟩
    · have hval := parseTag_kept_required ext f (fun h => hd h.2)
      rw [if_pos hj, stringsSplit_cons] at hval
      rw [hval]
      refine ⟨fun h => absurd h hj, fun h => absurd h hd, ?_, ?_, ?_⟩
      · intro ho
        simp [ho]
      · intro ho
        cases hop : jsonOptions (ext.TagGet f.Tag "json") with
        | nil => simp
        | cons o os =>
          rw [hop] at ho
          have : o ≠ "omitempty" := fun h => ho (by simp [h])
          simp [this]
      · intro _ _ ho
        cases hop : jsonOptions (ext.TagGet f.Tag "json") with
        | nil => rw [hop] at ho; cases ho
        | cons o os =>
          rw [hop] at ho
          simp only [List.head?_cons, Option.some.injEq] at ho
          simp [ho]

/-- C16 witness: `json:"limit,omitempty"` gives required = false. -/
theorem parseTag_required_witness :
    tagGet r#"json:"limit,omitempty""# "json" = "limit,omitempty" ∧
      (parseTag exampleExt ⟨"Limit", "", 5, r#"json:"limit,omitempty""#⟩).2 = false :=
  ⟨by decide,
    (parseTag_required exampleExt ⟨"Limit", "", 5, r#"json:"limit,omitempty""#⟩).2.2.2.2
      (by decide) (by decide) (by decide)⟩

/-- C16 counterexample: the json tag `-,omitempty` carries the `omitempty`
modifier among its options, and `parseTag` returns required = true. -/
theorem parseTag_excluded_stays_required :
    tagGet r#"json:"-,omitempty""# "json" = "-,omitempty" ∧
      jsonOptions "-,omitempty" = ["omitempty"] ∧
      parseTag exampleExt ⟨"Limit", "", 5, r#"json:"-,omitempty""#⟩ = ("", true) :=
  ⟨by decide, by decide, by decide⟩

/-- C12, the code at a failing input: the resource `/items` has a visible
`GET /items` and a hidden `DELETE /items`, and is not hidden itself.  The
section that `resourceToRAML` returns for it has an entry `delete`, the
section returned for the resource without its hidden route has none, so the
two sections differ; `buildRoutes`, given the hidden route, returns the route
tree unchanged. -/
theorem resourceToRAML_renders_hidden_route :
    exampleExt.Hidden itemsResource = false ∧
    (visibleRoutes itemsResource).Routes = [itemsRoute "GET" "/items" false] ∧
    (resourceToRAML exampleExt paramEnv 5 "http://api" itemsResource).bind
        (fun out => Outcome.done (rmapGet out (RVal.str "delete")).isSome) = Outcome.done true ∧
    (resourceToRAML exampleExt paramEnv 5 "http://api" (visibleRoutes itemsResource)).bind
        (fun out => Outcome.done (rmapGet out (RVal.str "delete")).isSome) = Outcome.done false ∧
    resourceToRAML exampleExt paramEnv 5 "http://api" itemsResource ≠
      resourceToRAML exampleExt paramEnv 5 "http://api" (visibleRoutes itemsResource) ∧
    buildRoutes (ramlNestedRoute.mk [] []) ["items"] (itemsRoute "DELETE" "/items" true) =
      ramlNestedRoute.mk [] [] := by
  refine ⟨rfl, rfl, rfl, rfl, ?_, rfl⟩
  intro h
  have h1 : (resourceToRAML exampleExt paramEnv 5 "http://api" itemsResource).bind
      (fun out => Outcome.done (rmapGet out (RVal.str "delete")).isSome) =
      (resourceToRAML exampleExt paramEnv 5 "http://api" (visibleRoutes itemsResource)).bind
      (fun out => Outcome.done (rmapGet out (RVal.str "delete")).isSome) := by rw [h]
  have h2 : (resourceToRAML exampleExt paramEnv 5 "http://api" itemsResource).bind
      (fun out => Outcome.done (rmapGet out (RVal.str "delete")).isSome) = Outcome.done true := rfl
  have h3 : (resourceToRAML exampleExt paramEnv 5 "http://api" (visibleRoutes itemsResource)).bind
      (fun out => Outcome.done (rmapGet out (RVal.str "delete")).isSome) = Outcome.done false := rfl
  rw [h2, h3] at h1
  cases h1

/-- C20, the code at a failing input: in `clockSchema` the response payload is
`time.Time` and the request body an unnamed struct.  `ramlSchemaForType` emits
the schema name `Time` for the response, and the type map that `SchemaToRAML`
collects has no entry `Time`, so the `schemas` list does not define it; for
the request body `ramlSchemaForType` emits the empty schema name. -/
theorem ramlSchemaForType_undefined_schema_name :
    schemaTypeMap paramEnv 5 clockSchema = some [("", 11)] ∧
    mapGet [("", 11)] "Time" = none ∧
    schemaList exampleExt.ReflectSchema (exampleExt.RangeOrder [("", 11)]) =
      Except.ok [[(RVal.str "", RVal.str "<schema>")]] ∧
    ramlSchemaForType exampleExt paramEnv 5 (some 0) = Outcome.done
      [(RVal.str "schema", RVal.str "Time"), (RVal.str "example", RVal.str "<example>")] ∧
    ramlSchemaForType exampleExt paramEnv 5 (some 11) = Outcome.done
      [(RVal.str "schema", RVal.str ""), (RVal.str "example", RVal.str "<example>")] := by
  refine ⟨rfl, rfl, rfl, rfl, rfl⟩

/-- C17 (amended): when marshaling the JSON schema of a collected type fails
in the `schemas` loop, `SchemaToRAML` returns that error and has written
nothing.  When marshaling the synthesized example of a struct type fails,
`ramlSchemaForType` panics with the error; and when `ramlSchemaForType`
panics for the request body or a response payload of a route of a resource
that is not hidden, `SchemaToRAML` returns only with the error of the
`schemas` loop, nothing written: the example failure itself is never returned
as an error result. -/
theorem SchemaToRAML_failure_outcomes (ext : Externals) (env : Reflect) (fuel : Nat)
    (url : String) (s : Schema) :
    (∀ typeMap err, schemaTypeMap env fuel s = some typeMap →
      schemaList ext.ReflectSchema (ext.RangeOrder typeMap) = Except.error err →
      SchemaToRAML ext env fuel url s = Outcome.done ([], some err)) ∧
    (∀ t v c err, env.Kind t = Kind.Struct →
      makeRAMLExampleValue env fuel [] t = Outcome.done (v, c) →
      ext.MarshalJSON true v = Except.error err →
      ramlSchemaForType ext env (fuel + 1) (some t) = Outcome.panic err) ∧
    (∀ resource r t msg, resource ∈ s.Resources → ext.Hidden resource = false →
      r ∈ resource.Routes →
      (r.RequestType = some t ∨ ∃ response ∈ r.Responses, response.Typ = some t) →
      ramlSchemaForType ext env fuel (some t) = Outcome.panic msg →
      ∀ w e, SchemaToRAML ext env fuel url s = Outcome.done (w, e) →
        w = [] ∧ ∃ typeMap err, e = some err ∧ schemaTypeMap env fuel s = some typeMap ∧
          schemaList ext.ReflectSchema (ext.RangeOrder typeMap) = Except.error err) := by
  refine ⟨?_, ?_, ?_⟩
  · intro typeMap err htm hsl
    unfold SchemaToRAML schemaDocument
    rw [htm]
    simp only
    rw [hsl]
    rfl
  · intro t v c err hk hv hm
    unfold ramlSchemaForType
    have hp : env.Kind t ≠ Kind.Ptr := by rw [hk]; decide
    rw [if_neg hp, if_pos hk]
    unfold makeRAMLExample
    rw [hv]
    simp only
    rw [hm]
    rfl
  · intro resource r t msg hres hv hr ht hp w e hdone
    have hnd : ∀ a, ramlSchemaForType ext env fuel (some t) ≠ Outcome.done a := by
      intro a ha; rw [hp] at ha; cases ha
    have hmeth : ∀ a, methodToRAML ext env fuel url r ≠ Outcome.done a := by
      rcases ht with ht | ⟨response, hmem, ht⟩
      · exact methodToRAML_not_done_request ext env fuel url r t ht hnd
      · refine methodToRAML_not_done_response ext env fuel url r ?_
        refine responsesToRAML_not_done ext env fuel response ?_ _ _ hmem
        refine responseToRAML_not_done ext env fuel response ?_
        rw [ht]; exact hnd
    have hsec : ∀ a, resourceToRAML ext env fuel url resource ≠ Outcome.done a := by
      unfold resourceToRAML
      exact routesToRAML_not_done ext env fuel url resource r hmeth _ _ hr
    exact SchemaToRAML_without_document ext env fuel url s
      (schemaDocument_not_ok ext env fuel url s resource hres hv hsec) w e hdone

/-- C17 witness: with a schema encoder that fails, `SchemaToRAML` on
`pairSchema` returns the error, nothing written; with an example encoder that
fails, `ramlSchemaForType` panics on the struct `Pair`. -/
theorem SchemaToRAML_failure_outcomes_witness :
    SchemaToRAML failingSchemaExt exampleEnv 8 "http://api" pairSchema =
      Outcome.done ([], some "json: unsupported value") ∧
    ramlSchemaForType failingMarshalExt exampleEnv 9 (some 20) =
      Outcome.panic "json: unsupported type" :=
  ⟨(SchemaToRAML_failure_outcomes failingSchemaExt exampleEnv 8 "http://api" pairSchema).1
      _ "json: unsupported value" rfl rfl,
    (SchemaToRAML_failure_outcomes failingMarshalExt exampleEnv 8 "http://api" pairSchema).2.1
      20 _ _ "json: unsupported type" rfl rfl rfl⟩

/-- C17 counterexample: with an example encoder that fails, `SchemaToRAML` on
`pairSchema` panics with the encoder's error instead of returning it. -/
theorem SchemaToRAML_example_failure_panics :
    SchemaToRAML failingMarshalExt exampleEnv 8 "http://api" pairSchema =
      Outcome.panic "json: unsupported type" := by
  rfl

/-- C11 (amended): if some route's path does not begin with the resource's
path, `resourceToRAML` returns no section; when the routes before the first
such route are rendered, it panics with the message
`resource <resource path> has route <route path> outside prefix`; and when
every route's path begins with the resource's path, every panic of
`resourceToRAML` comes from the lookup of a route's node or from the
rendering of a route, never from the prefix test. -/
theorem resourceToRAML_prefix_error (ext : Externals) (env : Reflect) (fuel : Nat)
    (url : String) (resource : ResourceSchema) :
    (∀ r ∈ resource.Routes, hasPrefix r.Path resource.Path = false →
      ∀ out, resourceToRAML ext env fuel url resource ≠ Outcome.done out) ∧
    (∀ pre r post out1, resource.Routes = pre ++ r :: post →
      hasPrefix r.Path resource.Path = false →
      routesToRAML ext env fuel url resource [] pre = Outcome.done out1 →
      resourceToRAML ext env fuel url resource =
        Outcome.panic
          ("resource " ++ resource.Path ++ " has route " ++ r.Path ++ " outside prefix")) ∧
    ((∀ r ∈ resource.Routes, hasPrefix r.Path resource.Path = true) →
      ∀ msg, resourceToRAML ext env fuel url resource = Outcome.panic msg →
        ∃ r ∈ resource.Routes,
          (∃ o, routeNode o (ext.simplifiedPath (dropPrefix r.Path resource.Path)) =
            Outcome.panic msg) ∨ methodToRAML ext env fuel url r = Outcome.panic msg) := by
  refine ⟨?_, ?_, ?_⟩
  · intro r hr hp out
    unfold resourceToRAML
    exact routesToRAML_outside_not_done ext env fuel url resource r hp _ _ hr out
  · intro pre r post out1 hroutes hp hpre
    unfold resourceToRAML
    rw [hroutes, routesToRAML_append, hpre]
    simp only [Outcome.bind]
    rw [routesToRAML_cons, hp]
    rfl
  · intro hall msg h
    unfold resourceToRAML at h
    exact routesToRAML_panic_origin ext env fuel url resource msg _ _ hall h

/-- C11 witness: the second route of `strayResource` is outside the prefix and
the first is rendered, so `resourceToRAML` panics with both paths in the
message. -/
theorem resourceToRAML_prefix_error_witness :
    resourceToRAML exampleExt paramEnv 5 "http://api" strayResource =
      Outcome.panic "resource /items has route /other outside prefix" :=
  (resourceToRAML_prefix_error exampleExt paramEnv 5 "http://api" strayResource).2.1
    [itemsRoute "GET" "/items" false] (itemsRoute "GET" "/other" false) [] _ rfl rfl rfl

/-- C11 counterexample: the second route of `brokenResource` is outside the
prefix, and `resourceToRAML` aborts on the first route, with a message that
names neither the resource path nor the route path. -/
theorem resourceToRAML_aborts_before_prefix_test :
    (∃ r ∈ brokenResource.Routes, hasPrefix r.Path brokenResource.Path = false) ∧
    resourceToRAML exampleExt paramEnv 5 "http://api" brokenResource =
      Outcome.panic "unsupported type []string" ∧
    stringsContains "unsupported type []string" "/items" = false ∧
    stringsContains "unsupported type []string" "/other" = false :=
  ⟨⟨itemsRoute "GET" "/other" false, by simp [brokenResource], rfl⟩, rfl, rfl, rfl⟩

/-- C19 (amended): a resource whose routes all carry the resource prefix, have
lower-cased methods that are no path keys (none begins with `/`) and have
their method entries rendered; `simplifiedPath` sends exactly the empty path
to the empty path.  Then `resourceToRAML` returns a section, and in it the
place of each route, which is the section itself when the route path minus
the resource prefix is empty and else the map under the simplified remaining
path with a leading `/` ensured, holds under the lower-cased method the
method entry of a route of the resource with this very place and lower-cased
method: the route's own entry when no other route of the resource has both.
Two routes with the same place and different lower-cased methods both have an
entry under that one key. -/
theorem resourceToRAML_route_placement (ext : Externals) (env : Reflect) (fuel : Nat)
    (url : String) (resource : ResourceSchema)
    (hs : ∀ p, ext.simplifiedPath p = "" ↔ p = "")
    (hpre : ∀ r ∈ resource.Routes, ∃ rest, r.Path = resource.Path ++ rest)
    (hm : ∀ r ∈ resource.Routes, (ext.ToLower r.Method).data.head? ≠ some '/')
    (hrender : ∀ r ∈ resource.Routes, ∃ m, methodToRAML ext env fuel url r = Outcome.done m) :
    ∃ out, resourceToRAML ext env fuel url resource = Outcome.done out ∧
      (∀ r ∈ resource.Routes, ∀ key, PlacedAt ext resource r key →
        ∃ r1 ∈ resource.Routes, PlacedAt ext resource r1 key ∧
          ext.ToLower r1.Method = ext.ToLower r.Method ∧
          ∃ m, methodToRAML ext env fuel url r1 = Outcome.done m ∧
            entryAt out key (ext.ToLower r.Method) = some (RVal.map m)) ∧
      (∀ r ∈ resource.Routes, ∀ key, PlacedAt ext resource r key →
        (∀ r1 ∈ resource.Routes, PlacedAt ext resource r1 key →
          ext.ToLower r1.Method = ext.ToLower r.Method → r1 = r) →
        ∃ m, methodToRAML ext env fuel url r = Outcome.done m ∧
          entryAt out key (ext.ToLower r.Method) = some (RVal.map m)) ∧
      (∀ r1 ∈ resource.Routes, ∀ r2 ∈ resource.Routes, ∀ key,
        PlacedAt ext resource r1 key → PlacedAt ext resource r2 key →
        ext.ToLower r1.Method ≠ ext.ToLower r2.Method →
        ∃ m1 m2,
          entryAt out key (ext.ToLower r1.Method) = some (RVal.map m1) ∧
          entryAt out key (ext.ToLower r2.Method) = some (RVal.map m2)) := by
  have hpre1 : ∀ r ∈ resource.Routes, hasPrefix r.Path resource.Path = true := by
    intro r hr
    obtain ⟨rest, hrest⟩ := hpre r hr
    rw [hrest]
    exact hasPrefix_append _ _
  have hm1 : ∀ r ∈ resource.Routes, hasPrefix (ext.ToLower r.Method) "/" = false :=
    fun r hr => hasPrefix_slash_false _ (hm r hr)
  obtain ⟨out, hout⟩ := routesToRAML_returns ext env fuel url resource resource.Routes []
    (fun p hp => by cases hp) hpre1 hrender
  have hplaced0 := routesToRAML_entry_placed ext env fuel url resource _ _ _ hout hm1
  have hplaced : ∀ r ∈ resource.Routes, ∀ key, PlacedAt ext resource r key →
      ∃ r1 ∈ resource.Routes, PlacedAt ext resource r1 key ∧
        ext.ToLower r1.Method = ext.ToLower r.Method ∧
        ∃ m, methodToRAML ext env fuel url r1 = Outcome.done m ∧
          entryAt out key (ext.ToLower r.Method) = some (RVal.map m) := by
    intro r hr key hkey
    obtain ⟨rest, hrest⟩ := hpre r hr
    have hk := (placedAt_iff_routeKey ext resource hs r rest hrest key).1 hkey
    obtain ⟨r1, hr1, hk1, hmeq, m, hmeth, hentry⟩ := hplaced0 r hr
    obtain ⟨rest1, hrest1⟩ := hpre r1 hr1
    refine ⟨r1, hr1, ?_, hmeq, m, hmeth, by rw [hk]; exact hentry⟩
    exact (placedAt_iff_routeKey ext resource hs r1 rest1 hrest1 key).2 (by rw [hk, hk1])
  refine ⟨out, hout, hplaced, ?_, ?_⟩
  · intro r hr key hkey huniq
    obtain ⟨r1, hr1, hk1, hmeq, m, hmeth, hentry⟩ := hplaced r hr key hkey
    have h1 := huniq r1 hr1 hk1 hmeq
    subst h1
    exact ⟨m, hmeth, hentry⟩
  · intro r1 hr1 r2 hr2 key hk1 hk2 _
    obtain ⟨_, _, _, _, m1, _, hentry1⟩ := hplaced r1 hr1 key hk1
    obtain ⟨_, _, _, _, m2, _, hentry2⟩ := hplaced r2 hr2 key hk2
    exact ⟨m1, m2, hentry1, hentry2⟩

/-- C19 witness: `slashResource` has the path `/items/`, so the remaining path
of its routes on `/items/all` is `all`, without a leading `/`.  Its section is
returned; the entry `post` under the key `/all` is the method entry of the
`POST` route, and the entry `get` of the `GET` on `/items/` is in the section
itself. -/
theorem resourceToRAML_route_placement_witness :
    ∃ out, resourceToRAML exampleExt paramEnv 5 "http://api" slashResource = Outcome.done out ∧
      (∃ m, methodToRAML exampleExt paramEnv 5 "http://api"
          (itemsRoute "POST" "/items/all" false) = Outcome.done m ∧
        entryAt out (some "/all") "post" = some (RVal.map m)) ∧
      (∃ m, methodToRAML exampleExt paramEnv 5 "http://api"
          (itemsRoute "GET" "/items/" false) = Outcome.done m ∧
        entryAt out none "get" = some (RVal.map m)) := by
  have hplace : ∀ r ∈ slashResource.Routes, ∀ key,
      PlacedAt exampleExt slashResource r key →
      key = if r.Path = "/items/" then none else some "/all" := by
    intro r hr key hkey
    simp only [slashResource, List.mem_cons, List.mem_singleton, List.not_mem_nil,
      or_false] at hr
    rcases hr with h | h | h
    · subst h
      exact (placedAt_iff_routeKey exampleExt slashResource (fun _ => Iff.rfl) _ "all"
        (by decide) key).1 hkey
    · subst h
      exact (placedAt_iff_routeKey exampleExt slashResource (fun _ => Iff.rfl) _ "all"
        (by decide) key).1 hkey
    · subst h
      exact (placedAt_iff_routeKey exampleExt slashResource (fun _ => Iff.rfl) _ ""
        (by decide) key).1 hkey
  obtain ⟨out, hout, _, huniq, _⟩ :=
    resourceToRAML_route_placement exampleExt paramEnv 5 "http://api" slashResource
      (fun _ => Iff.rfl)
      (by
        intro r hr
        simp only [slashResource, List.mem_cons, List.mem_singleton, List.not_mem_nil,
          or_false] at hr
        rcases hr with h | h | h
        · exact ⟨"all", by rw [h]; decide⟩
        · exact ⟨"all", by rw [h]; decide⟩
        · exact ⟨"", by rw [h]; decide⟩)
      (by decide)
      (by
        intro r hr
        simp only [slashResource, List.mem_cons, List.mem_singleton, List.not_mem_nil,
          or_false] at hr
        rcases hr with h | h | h <;> subst h <;> exact ⟨_, rfl⟩)
  refine ⟨out, hout, ?_, ?_⟩
  · refine huniq (itemsRoute "POST" "/items/all" false) (by simp [slashResource])
      (some "/all") ⟨"all", by decide, by decide⟩ ?_
    intro r1 hr1 _ hmm
    simp only [slashResource, List.mem_cons, List.mem_singleton, List.not_mem_nil,
      or_false] at hr1
    rcases hr1 with h | h | h
    · subst h; exact absurd hmm (by decide)
    · exact h
    · subst h; exact absurd hmm (by decide)
  · refine huniq (itemsRoute "GET" "/items/" false) (by simp [slashResource])
      none ⟨"", by decide, by decide⟩ ?_
    intro r1 hr1 hk1 _
    have hk := hplace r1 hr1 none hk1
    simp only [slashResource, List.mem_cons, List.mem_singleton, List.not_mem_nil,
      or_false] at hr1
    rcases hr1 with h | h | h
    · subst h; exact absurd hk (by decide)
    · subst h; exact absurd hk (by decide)
    · exact h

/-- C19 counterexample: all routes of the three resources carry the resource
prefix.  For `unrenderedResource` the rendering of the route panics and no
section is returned, so no method entry is placed.  For `caseResource`, whose
two routes have the same remaining path and the different methods `GET` and
`get`, the map under the key `/all` has one entry: one route replaced the
other.  For `slashMethodResource` the route with the method string `/ALL`
replaced the map under the key `/all`, and the `GET` route has no entry
there. -/
theorem resourceToRAML_unplaced_routes :
    (∀ r ∈ unrenderedResource.Routes, hasPrefix r.Path unrenderedResource.Path = true) ∧
    resourceToRAML exampleExt paramEnv 5 "http://api" unrenderedResource =
      Outcome.panic "unsupported type []string" ∧
    (∀ r ∈ caseResource.Routes, hasPrefix r.Path caseResource.Path = true) ∧
    (resourceToRAML exampleExt paramEnv 5 "http://api" caseResource).bind
        (fun out => Outcome.done
          (match rmapGet out (RVal.str "/all") with
            | some (RVal.map node) => node.length
            | _ => 0)) = Outcome.done 1 ∧
    (∀ r ∈ slashMethodResource.Routes, hasPrefix r.Path slashMethodResource.Path = true) ∧
    (resourceToRAML exampleExt paramEnv 5 "http://api" slashMethodResource).bind
        (fun out => Outcome.done (entryAt out (some "/all") "get").isSome) =
      Outcome.done false :=
  ⟨by decide, rfl, by decide, rfl, by decide, rfl⟩

/-- C18 (amended): a resource whose routes all carry the resource prefix, have
lower-cased methods that are no path keys and have their method entries
rendered; `simplifiedPath` sends exactly the empty path to the empty path.
Then `resourceToRAML` returns a section, and for every route that shares its
place and lower-cased method with no other route of the resource, the method
entry at this place holds a `responses` map; for every declared response of
the route that shares its status with no other response of the route, this
map holds under the status an entry whose body is keyed by the declared
content type, or by `application/json` when none is declared, and holds the
payload schema; when the response is streaming, the entry has a headers entry
describing the field `Content-Encoding` and the description
`Streaming response.`; when it is not, it has no headers entry and carries
the declared description exactly when this is non-empty. -/
theorem resourceToRAML_response_entries (ext : Externals) (env : Reflect) (fuel : Nat)
    (url : String) (resource : ResourceSchema)
    (hs : ∀ p, ext.simplifiedPath p = "" ↔ p = "")
    (hpre : ∀ r ∈ resource.Routes, ∃ rest, r.Path = resource.Path ++ rest)
    (hm : ∀ r ∈ resource.Routes, (ext.ToLower r.Method).data.head? ≠ some '/')
    (hrender : ∀ r ∈ resource.Routes, ∃ m, methodToRAML ext env fuel url r = Outcome.done m) :
    ∃ out, resourceToRAML ext env fuel url resource = Outcome.done out ∧
      ∀ r ∈ resource.Routes, ∀ key, PlacedAt ext resource r key →
        (∀ r1 ∈ resource.Routes, PlacedAt ext resource r1 key →
          ext.ToLower r1.Method = ext.ToLower r.Method → r1 = r) →
        ∃ m responseMap,
          entryAt out key (ext.ToLower r.Method) = some (RVal.map m) ∧
          rmapGet m (RVal.str "responses") = some (RVal.map responseMap) ∧
          ∀ response ∈ r.Responses,
            (∀ r2 ∈ r.Responses, r2.Status = response.Status → r2 = response) →
            ∃ rrm rresp,
              rmapGet responseMap (RVal.int response.Status) = some (RVal.map rrm) ∧
              ramlSchemaForType ext env fuel response.Typ = Outcome.done rresp ∧
              rmapGet rrm (RVal.str "body") =
                some (RVal.map [(RVal.str
                  (if response.ContentType = "" then "application/json"
                    else response.ContentType),
                  RVal.map rresp)]) ∧
              (response.Streaming = true →
                rmapGet rrm (RVal.str "headers") =
                  some (RVal.map [(RVal.str "Content-Encoding",
                    RVal.map [(RVal.str "type", RVal.str "string")])]) ∧
                rmapGet rrm (RVal.str "description") =
                  some (RVal.str "Streaming response.")) ∧
              (response.Streaming = false →
                rmapGet rrm (RVal.str "headers") = none ∧
                (response.Description ≠ "" →
                  rmapGet rrm (RVal.str "description") =
                    some (RVal.str response.Description)) ∧
                (response.Description = "" →
                  rmapGet rrm (RVal.str "description") = none)) := by
  have hpre1 : ∀ r ∈ resource.Routes, hasPrefix r.Path resource.Path = true := by
    intro r hr
    obtain ⟨rest, hrest⟩ := hpre r hr
    rw [hrest]
    exact hasPrefix_append _ _
  have hm1 : ∀ r ∈ resource.Routes, hasPrefix (ext.ToLower r.Method) "/" = false :=
    fun r hr => hasPrefix_slash_false _ (hm r hr)
  obtain ⟨out, hout⟩ := routesToRAML_returns ext env fuel url resource resource.Routes []
    (fun p hp => by cases hp) hpre1 hrender
  have hplaced := routesToRAML_entry_placed ext env fuel url resource _ _ _ hout hm1
  refine ⟨out, hout, ?_⟩
  intro r hr key hkey huniq
  obtain ⟨rest, hrest⟩ := hpre r hr
  have hk := (placedAt_iff_routeKey ext resource hs r rest hrest key).1 hkey
  obtain ⟨r1, hr1, hk1, hmeq, m, hmeth, hentry⟩ := hplaced r hr
  obtain ⟨rest1, hrest1⟩ := hpre r1 hr1
  have h1 := huniq r1 hr1
    ((placedAt_iff_routeKey ext resource hs r1 rest1 hrest1 key).2 (by rw [hk, hk1])) hmeq
  subst h1
  rw [← hk] at hentry
  obtain ⟨responseMap, hloop, hget⟩ := methodToRAML_responses ext env fuel url r1 m hmeth
  refine ⟨m, responseMap, hentry, hget, ?_⟩
  intro response hresp hstatus
  obtain ⟨r2, hr2, hs2, rrm, hrrm, hstored⟩ :=
    responsesToRAML_entry_placed ext env fuel r1.Responses [] responseMap hloop response hresp
  have h2 := hstatus r2 hr2 hs2
  subst h2
  have hinv := hrrm
  unfold responseToRAML at hinv
  obtain ⟨rresp, hschema, _⟩ := (bind_eq_done _ _ _).1 hinv
  obtain ⟨rrm1, hrrm1, hbody, hstream, hplain⟩ :=
    responseToRAML_done ext env fuel r2 rresp hschema
  rw [hrrm] at hrrm1
  simp only [Outcome.done.injEq] at hrrm1
  subst hrrm1
  exact ⟨rrm, rresp, hstored, hschema, hbody, hstream, hplain⟩

/-- C18 witness: the section of the resource whose route `GET /items` declares
the streaming response `streamResponse` is returned; the method entry `get`
holds under `responses` and the status 200 an entry with a headers entry
describing `Content-Encoding` and the description `Streaming response.`. -/
theorem resourceToRAML_response_entries_witness :
    ∃ out, resourceToRAML exampleExt paramEnv 5 "http://api"
        (responsesResource [streamResponse]) = Outcome.done out ∧
      ∃ m responseMap rrm,
        entryAt out none "get" = some (RVal.map m) ∧
        rmapGet m (RVal.str "responses") = some (RVal.map responseMap) ∧
        rmapGet responseMap (RVal.int 200) = some (RVal.map rrm) ∧
        rmapGet rrm (RVal.str "headers") =
          some (RVal.map [(RVal.str "Content-Encoding",
            RVal.map [(RVal.str "type", RVal.str "string")])]) ∧
        rmapGet rrm (RVal.str "description") = some (RVal.str "Streaming response.") := by
  obtain ⟨out, hout, h⟩ :=
    resourceToRAML_response_entries exampleExt paramEnv 5 "http://api"
      (responsesResource [streamResponse]) (fun _ => Iff.rfl)
      (by
        intro r hr
        simp only [responsesResource, List.mem_singleton] at hr
        exact ⟨"", by rw [hr]; decide⟩)
      (by decide)
      (by
        intro r hr
        simp only [responsesResource, List.mem_singleton] at hr
        subst hr
        exact ⟨_, rfl⟩)
  obtain ⟨m, responseMap, hentry, hget, hall⟩ :=
    h { itemsRoute "GET" "/items" false with Responses := [streamResponse] }
      (by simp [responsesResource]) none ⟨"", by decide, by decide⟩
      (by
        intro r1 hr1 _ _
        simp only [responsesResource, List.mem_singleton] at hr1
        exact hr1)
  obtain ⟨rrm, _, hstored, _, _, hstream, _⟩ := hall streamResponse (by simp)
    (by
      intro r2 hr2 _
      simp only [List.mem_singleton] at hr2
      exact hr2)
  exact ⟨out, hout, m, responseMap, rrm, hentry, hget, hstored, (hstream rfl).1, (hstream rfl).2⟩

/-- C18 counterexample: in the section that `resourceToRAML` returns for the
route `GET /items` declaring the streaming response `streamResponse`, the
response entry under the status 200 describes the one header field
`Content-Encoding`, no transfer-encoding field.  When `plainResponse`, with
the same status, is declared after it, or declared by a second route
`GET /items`, the entry under the status 200 has no headers entry although
`streamResponse` is streaming.  And when the encoder of the example fails,
`resourceToRAML` panics and emits no entry. -/
theorem resourceToRAML_streaming_headers :
    (resourceToRAML exampleExt paramEnv 5 "http://api"
        (responsesResource [streamResponse])).bind
        (fun out => Outcome.done (headerNames out none "get" 200)) =
      Outcome.done ["Content-Encoding"] ∧
    (resourceToRAML exampleExt paramEnv 5 "http://api"
        (responsesResource [streamResponse, plainResponse])).bind
        (fun out => Outcome.done (headerNames out none "get" 200)) = Outcome.done [] ∧
    (resourceToRAML exampleExt paramEnv 5 "http://api" twiceResource).bind
        (fun out => Outcome.done (headerNames out none "get" 200)) = Outcome.done [] ∧
    resourceToRAML failingMarshalExt paramEnv 5 "http://api"
        (responsesResource [streamResponse]) = Outcome.panic "json: unsupported type" :=
  ⟨rfl, rfl, rfl, rfl⟩

end Rapid
